import Mathlib

/-
  Verification of the DataLayer and InvalidateMask components of the
  lightweight-charts repository.

  The embedding below is a shallow, executable translation of
  `src/data-layer.ts` (the `DataLayer` class and its helpers),
  `src/api/get-series-plot-row-creator.ts`, `src/helpers/algorithms.ts`
  (`lowerbound`) and `src/model/invalidate-mask.ts`.

  Modelling conventions:
  * JavaScript objects that are shared by reference between the
    timestamp-keyed map `_pointDataByTimePoint`, the sorted array
    `_sortedTimePoints` and the per-series row lists `_seriesRowsBySeries`
    are modelled with explicit arenas: `DLState.rows` is the arena of all
    `PlotRow` objects ever created (a row id is an index into it) and
    `DLState.pds` is the arena of all `TimePointData` objects (a point-data
    id is an index into it).  In-place mutation of a shared object becomes
    an update of the arena slot, which faithfully reproduces the aliasing
    behaviour of the source (index resynchronisation through
    `assignIndexToPointData` is visible through every alias).
  * JavaScript `Map`s are modelled as insertion-ordered association lists
    with the exact `get` / `set` / `delete` / iteration-order semantics of
    the ECMAScript `Map` (set on an existing key keeps its position,
    otherwise appends; delete removes the entry).
  * Input time values are taken after time conversion: a `DataItem` carries
    the converted UTC timestamp (an integer).  The string/business-day
    converters, `originalTime` bookkeeping and per-row colours are
    projections that no claim mentions; they are dropped from the model.
  * The tick-mark weight generator (`fillWeightsForPoints`, from
    `time-scale-point-weight-generator.ts`) is not among the provided
    sources; it is modelled from the spec (see its doc comment) with the
    calendar bucketing abstracted as a parameter `tw`.
-/

namespace LWC

/-- Association list with ECMAScript `Map` lookup semantics. -/
def mapGet {α β : Type} [DecidableEq α] : List (α × β) → α → Option β
  | [], _ => none
  | p :: rest, k => if p.1 = k then some p.2 else mapGet rest k

/-- ECMAScript `Map.set`: replace in place when the key is present
(keys are unique by construction), otherwise append at the end. -/
def mapSet {α β : Type} [DecidableEq α] : List (α × β) → α → β → List (α × β)
  | [], k, v => [(k, v)]
  | p :: rest, k, v => if p.1 = k then (k, v) :: rest else p :: mapSet rest k v

/-- ECMAScript `Map.delete`: remove the entry for the key, returning the new
map together with whether a deletion happened. -/
def mapDelete {α β : Type} [DecidableEq α] : List (α × β) → α → List (α × β) × Bool
  | [], _ => ([], false)
  | p :: rest, k =>
    if p.1 = k then (rest, true)
    else
      let r := mapDelete rest k
      (p :: r.1, r.2)

/-- A normalized per-series, per-time datum (`SeriesPlotRow` /
`WhitespacePlotRow` from `get-series-plot-row-creator.ts`): `value = none`
is a whitespace row, `value = some (o, h, l, c)` a value-bearing row.
Per-row colours and `originalTime` are claim-irrelevant projections and are
omitted. -/
structure PlotRowV where
  index : Nat
  time : Int
  value : Option (Int × Int × Int × Int)
deriving DecidableEq, Repr, Inhabited

/-- `TimePointData` from `data-layer.ts`: the per-timestamp record with the
provisional/dense index, the canonical time point, and the per-series row
mapping (series id to row id in the row arena). -/
structure PointData where
  index : Nat
  timePoint : Int
  mapping : List (Nat × Nat)
deriving DecidableEq, Repr, Inhabited

/-- `InternalTimeScalePoint`: an entry of the sorted time-point array,
referencing its `TimePointData` by arena id. -/
structure SPoint where
  timeWeight : Nat
  time : Int
  pd : Nat
deriving DecidableEq, Repr, Inhabited

/-- The mutable state of a `DataLayer` instance.  `rows` and `pds` are the
object arenas (see the module comment); the remaining four fields are the
four fields of the class. -/
structure DLState where
  rows : List PlotRowV
  pds : List PointData
  pointByTime : List (Int × Nat)
  rowsBySeries : List (Nat × List Nat)
  lastTime : List (Nat × Int)
  sorted : List SPoint
deriving DecidableEq, Repr, Inhabited

/-- A freshly constructed `DataLayer`. -/
def DLState.empty : DLState := ⟨[], [], [], [], [], []⟩

/-- The payload of a series data item after time conversion: whitespace
(neither `open` nor `value` present), a single-value item, or an OHLC item. -/
inductive ItemValue
  | whitespace
  | single (value : Int)
  | ohlc (o h l c : Int)
deriving DecidableEq, Repr

/-- A series data item with its converted UTC timestamp. -/
structure DataItem where
  time : Int
  val : ItemValue
deriving DecidableEq, Repr

/-- The `value` quadruple the plot-row factory builds for an item: the
whitespace guard of `wrapWhitespaceData` yields no value; the line-based
builders duplicate the scalar into all four slots; the bar/candlestick
builders store the OHLC quadruple. -/
def itemPlotValue : DataItem → Option (Int × Int × Int × Int)
  | ⟨_, .whitespace⟩ => none
  | ⟨_, .single v⟩ => some (v, v, v, v)
  | ⟨_, .ohlc o h l c⟩ => some (o, h, l, c)

/-- `isSeriesPlotRow`: a row is value-bearing iff its `value` is present. -/
def isSeriesPlotRow (row : PlotRowV) : Bool := row.value.isSome

/-- Read a row from the arena. -/
def getRowA (rows : List PlotRowV) (rid : Nat) : PlotRowV := rows.getD rid default

/-- Overwrite the `index` field of one row object in the arena. -/
def setRowIndex (rows : List PlotRowV) (rid idx : Nat) : List PlotRowV :=
  rows.set rid { getRowA rows rid with index := idx }

/-- Overwrite the `index` field of every row object of a mapping. -/
def assignRows (rows : List PlotRowV) (idx : Nat) : List (Nat × Nat) → List PlotRowV
  | [] => rows
  | e :: rest => assignRows (setRowIndex rows e.2 idx) idx rest

/-- `assignIndexToPointData` (`data-layer.ts`): set the point data's index
and propagate it into every row of its mapping (through the aliases). -/
def assignIndexToPointData (st : DLState) (p idx : Nat) : DLState :=
  let pd := st.pds.getD p default
  { st with
      pds := st.pds.set p { pd with index := idx },
      rows := assignRows st.rows idx pd.mapping }

/-- The loop `for index = insertIndex; ...` that re-assigns dense indexes to
the point data of `pts` from position `i` on. -/
def assignFromAux (st : DLState) : List SPoint → Nat → DLState
  | [], _ => st
  | sp :: rest, i => assignFromAux (assignIndexToPointData st sp.pd i) rest (i + 1)

/-- Re-assign dense indexes to the points of `pts` from `start` to the end. -/
def assignFrom (st : DLState) (pts : List SPoint) (start : Nat) : DLState :=
  assignFromAux st (pts.drop start) start

/-- Modelled from the spec: `fillWeightsForPoints` of
`time-scale-point-weight-generator.ts` is not among the provided sources.
Per the spec it recomputes tick-mark weights only for the tail starting at
`startIndex`, the weight of a point being a calendar-derived rank of its
timestamp relative to the previous point; the calendar bucketing is
abstracted as the parameter `tw` (previous timestamp, if any, and current
timestamp to weight). -/
def fillWeightsForPoints (tw : Option Int → Int → Nat) (pts : List SPoint)
    (start : Nat) : List SPoint :=
  (List.range pts.length).map (fun i =>
    let sp := pts.getD i default
    if i < start then sp
    else { sp with
            timeWeight := tw (if i = 0 then none else some (pts.getD (i - 1) default).time)
              sp.time })

/-- The binary-search `lowerbound` of `helpers/algorithms.ts`, specialised to
the comparator `(a, b) => a.time.timestamp < b` used by `updateSeriesData`.
The `while (0 < count)` loop strictly decreases `count`, so it is rendered
with structural recursion on a fuel argument instantiated with the initial
`count` (the fuel can never run out before `count` reaches `0`). -/
def lowerboundAux (arr : List SPoint) (value : Int) : Nat → Nat → Nat → Nat
  | 0, start, _ => start
  | fuel + 1, start, count =>
    if 0 < count then
      let count2 := count / 2
      let mid := start + count2
      if (arr.getD mid default).time < value then
        lowerboundAux arr value fuel (mid + 1) (count - count2 - 1)
      else
        lowerboundAux arr value fuel start count2
    else start

/-- `lowerbound(arr, value, (a, b) => a.time.timestamp < b)`. -/
def lowerbound (arr : List SPoint) (value : Int) : Nat :=
  lowerboundAux arr value arr.length 0 arr.length

/-- Insert a point into a list that is already sorted by timestamp. -/
def insertByTime (sp : SPoint) : List SPoint → List SPoint
  | [] => [sp]
  | x :: xs => if sp.time < x.time then sp :: x :: xs else x :: insertByTime sp xs

/-- The `newTimeScalePoints.sort((t1, t2) => t1.time.timestamp - t2.time.timestamp)`
call: sort ascending by timestamp (timestamps are pairwise distinct there,
so any comparison sort computes this unique result). -/
def sortByTime : List SPoint → List SPoint
  | [] => []
  | x :: xs => insertByTime x (sortByTime xs)

/-- `SeriesChanges`: the per-series part of a `DataUpdateResponse`.  Row
values are snapshots of the live row objects at response time. -/
structure SeriesChange where
  data : List PlotRowV
  info : Option Bool
deriving DecidableEq, Repr

/-- `DataUpdateResponse` (`points` entries are reported as
(timeWeight, timestamp) pairs; `originalTime` is projected away). -/
structure DataUpdateResponse where
  series : List (Nat × SeriesChange)
  baseIndex : Option Nat
  points : Option (List (Nat × Int))
  firstChangedPointIndex : Option Int
deriving DecidableEq, Repr

/-- `seriesRowsFirsAndLastTime`: first and last timestamp of a series row
list, or `none` when the list is missing or empty. -/
def seriesRowsFirsAndLastTime (st : DLState) : Option (List Nat) → Option (Int × Int)
  | none => none
  | some rids =>
    if rids.isEmpty then none
    else some ((getRowA st.rows (rids.headD 0)).time, (getRowA st.rows (rids.getLastD 0)).time)

/-- `seriesUpdateInfo`: `lastBarUpdatedOrNewBarsAddedToTheRight` is defined
only when both the new and the previous row list are non-empty, and is then
`newLast ≥ prevLast ∧ newFirst ≥ prevFirst`. -/
def seriesUpdateInfo (st : DLState) (cur prev : Option (List Nat)) : Option Bool :=
  match seriesRowsFirsAndLastTime st cur, seriesRowsFirsAndLastTime st prev with
  | some c, some p => some (decide (p.2 ≤ c.2 ∧ p.1 ≤ c.1))
  | _, _ => none

/-- `DataLayer._getBaseIndex`: `null` when the series map is empty, otherwise
the fold of `Math.max` over the last-row indexes of the non-empty row lists,
starting from `0`. -/
def getBaseIndex (st : DLState) : Option Nat :=
  if st.rowsBySeries.length = 0 then none
  else
    some (st.rowsBySeries.foldl
      (fun b e => if e.2.length ≠ 0 then max b (getRowA st.rows (e.2.getLastD 0)).index else b) 0)

/-- Snapshot the row values of a row-id list. -/
def derefRows (st : DLState) (rids : List Nat) : List PlotRowV :=
  rids.map (getRowA st.rows)

/-- `DataLayer._getUpdateResponse`. -/
def getUpdateResponse (st : DLState) (updatedSeries : Nat) (firstChangedPointIndex : Int)
    (info : Option Bool) : DataUpdateResponse :=
  if firstChangedPointIndex ≠ -1 then
    { series :=
        (st.rowsBySeries.map (fun e =>
          (e.1, { data := derefRows st e.2
                  info := if e.1 = updatedSeries then info else none })))
        ++ (if mapGet st.rowsBySeries updatedSeries = none then
              [(updatedSeries, { data := [], info := info })]
            else []),
      baseIndex := getBaseIndex st,
      points := some (st.sorted.map (fun sp => (sp.timeWeight, sp.time))),
      firstChangedPointIndex := some firstChangedPointIndex }
  else
    { series := [(updatedSeries,
        { data := derefRows st ((mapGet st.rowsBySeries updatedSeries).getD []),
          info := info })],
      baseIndex := getBaseIndex st,
      points := none,
      firstChangedPointIndex := none }

/-- The unbind loop of `setSeriesData` (non-wipe branch): delete the series
from every `pointData.mapping` along the sorted array, tracking whether any
deletion happened. -/
def unbindSeries (st : DLState) (series : Nat) : List SPoint → DLState × Bool
  | [] => (st, false)
  | sp :: rest =>
    let pd := st.pds.getD sp.pd default
    let dm := mapDelete pd.mapping series
    let st1 := { st with pds := st.pds.set sp.pd { pd with mapping := dm.1 } }
    let r := unbindSeries st1 series rest
    (r.1, dm.2 || r.2)

/-- The ingestion loop of `setSeriesData`: for each item find-or-create the
`TimePointData` of its timestamp (creation marks the time scale affected and
uses the provisional index `0`), build the plot row with the point data's
current index, install it in the mapping, and collect the row ids in input
order. -/
def ingestData (st : DLState) (series : Nat) (affected : Bool) :
    List DataItem → DLState × Bool × List Nat
  | [] => (st, affected, [])
  | item :: rest =>
    let r : DLState × Nat × Bool :=
      match mapGet st.pointByTime item.time with
      | some p => (st, p, affected)
      | none =>
        let p := st.pds.length
        ({ st with
            pds := st.pds ++ [{ index := 0, timePoint := item.time, mapping := [] }],
            pointByTime := mapSet st.pointByTime item.time p }, p, true)
    let st1 := r.1
    let pdId := r.2.1
    let pd := st1.pds.getD pdId default
    let rid := st1.rows.length
    let row : PlotRowV := { index := pd.index, time := item.time, value := itemPlotValue item }
    let st2 := { st1 with
        rows := st1.rows ++ [row],
        pds := st1.pds.set pdId { pd with mapping := mapSet pd.mapping series rid } }
    let rec2 := ingestData st2 series r.2.2 rest
    (rec2.1, rec2.2.1, rid :: rec2.2.2)

/-- `DataLayer._cleanupPointsData`: walk the (old) sorted array and remove
from the timestamp map every timestamp whose point data lost all rows. -/
def cleanupPointsData (st : DLState) : List SPoint → DLState
  | [] => st
  | sp :: rest =>
    let st1 :=
      if (st.pds.getD sp.pd default).mapping.isEmpty then
        { st with pointByTime := (mapDelete st.pointByTime sp.time).1 }
      else st
    cleanupPointsData st1 rest

/-- `DataLayer._setRowsToSeries`: store the value-bearing rows and the last
raw row's time point, or drop both entries when the new list is empty. -/
def setRowsToSeries (st : DLState) (series : Nat) (seriesRows : List Nat) : DLState :=
  if seriesRows.length ≠ 0 then
    { st with
        rowsBySeries := mapSet st.rowsBySeries series
          (seriesRows.filter (fun rid => isSeriesPlotRow (getRowA st.rows rid))),
        lastTime := mapSet st.lastTime series (getRowA st.rows (seriesRows.getLastD 0)).time }
  else
    { st with
        rowsBySeries := (mapDelete st.rowsBySeries series).1,
        lastTime := (mapDelete st.lastTime series).1 }

/-- The first loop of `_replaceTimeScalePoints`: walk the common prefix of the
old and new point arrays; on the first timestamp mismatch break with that
position; otherwise copy the old point's `timeWeight` onto the new point and
re-assign the position as index to the (new) point data. -/
def syncPrefix (st : DLState) : List SPoint → List SPoint → Nat → DLState × List SPoint × Option Nat
  | _, [], _ => (st, [], none)
  | [], ns, _ => (st, ns, none)
  | o :: os, n :: ns, i =>
    if o.time ≠ n.time then (st, n :: ns, some i)
    else
      let n1 : SPoint := { n with timeWeight := o.timeWeight }
      let st1 := assignIndexToPointData st n1.pd i
      let r := syncPrefix st1 os ns (i + 1)
      (r.1, n1 :: r.2.1, r.2.2)

/-- The `firstChangedPointIndex` computation of `_replaceTimeScalePoints`
after its prefix loop: the break position if the loop broke, otherwise
`min(|old|, |new|)` when the lengths differ, and `-1` when nothing changed. -/
def breakToIndex : Option Nat → Nat → Nat → Int
  | some i, _, _ => (i : Int)
  | none, m, n => if m ≠ n then ((min m n : Nat) : Int) else -1

/-- `DataLayer._replaceTimeScalePoints`: diff the new points against the
current sorted array, compute `firstChangedPointIndex`, and when a change is
found re-assign dense indexes from it to the end, re-fill the tail weights
and install the new array. -/
def replaceTimeScalePoints (tw : Option Int → Int → Nat) (st : DLState)
    (newTimePoints : List SPoint) : DLState × Int :=
  let r := syncPrefix st st.sorted newTimePoints 0
  let st1 := r.1
  let newPts := r.2.1
  let firstChangedPointIndex : Int := breakToIndex r.2.2 st1.sorted.length newPts.length
  if firstChangedPointIndex = -1 then (st1, -1)
  else
    let start := firstChangedPointIndex.toNat
    let st2 := assignFrom st1 newPts start
    let newPts2 := fillWeightsForPoints tw newPts start
    ({ st2 with sorted := newPts2 }, firstChangedPointIndex)

/-- Build `newTimeScalePoints` from the timestamp map (values in insertion
order, provisional weight `0`) and sort them by timestamp. -/
def collectTimeScalePoints (st : DLState) : List SPoint :=
  sortByTime (st.pointByTime.map (fun tp =>
    { timeWeight := 0, time := (st.pds.getD tp.2 default).timePoint, pd := tp.2 }))

/-- The prior-state unbinding step of `setSeriesData`: wipe the timestamp
map wholesale when the updated series is the only registered one, otherwise
delete the series from every mapping along the sorted array.  Returns the
new state, the `needCleanupPoints` flag and the `isTimeScaleAffected` flag. -/
def setSeriesDataUnbind (st : DLState) (series : Nat) : DLState × Bool × Bool :=
  let needCleanupPoints0 : Bool := decide (st.pointByTime.length ≠ 0)
  match mapGet st.rowsBySeries series with
  | none => (st, needCleanupPoints0, false)
  | some _ =>
    if st.rowsBySeries.length = 1 then
      ({ st with pointByTime := [] }, false, true)
    else
      let ub := unbindSeries st series st.sorted
      (ub.1, needCleanupPoints0, ub.2)

/-- The mutation pipeline of `setSeriesData` after unbinding: ingestion,
cleanup, per-series binding and time-scale reconciliation.  Returns the
final state and `firstChangedPointIndex`. -/
def setSeriesDataMain (tw : Option Int → Int → Nat) (st1 : DLState) (series : Nat)
    (needCleanupPoints affected0 : Bool) (data : List DataItem) : DLState × Int :=
  let ing := ingestData st1 series affected0 data
  let st2 := ing.1
  let seriesRows := ing.2.2
  let st3 := if needCleanupPoints then cleanupPointsData st2 st2.sorted else st2
  let st4 := setRowsToSeries st3 series seriesRows
  if ing.2.1 then replaceTimeScalePoints tw st4 (collectTimeScalePoints st4)
  else (st4, -1)

/-- `DataLayer.setSeriesData`.  Returns the state after the call together
with the `DataUpdateResponse`. -/
def setSeriesData (tw : Option Int → Int → Nat) (st : DLState) (series : Nat)
    (data : List DataItem) : DLState × DataUpdateResponse :=
  let prevSeriesRows := mapGet st.rowsBySeries series
  let u := setSeriesDataUnbind st series
  let m := setSeriesDataMain tw u.1 series u.2.1 u.2.2 data
  (m.1, getUpdateResponse m.1 series m.2
    (seriesUpdateInfo m.1 (mapGet m.1.rowsBySeries series) prevSeriesRows))

/-- `DataLayer.removeSeries` is `setSeriesData(series, [])`. -/
def removeSeries (tw : Option Int → Int → Nat) (st : DLState) (series : Nat) :
    DLState × DataUpdateResponse :=
  setSeriesData tw st series []

/-- `DataLayer._updateLastSeriesRow`: against the series' current last row,
append a value-bearing row whose timestamp exceeds it (a whitespace row is
ignored there), and otherwise replace the last row in place (a whitespace
row removes the trailing slot instead); always record the row's time point
as the series' last time. -/
def updateLastSeriesRow (st : DLState) (series rid : Nat) : DLState :=
  let seriesData := (mapGet st.rowsBySeries series).getD []
  let plotRow := getRowA st.rows rid
  let newData :=
    match seriesData.getLast? with
    | none => if isSeriesPlotRow plotRow then seriesData ++ [rid] else seriesData
    | some lastRid =>
      if (getRowA st.rows lastRid).time < plotRow.time then
        if isSeriesPlotRow plotRow then seriesData ++ [rid] else seriesData
      else
        if isSeriesPlotRow plotRow then seriesData.dropLast ++ [rid]
        else seriesData.dropLast
  { st with
      rowsBySeries := mapSet st.rowsBySeries series newData,
      lastTime := mapSet st.lastTime series plotRow.time }

/-- The error kinds a public `DataLayer` operation can raise. -/
inductive DataUpdateError
  | updateOutOfOrder
deriving DecidableEq, Repr

/-- The body of `DataLayer.updateSeriesData` after the out-of-order guard:
find-or-create the `TimePointData` of the item's timestamp, build and
install the plot row, update the per-series last row, and either return an
incremental response (existing time point) or splice the new point into the
sorted array at its lower bound, re-index and re-weight from there. -/
def updateSeriesDataImpl (tw : Option Int → Int → Nat) (st : DLState) (series : Nat)
    (item : DataItem) : DLState × DataUpdateResponse :=
  let time := item.time
  let c : DLState × Nat × Bool :=
    match mapGet st.pointByTime time with
    | some p => (st, p, false)
    | none =>
      let p := st.pds.length
      ({ st with
          pds := st.pds ++ [{ index := 0, timePoint := time, mapping := [] }],
          pointByTime := mapSet st.pointByTime time p }, p, true)
  let st1 := c.1
  let pdId := c.2.1
  let affectsTimeScale := c.2.2
  let pd := st1.pds.getD pdId default
  let rid := st1.rows.length
  let plotRow : PlotRowV := { index := pd.index, time := time, value := itemPlotValue item }
  let st2 := { st1 with
      rows := st1.rows ++ [plotRow],
      pds := st1.pds.set pdId { pd with mapping := mapSet pd.mapping series rid } }
  let st3 := updateLastSeriesRow st2 series rid
  let info := some (isSeriesPlotRow plotRow)
  if !affectsTimeScale then (st3, getUpdateResponse st3 series (-1) info)
  else
    let newPoint : SPoint :=
      { timeWeight := 0, time := (st3.pds.getD pdId default).timePoint, pd := pdId }
    let insertIndex := lowerbound st3.sorted newPoint.time
    let st4 := { st3 with
        sorted := st3.sorted.take insertIndex ++ newPoint :: st3.sorted.drop insertIndex }
    let st5 := assignFrom st4 st4.sorted insertIndex
    let st6 := { st5 with sorted := fillWeightsForPoints tw st5.sorted insertIndex }
    (st6, getUpdateResponse st6 series (insertIndex : Int) info)

/-- `DataLayer.updateSeriesData`.  The out-of-order check precedes every
mutation of the layer, so the input state is returned unchanged alongside
the error. -/
def updateSeriesData (tw : Option Int → Int → Nat) (st : DLState) (series : Nat)
    (item : DataItem) : DLState × Except DataUpdateError DataUpdateResponse :=
  let bad :=
    match mapGet st.lastTime series with
    | some lt => decide (item.time < lt)
    | none => false
  if bad then (st, .error .updateOutOfOrder)
  else
    let r := updateSeriesDataImpl tw st series item
    (r.1, .ok r.2)

/-- The states a `DataLayer` can reach through its public operations
(`removeSeries` is `setSeriesData` with empty data; a failing
`updateSeriesData` leaves the state unchanged, so the `update` constructor
covers it as well). -/
inductive Reachable (tw : Option Int → Int → Nat) : DLState → Prop
  | empty : Reachable tw DLState.empty
  | set (st : DLState) (series : Nat) (data : List DataItem) :
      Reachable tw st → Reachable tw (setSeriesData tw st series data).1
  | update (st : DLState) (series : Nat) (item : DataItem) :
      Reachable tw st → Reachable tw (updateSeriesData tw st series item).1

/-- The variants of `TimeScaleInvalidation` (`invalidate-mask.ts`); a logical
range is a pair of numbers. -/
inductive TimeScaleInvalidation
  | fitContent
  | applyRange (value : Int × Int)
  | applyBarSpacing (value : Int)
  | applyRightOffset (value : Int)
  | reset
deriving DecidableEq, Repr

/-- `PaneInvalidation`: a level (0 = None, 1 = Cursor, 2 = Light, 3 = Full)
and an optional auto-scale flag. -/
structure PaneInvalidation where
  level : Nat
  autoScale : Option Bool
deriving DecidableEq, Repr

/-- JavaScript `a || b` on `boolean | undefined` values. -/
def jsOr : Option Bool → Option Bool → Option Bool
  | some true, _ => some true
  | some false, b => b
  | none, b => b

/-- `mergePaneInvalidation`. -/
def mergePaneInvalidation (beforeValue : Option PaneInvalidation)
    (newValue : PaneInvalidation) : PaneInvalidation :=
  match beforeValue with
  | none => newValue
  | some b => { level := max b.level newValue.level, autoScale := jsOr b.autoScale newValue.autoScale }

/-- The state of an `InvalidateMask`. -/
structure InvalidateMask where
  invalidatedPanes : List (Nat × PaneInvalidation)
  globalLevel : Nat
  timeScaleInvalidations : List TimeScaleInvalidation
deriving DecidableEq, Repr

/-- `InvalidateMask.invalidatePane`. -/
def InvalidateMask.invalidatePane (m : InvalidateMask) (paneIndex : Nat)
    (invalidation : PaneInvalidation) : InvalidateMask :=
  { m with invalidatedPanes :=
      (mapSet m.invalidatedPanes paneIndex
        (mergePaneInvalidation (mapGet m.invalidatedPanes paneIndex) invalidation)) }

/-- `InvalidateMask.setFitContent`: replaces the whole invalidation list. -/
def InvalidateMask.setFitContent (m : InvalidateMask) : InvalidateMask :=
  { m with timeScaleInvalidations := [.fitContent] }

/-- `InvalidateMask.applyRange`: replaces the whole invalidation list. -/
def InvalidateMask.applyRange (m : InvalidateMask) (range : Int × Int) : InvalidateMask :=
  { m with timeScaleInvalidations := [.applyRange range] }

/-- `InvalidateMask.resetTimeScale`: replaces the whole invalidation list. -/
def InvalidateMask.resetTimeScale (m : InvalidateMask) : InvalidateMask :=
  { m with timeScaleInvalidations := [.reset] }

/-- `InvalidateMask.setBarSpacing`: appends to the invalidation list. -/
def InvalidateMask.setBarSpacing (m : InvalidateMask) (barSpacing : Int) : InvalidateMask :=
  { m with timeScaleInvalidations := m.timeScaleInvalidations ++ [.applyBarSpacing barSpacing] }

/-- `InvalidateMask.setRightOffset`: appends to the invalidation list. -/
def InvalidateMask.setRightOffset (m : InvalidateMask) (offset : Int) : InvalidateMask :=
  { m with timeScaleInvalidations := m.timeScaleInvalidations ++ [.applyRightOffset offset] }

/-- `InvalidateMask._applyTimeScaleInvalidation`: dispatch one recorded
invalidation through the corresponding setter. -/
def InvalidateMask.applyTimeScaleInvalidation (m : InvalidateMask) :
    TimeScaleInvalidation → InvalidateMask
  | .fitContent => m.setFitContent
  | .applyRange v => m.applyRange v
  | .applyBarSpacing v => m.setBarSpacing v
  | .applyRightOffset v => m.setRightOffset v
  | .reset => m.resetTimeScale

/-- `InvalidateMask.merge`: replay the other mask's time-scale invalidations
through the setters, take the maximum global level, and merge the pane
entries. -/
def InvalidateMask.merge (m other : InvalidateMask) : InvalidateMask :=
  let m1 := other.timeScaleInvalidations.foldl InvalidateMask.applyTimeScaleInvalidation m
  let m2 := { m1 with globalLevel := max m1.globalLevel other.globalLevel }
  other.invalidatedPanes.foldl (fun acc e => acc.invalidatePane e.1 e.2) m2

/-- The time-scale invalidation variants that replace the accumulated list
(`FitContent`, `ApplyRange`, `Reset`), as opposed to the appended ones. -/
def isReplacingInvalidation : TimeScaleInvalidation → Bool
  | .fitContent => true
  | .applyRange _ => true
  | .reset => true
  | .applyBarSpacing _ => false
  | .applyRightOffset _ => false

theorem applyTSI_ts (m : InvalidateMask) (v : TimeScaleInvalidation) :
    (m.applyTimeScaleInvalidation v).timeScaleInvalidations =
      if isReplacingInvalidation v then [v] else m.timeScaleInvalidations ++ [v] := by
  cases v <;> rfl

theorem applyTSI_level (m : InvalidateMask) (v : TimeScaleInvalidation) :
    (m.applyTimeScaleInvalidation v).globalLevel = m.globalLevel := by
  cases v <;> rfl

theorem foldTSI_level (l : List TimeScaleInvalidation) (m : InvalidateMask) :
    (l.foldl InvalidateMask.applyTimeScaleInvalidation m).globalLevel = m.globalLevel := by
  induction l generalizing m with
  | nil => rfl
  | cons v rest ih => simpa [List.foldl, applyTSI_level] using ih (m.applyTimeScaleInvalidation v)

theorem foldTSI_ts (l : List TimeScaleInvalidation) (m : InvalidateMask) :
    (l.foldl InvalidateMask.applyTimeScaleInvalidation m).timeScaleInvalidations =
      l.foldl (fun acc v => if isReplacingInvalidation v then [v] else acc ++ [v])
        m.timeScaleInvalidations := by
  induction l generalizing m with
  | nil => rfl
  | cons v rest ih =>
    simp only [List.foldl]
    rw [ih, applyTSI_ts]

theorem invalidatePane_level (m : InvalidateMask) (i : Nat) (p : PaneInvalidation) :
    (m.invalidatePane i p).globalLevel = m.globalLevel := rfl

theorem invalidatePane_ts (m : InvalidateMask) (i : Nat) (p : PaneInvalidation) :
    (m.invalidatePane i p).timeScaleInvalidations = m.timeScaleInvalidations := rfl

theorem foldPane_level (l : List (Nat × PaneInvalidation)) (m : InvalidateMask) :
    (l.foldl (fun acc e => acc.invalidatePane e.1 e.2) m).globalLevel = m.globalLevel := by
  induction l generalizing m with
  | nil => rfl
  | cons e rest ih => simpa [List.foldl, invalidatePane_level] using ih (m.invalidatePane e.1 e.2)

theorem foldPane_ts (l : List (Nat × PaneInvalidation)) (m : InvalidateMask) :
    (l.foldl (fun acc e => acc.invalidatePane e.1 e.2) m).timeScaleInvalidations =
      m.timeScaleInvalidations := by
  induction l generalizing m with
  | nil => rfl
  | cons e rest ih => simpa [List.foldl, invalidatePane_ts] using ih (m.invalidatePane e.1 e.2)

/-- A trivial tick-mark weight function, used to instantiate the abstracted
calendar bucketing in concrete examples. -/
def twZero : Option Int → Int → Nat := fun _ _ => 0

/-- A sample layer state: series 1 carries two line points at timestamps 1
and 2. -/
def exSetState : DLState :=
  (setSeriesData twZero DLState.empty 1 [⟨1, .single 10⟩, ⟨2, .single 11⟩]).1

theorem assignIndexToPointData_sorted (st : DLState) (p i : Nat) :
    (assignIndexToPointData st p i).sorted = st.sorted := rfl

theorem assignIndexToPointData_pointByTime (st : DLState) (p i : Nat) :
    (assignIndexToPointData st p i).pointByTime = st.pointByTime := rfl

theorem assignIndexToPointData_rowsBySeries (st : DLState) (p i : Nat) :
    (assignIndexToPointData st p i).rowsBySeries = st.rowsBySeries := rfl

theorem assignIndexToPointData_lastTime (st : DLState) (p i : Nat) :
    (assignIndexToPointData st p i).lastTime = st.lastTime := rfl

/-- The position of the first timestamp mismatch between two point arrays,
if any (positionwise; `none` when one array is a timestamp-prefix of the
other). -/
def firstDiffIdx : List SPoint → List SPoint → Option Nat
  | o :: os, n :: ns =>
    if o.time ≠ n.time then some 0 else (firstDiffIdx os ns).map (fun k => k + 1)
  | _, _ => none

/-- `firstChangedPointIndex` as the claim states it: the smallest position
at which the old and new sequences carry different timestamps; when the
common prefix fully matches but the lengths differ, the length of the
shorter array; `-1` when the timestamp sequences are identical. -/
def firstChangedIndexSpec (old new : List SPoint) : Int :=
  match firstDiffIdx old new with
  | some i => (i : Int)
  | none => if old.length = new.length then -1 else ((min old.length new.length : Nat) : Int)

theorem firstChangedIndexSpec_eq (old new : List SPoint) :
    firstChangedIndexSpec old new = breakToIndex (firstDiffIdx old new) old.length new.length := by
  cases hfd : firstDiffIdx old new with
  | some i => simp [firstChangedIndexSpec, breakToIndex, hfd]
  | none =>
    by_cases h : old.length = new.length
    · simp [firstChangedIndexSpec, breakToIndex, hfd, h]
    · simp [firstChangedIndexSpec, breakToIndex, hfd, h]

/-- The length of the matching timestamp prefix of two point arrays. -/
def matchedLen (old new : List SPoint) : Nat :=
  (firstDiffIdx old new).getD (min old.length new.length)

theorem matchedLen_nil_left (new : List SPoint) : matchedLen [] new = 0 := by
  cases new <;> simp [matchedLen, firstDiffIdx]

theorem matchedLen_nil_right (old : List SPoint) : matchedLen old [] = 0 := by
  cases old <;> simp [matchedLen, firstDiffIdx]

theorem firstDiffIdx_cons (o n : SPoint) (os ns : List SPoint) :
    firstDiffIdx (o :: os) (n :: ns) =
      if o.time ≠ n.time then some 0 else (firstDiffIdx os ns).map (fun k => k + 1) := rfl

theorem matchedLen_cons (o n : SPoint) (os ns : List SPoint) :
    matchedLen (o :: os) (n :: ns) =
      if o.time = n.time then matchedLen os ns + 1 else 0 := by
  by_cases h : o.time = n.time
  · have hne : ¬ o.time ≠ n.time := by simpa using h
    rw [if_pos h]
    unfold matchedLen
    rw [firstDiffIdx_cons, if_neg hne]
    cases hfd : firstDiffIdx os ns with
    | none =>
      simp only [hfd, Option.map_none', Option.getD_none, List.length_cons]
      rw [Nat.succ_min_succ]
    | some k => simp [hfd]
  · have hne : o.time ≠ n.time := h
    rw [if_neg h]
    unfold matchedLen
    rw [firstDiffIdx_cons, if_pos hne]
    rfl

theorem firstDiffIdx_some (old : List SPoint) :
    ∀ (new : List SPoint) (i : Nat), firstDiffIdx old new = some i →
    (∀ j, j < i → (old.getD j default).time = (new.getD j default).time) ∧
    i < min old.length new.length ∧
    (old.getD i default).time ≠ (new.getD i default).time := by
  induction old with
  | nil =>
    intro new i h
    cases new with
    | nil => exact absurd h (by rw [show firstDiffIdx [] [] = none from rfl]; simp)
    | cons n ns => exact absurd h (by rw [show firstDiffIdx [] (n :: ns) = none from rfl]; simp)
  | cons o os ih =>
    intro new i h
    cases new with
    | nil => exact absurd h (by rw [show firstDiffIdx (o :: os) [] = none from rfl]; simp)
    | cons n ns =>
      rw [firstDiffIdx_cons] at h
      by_cases ht : o.time ≠ n.time
      · rw [if_pos ht] at h
        cases h
        refine ⟨?_, ?_, ?_⟩
        · intro j hj
          omega
        · simp [Nat.succ_min_succ]
        · simpa using ht
      · rw [if_neg ht] at h
        have hteq : o.time = n.time := not_not.mp ht
        cases hfd : firstDiffIdx os ns with
        | none => rw [hfd] at h; cases h
        | some k =>
          rw [hfd] at h
          have hik : i = k + 1 := by cases h; rfl
          obtain ⟨h1, h2, h3⟩ := ih ns k hfd
          subst hik
          refine ⟨?_, ?_, ?_⟩
          · intro j hj
            cases j with
            | zero => simpa using hteq
            | succ j1 => simpa using h1 j1 (by omega)
          · simp only [List.length_cons, Nat.succ_min_succ]
            omega
          · simpa using h3

theorem firstDiffIdx_none (old : List SPoint) :
    ∀ (new : List SPoint), firstDiffIdx old new = none →
    ∀ j, j < min old.length new.length →
      (old.getD j default).time = (new.getD j default).time := by
  induction old with
  | nil => intro new _ j hj; simp at hj
  | cons o os ih =>
    intro new h j hj
    cases new with
    | nil => simp at hj
    | cons n ns =>
      rw [firstDiffIdx_cons] at h
      by_cases ht : o.time ≠ n.time
      · rw [if_pos ht] at h; cases h
      · rw [if_neg ht] at h
        have hteq : o.time = n.time := not_not.mp ht
        cases j with
        | zero => simpa using hteq
        | succ j1 =>
          have hfd : firstDiffIdx os ns = none := by
            cases hfd : firstDiffIdx os ns with
            | none => rfl
            | some k => rw [hfd] at h; cases h
          have hj1 : j1 < min os.length ns.length := by
            simp only [List.length_cons, Nat.succ_min_succ] at hj
            omega
          simpa using ih ns hfd j1 hj1

theorem syncPrefix_spec (old : List SPoint) :
    ∀ (st : DLState) (new : List SPoint) (i : Nat),
    (syncPrefix st old new i).1.sorted = st.sorted ∧
    (syncPrefix st old new i).2.1.length = new.length ∧
    (syncPrefix st old new i).2.2 = (firstDiffIdx old new).map (fun k => i + k) ∧
    ∀ j : Nat, j < new.length →
      (syncPrefix st old new i).2.1.getD j default =
        (if j < matchedLen old new
         then { new.getD j default with timeWeight := (old.getD j default).timeWeight }
         else new.getD j default) := by
  induction old with
  | nil =>
    intro st new i
    cases new with
    | nil => simp [syncPrefix, firstDiffIdx, matchedLen]
    | cons n ns =>
      refine ⟨rfl, rfl, by simp [syncPrefix, firstDiffIdx], ?_⟩
      intro j hj
      simp [syncPrefix, matchedLen_nil_left]
  | cons o os ih =>
    intro st new i
    cases new with
    | nil => exact ⟨rfl, rfl, by simp [syncPrefix, firstDiffIdx], by intro j hj; cases hj⟩
    | cons n ns =>
      by_cases ht : o.time = n.time
      · have hne : ¬ o.time ≠ n.time := by simpa using ht
        have hrec := ih (assignIndexToPointData st n.pd i) ns (i + 1)
        simp only [syncPrefix, hne, ite_false, if_neg, not_false_eq_true]
        refine ⟨?_, ?_, ?_, ?_⟩
        · rw [hrec.1, assignIndexToPointData_sorted]
        · simpa using hrec.2.1
        · rw [hrec.2.2.1]
          simp only [firstDiffIdx, hne, ite_false, if_neg, not_false_eq_true]
          cases firstDiffIdx os ns with
          | none => simp
          | some k =>
            simp only [Option.map_some']
            congr 1
            omega
        · intro j hj
          cases j with
          | zero =>
            simp [matchedLen_cons, ht]
          | succ k =>
            have hk : k < ns.length := by simpa using hj
            have h4 := hrec.2.2.2 k hk
            simp only [List.getD_cons_succ]
            rw [h4, matchedLen_cons, if_pos ht]
            by_cases hkm : k < matchedLen os ns
            · rw [if_pos hkm, if_pos (by omega)]
            · rw [if_neg hkm, if_neg (by omega)]
      · have hne : o.time ≠ n.time := ht
        have hred : syncPrefix st (o :: os) (n :: ns) i = (st, n :: ns, some i) := by
          simp [syncPrefix, hne]
        rw [hred]
        refine ⟨rfl, rfl, ?_, ?_⟩
        · simp [firstDiffIdx, hne]
        · intro j hj
          simp [matchedLen_cons, ht]

theorem fillWeightsForPoints_length (tw : Option Int → Int → Nat) (pts : List SPoint)
    (start : Nat) : (fillWeightsForPoints tw pts start).length = pts.length := by
  simp [fillWeightsForPoints]

theorem fillWeightsForPoints_getD_lt (tw : Option Int → Int → Nat) (pts : List SPoint)
    (start i : Nat) (hi : i < pts.length) (hs : i < start) :
    (fillWeightsForPoints tw pts start).getD i default = pts.getD i default := by
  unfold fillWeightsForPoints
  rw [List.getD_eq_getElem?_getD]
  rw [List.getElem?_map]
  rw [List.getElem?_range hi]
  simp [hs]

/-- C2: the diff `_replaceTimeScalePoints` performs against the previous
sorted array yields `firstChangedPointIndex` exactly as specified: the
smallest position with a timestamp mismatch; `min(|old|, |new|)` when the
common prefix matches but the lengths differ; `-1` (leaving the sorted array
untouched) when the timestamp sequences are identical; and every new point
of the matching prefix keeps the old point's `timeWeight`. -/
theorem C2_first_changed_point_index (tw : Option Int → Int → Nat) (st : DLState)
    (newPts : List SPoint) :
    ((replaceTimeScalePoints tw st newPts).2 = firstChangedIndexSpec st.sorted newPts) ∧
    ((replaceTimeScalePoints tw st newPts).2 = -1 ↔
      st.sorted.length = newPts.length ∧
      ∀ j, j < st.sorted.length →
        (st.sorted.getD j default).time = (newPts.getD j default).time) ∧
    ((replaceTimeScalePoints tw st newPts).2 = -1 →
      (replaceTimeScalePoints tw st newPts).1.sorted = st.sorted) ∧
    (∀ i : Nat, (replaceTimeScalePoints tw st newPts).2 = (i : Int) →
      (∀ j, j < i → (st.sorted.getD j default).time = (newPts.getD j default).time) ∧
      (i < min st.sorted.length newPts.length →
        (st.sorted.getD i default).time ≠ (newPts.getD i default).time) ∧
      (min st.sorted.length newPts.length ≤ i →
        i = min st.sorted.length newPts.length ∧ st.sorted.length ≠ newPts.length)) ∧
    (∀ i : Nat, (i : Int) < (replaceTimeScalePoints tw st newPts).2 →
      (replaceTimeScalePoints tw st newPts).1.sorted.getD i default =
        { newPts.getD i default with timeWeight := (st.sorted.getD i default).timeWeight }) := by
  obtain ⟨hs, hl, hb, hpos⟩ := syncPrefix_spec st.sorted st newPts 0
  have hb0 : (syncPrefix st st.sorted newPts 0).2.2 = firstDiffIdx st.sorted newPts := by
    rw [hb]
    cases firstDiffIdx st.sorted newPts with
    | none => rfl
    | some k => simp
  simp only [replaceTimeScalePoints]
  rw [hb0, hs, hl]
  cases hfd : firstDiffIdx st.sorted newPts with
  | some i =>
    obtain ⟨hall, hmin, hne⟩ := firstDiffIdx_some st.sorted newPts i hfd
    have hne1 : (i : Int) ≠ -1 := by omega
    simp only [breakToIndex]
    rw [if_neg hne1]
    refine ⟨?_, ?_, ?_, ?_, ?_⟩
    · rw [firstChangedIndexSpec_eq, hfd]
      simp only [breakToIndex]
    · simp only [hne1, false_iff, not_and]
      intro hlen hallj
      exact absurd (hallj i (by omega)) hne
    · intro h
      exact absurd h hne1
    · intro i2 h
      have hii : i2 = i := by omega
      subst hii
      exact ⟨hall, fun _ => hne, fun hge => absurd hmin (by omega)⟩
    · intro i2 h
      have hii : i2 < i := by omega
      simp only [Int.toNat_natCast]
      have hi2len : i2 < newPts.length := by omega
      rw [fillWeightsForPoints_getD_lt tw _ i i2 (by rw [hl]; exact hi2len) hii]
      rw [hpos i2 hi2len]
      rw [if_pos (by rw [matchedLen, hfd]; simpa using hii)]
  | none =>
    simp only [breakToIndex]
    by_cases hlen : st.sorted.length = newPts.length
    · have hcond : ¬ st.sorted.length ≠ newPts.length := by simpa using hlen
      rw [if_neg hcond, if_pos rfl]
      refine ⟨?_, ?_, ?_, ?_, ?_⟩
      · rw [firstChangedIndexSpec_eq, hfd]
        simp only [breakToIndex, if_neg hcond]
      · simp only [true_iff]
        refine ⟨hlen, ?_⟩
        intro j hj
        exact firstDiffIdx_none st.sorted newPts hfd j (by omega)
      · intro _
        exact hs
      · intro i2 h
        exact absurd h (by omega)
      · intro i2 h
        exact absurd h (by omega)
    · have hcond : st.sorted.length ≠ newPts.length := hlen
      rw [if_pos hcond]
      have hne1 : ((min st.sorted.length newPts.length : Nat) : Int) ≠ -1 := by omega
      rw [if_neg hne1]
      refine ⟨?_, ?_, ?_, ?_, ?_⟩
      · rw [firstChangedIndexSpec_eq, hfd]
        simp only [breakToIndex, if_pos hcond]
      · simp only [hne1, false_iff, not_and]
        intro hcontra
        exact absurd hcontra hlen
      · intro h
        exact absurd h hne1
      · intro i2 h
        have hii : i2 = min st.sorted.length newPts.length := by omega
        subst hii
        refine ⟨?_, ?_, ?_⟩
        · intro j hj
          exact firstDiffIdx_none st.sorted newPts hfd j (by omega)
        · intro hlt
          exact absurd hlt (by omega)
        · intro _
          exact ⟨rfl, hlen⟩
      · intro i2 h
        have hii : i2 < min st.sorted.length newPts.length := by omega
        simp only [Int.toNat_natCast]
        have hi2len : i2 < newPts.length := by omega
        rw [fillWeightsForPoints_getD_lt tw _ _ i2 (by rw [hl]; exact hi2len) hii]
        rw [hpos i2 hi2len]
        rw [if_pos (by rw [matchedLen, hfd]; simpa using hii)]

/-- Witness for C2 at a concrete input: diffing `[t=1, t=2]` (the sorted
array of `exSetState`) against new points `[t=1, t=3]` yields
`firstChangedPointIndex = 1`. -/
theorem C2_first_changed_point_index_witness :
    (replaceTimeScalePoints twZero exSetState [⟨0, 1, 0⟩, ⟨0, 3, 5⟩]).2 = ((1 : Nat) : Int) ∧
    (exSetState.sorted.getD 0 default).time =
      (([⟨0, 1, 0⟩, ⟨0, 3, 5⟩] : List SPoint).getD 0 default).time := by
  constructor
  · have h := (C2_first_changed_point_index twZero exSetState [⟨0, 1, 0⟩, ⟨0, 3, 5⟩]).1
    rw [h]
    rfl
  · have h := (C2_first_changed_point_index twZero exSetState [⟨0, 1, 0⟩, ⟨0, 3, 5⟩]).2.2.2.1 1 (by
      have h1 := (C2_first_changed_point_index twZero exSetState [⟨0, 1, 0⟩, ⟨0, 3, 5⟩]).1
      rw [h1]
      rfl)
    exact h.1 0 (by omega)

/-- C3: `updateSeriesData` raises `UpdateOutOfOrder` exactly when the layer
holds a last time point for the series and the item's converted timestamp is
strictly below it; with a timestamp at or above the last one the call
returns a normal response. -/
theorem C3_updateOutOfOrder_iff (tw : Option Int → Int → Nat) (st : DLState)
    (series : Nat) (item : DataItem) :
    ((updateSeriesData tw st series item).2 = .error .updateOutOfOrder ↔
      ∃ lt, mapGet st.lastTime series = some lt ∧ item.time < lt) ∧
    ((∀ lt, mapGet st.lastTime series = some lt → lt ≤ item.time) →
      (updateSeriesData tw st series item).2 = .ok (updateSeriesDataImpl tw st series item).2) := by
  unfold updateSeriesData
  cases h : mapGet st.lastTime series with
  | none =>
    refine ⟨?_, ?_⟩
    · simp [h]
    · intro _
      simp [h]
  | some lt =>
    by_cases hlt : item.time < lt
    · refine ⟨?_, ?_⟩
      · simp only [h, hlt, decide_true_eq_true, if_pos]
        constructor
        · intro _
          exact ⟨lt, rfl, hlt⟩
        · intro _
          simp [hlt]
      · intro hall
        exact absurd hlt (not_lt.mpr (hall lt rfl))
    · refine ⟨?_, ?_⟩
      · simp [h, hlt]
      · intro _
        simp [h, hlt]

/-- Witness for C3 at a concrete input: updating series 1 of `exSetState`
(last timestamp 2) with an item at timestamp 2 succeeds. -/
theorem C3_updateOutOfOrder_iff_witness :
    (updateSeriesData twZero exSetState 1 ⟨2, .single 99⟩).2 =
      .ok (updateSeriesDataImpl twZero exSetState 1 ⟨2, .single 99⟩).2 :=
  (C3_updateOutOfOrder_iff twZero exSetState 1 ⟨2, .single 99⟩).2
    (by intro lt hlt; rw [show mapGet exSetState.lastTime 1 = some 2 from rfl] at hlt;
        cases hlt; decide)

/-- C10: when `updateSeriesData` raises, the whole internal state of the
layer (point map, row lists, last-time map, sorted array and both object
arenas) is exactly what it was before the call: the out-of-order check
precedes every mutation. -/
theorem C10_error_state_unchanged (tw : Option Int → Int → Nat) (st : DLState)
    (series : Nat) (item : DataItem) :
    (updateSeriesData tw st series item).2 = .error .updateOutOfOrder →
    (updateSeriesData tw st series item).1 = st := by
  unfold updateSeriesData
  cases h : mapGet st.lastTime series with
  | none => simp [h]
  | some lt =>
    by_cases hlt : item.time < lt
    · intro _
      simp [h, hlt]
    · simp [h, hlt]

/-- Witness for C10 at a concrete input: an update of series 1 of
`exSetState` at timestamp 0 (before the last timestamp 2) fails and leaves
the state untouched. -/
theorem C10_error_state_unchanged_witness :
    (updateSeriesData twZero exSetState 1 ⟨0, .single 5⟩).1 = exSetState :=
  C10_error_state_unchanged twZero exSetState 1 ⟨0, .single 5⟩ (by rfl)

theorem mapGet_mapSet_self {α β : Type} [DecidableEq α] (m : List (α × β)) (k : α) (v : β) :
    mapGet (mapSet m k v) k = some v := by
  induction m with
  | nil => simp [mapGet, mapSet]
  | cons p rest ih =>
    by_cases h : p.1 = k
    · simp [mapGet, mapSet, h]
    · simp [mapGet, mapSet, h, ih]

theorem mapGet_mapSet_of_ne {α β : Type} [DecidableEq α] (m : List (α × β)) (k k2 : α) (v : β)
    (h : k2 ≠ k) : mapGet (mapSet m k v) k2 = mapGet m k2 := by
  have hk : ¬ k = k2 := fun he => h he.symm
  induction m with
  | nil =>
    show (if k = k2 then some v else none) = none
    rw [if_neg hk]
  | cons p rest ih =>
    show mapGet (if p.1 = k then (k, v) :: rest else p :: mapSet rest k v) k2 = _
    by_cases hp : p.1 = k
    · rw [if_pos hp]
      show (if k = k2 then some v else mapGet rest k2) =
        (if p.1 = k2 then some p.2 else mapGet rest k2)
      rw [if_neg hk, if_neg (fun he => hk (hp.symm.trans he))]
    · rw [if_neg hp]
      show (if p.1 = k2 then some p.2 else mapGet (mapSet rest k v) k2) =
        (if p.1 = k2 then some p.2 else mapGet rest k2)
      by_cases hp2 : p.1 = k2
      · rw [if_pos hp2, if_pos hp2]
      · rw [if_neg hp2, if_neg hp2, ih]

/-- An even smaller sample layer: series 1 carries one line point at
timestamp 1 (row id 0). -/
def exOneRow : DLState := (setSeriesData twZero DLState.empty 1 [⟨1, .single 5⟩]).1

/-- Counterexample to C8 as stated: on a series whose row list is the single
value-bearing row at timestamp 1, `updateSeriesData` with a whitespace item
at timestamp 2 (which exceeds the last row's timestamp) succeeds and leaves
the per-series row list unchanged (`[0]`), whereas the claim predicts that
the whitespace item drops the trailing slot (yielding `[]`). -/
theorem C8_counterexample :
    ((updateSeriesData twZero exOneRow 1 ⟨2, .whitespace⟩).2.isOk = true) ∧
    (mapGet exOneRow.rowsBySeries 1 = some [0]) ∧
    ((getRowA exOneRow.rows 0).time < (2 : Int)) ∧
    (itemPlotValue ⟨2, .whitespace⟩ = none) ∧
    (mapGet (updateSeriesData twZero exOneRow 1 ⟨2, .whitespace⟩).1.rowsBySeries 1
      = some [0]) ∧
    ¬ (mapGet (updateSeriesData twZero exOneRow 1 ⟨2, .whitespace⟩).1.rowsBySeries 1
      = some ([0] : List Nat).dropLast) := by
  refine ⟨rfl, rfl, by decide, rfl, rfl, by decide⟩

/-- C8 (amended): for a series with a non-empty row list, `_updateLastSeriesRow`
behaves as follows.  If the row's timestamp exceeds the last row's, a
value-bearing row is appended and a whitespace row leaves the list
unchanged; if it does not exceed it (in particular when equal), a
value-bearing row replaces the last row in place and a whitespace row drops
the trailing slot.  The series' last time point always becomes the row's
time, and a whitespace row never enters the list. -/
theorem C8_update_last_series_row (st : DLState) (series rid : Nat) (l : List Nat)
    (hl : mapGet st.rowsBySeries series = some l) (hne : l ≠ []) :
    ((getRowA st.rows (l.getLastD 0)).time < (getRowA st.rows rid).time →
      mapGet (updateLastSeriesRow st series rid).rowsBySeries series =
        some (if isSeriesPlotRow (getRowA st.rows rid) then l ++ [rid] else l)) ∧
    ((getRowA st.rows rid).time ≤ (getRowA st.rows (l.getLastD 0)).time →
      mapGet (updateLastSeriesRow st series rid).rowsBySeries series =
        some (if isSeriesPlotRow (getRowA st.rows rid) then l.dropLast ++ [rid]
              else l.dropLast)) ∧
    mapGet (updateLastSeriesRow st series rid).lastTime series =
      some (getRowA st.rows rid).time := by
  have hgl : l.getLast? = some (l.getLastD 0) := by
    cases l with
    | nil => exact absurd rfl hne
    | cons x xs =>
      rw [List.getLastD_eq_getLast?]
      cases hq : (x :: xs).getLast? with
      | none => exact absurd (List.getLast?_eq_none_iff.mp hq) (by simp)
      | some y => rfl
  unfold updateLastSeriesRow
  rw [hl]
  simp only [Option.getD_some, hgl]
  refine ⟨?_, ?_, ?_⟩
  · intro hlt
    rw [if_pos hlt]
    by_cases hv : isSeriesPlotRow (getRowA st.rows rid)
    · simp only [hv, ite_true, if_pos]
      exact mapGet_mapSet_self _ _ _
    · simp only [hv, ite_false, if_neg, Bool.false_eq_true, not_false_eq_true]
      exact mapGet_mapSet_self _ _ _
  · intro hle
    rw [if_neg (by omega)]
    by_cases hv : isSeriesPlotRow (getRowA st.rows rid)
    · simp only [hv, ite_true, if_pos]
      exact mapGet_mapSet_self _ _ _
    · simp only [hv, ite_false, if_neg, Bool.false_eq_true, not_false_eq_true]
      exact mapGet_mapSet_self _ _ _
  · exact mapGet_mapSet_self _ _ _

/-- Witness for C8 at a concrete input: re-installing row 0 (timestamp 1,
value-bearing) over the single-row list of `exOneRow` replaces the last row
in place. -/
theorem C8_update_last_series_row_witness :
    mapGet (updateLastSeriesRow exOneRow 1 0).rowsBySeries 1 =
      some (([0] : List Nat).dropLast ++ [0]) := by
  have h := (C8_update_last_series_row exOneRow 1 0 [0] rfl (by decide)).2.1 (by decide)
  rw [h]
  rfl

/-- The fold step of `_getBaseIndex`. -/
def baseIndexStep (rows : List PlotRowV) (b : Nat) (e : Nat × List Nat) : Nat :=
  if e.2.length ≠ 0 then max b (getRowA rows (e.2.getLastD 0)).index else b

theorem getBaseIndex_eq_foldl (st : DLState) :
    getBaseIndex st =
      (if st.rowsBySeries.length = 0 then none
       else some (st.rowsBySeries.foldl (baseIndexStep st.rows) 0)) := rfl

theorem baseIndexStep_foldl_spec (rows : List PlotRowV) (l : List (Nat × List Nat)) :
    ∀ init : Nat,
    init ≤ l.foldl (baseIndexStep rows) init ∧
    (∀ e ∈ l, e.2 ≠ [] →
      (getRowA rows (e.2.getLastD 0)).index ≤ l.foldl (baseIndexStep rows) init) ∧
    (l.foldl (baseIndexStep rows) init = init ∨
      ∃ e ∈ l, e.2 ≠ [] ∧
        (getRowA rows (e.2.getLastD 0)).index = l.foldl (baseIndexStep rows) init) := by
  induction l with
  | nil =>
    intro init
    refine ⟨Nat.le_refl _, ?_, Or.inl rfl⟩
    intro e he
    cases he
  | cons e rest ih =>
    intro init
    have hstep : (e :: rest).foldl (baseIndexStep rows) init =
        rest.foldl (baseIndexStep rows) (baseIndexStep rows init e) := rfl
    by_cases hne : e.2 = []
    · have hbe : baseIndexStep rows init e = init := by
        simp [baseIndexStep, hne]
      obtain ⟨ih1, ih2, ih3⟩ := ih init
      rw [hstep, hbe]
      refine ⟨ih1, ?_, ?_⟩
      · intro e2 he2 hne2
        rcases List.mem_cons.mp he2 with h | h
        · subst h
          exact absurd hne hne2
        · exact ih2 e2 h hne2
      · rcases ih3 with h | ⟨e2, hm, hn, hx⟩
        · exact Or.inl h
        · exact Or.inr ⟨e2, List.mem_cons_of_mem _ hm, hn, hx⟩
    · have hbe : baseIndexStep rows init e =
          max init (getRowA rows (e.2.getLastD 0)).index := by
        simp [baseIndexStep, hne, List.length_eq_zero]
      obtain ⟨ih1, ih2, ih3⟩ := ih (max init (getRowA rows (e.2.getLastD 0)).index)
      rw [hstep, hbe]
      refine ⟨Nat.le_trans (Nat.le_max_left _ _) ih1, ?_, ?_⟩
      · intro e2 he2 hne2
        rcases List.mem_cons.mp he2 with h | h
        · subst h
          exact Nat.le_trans (Nat.le_max_right _ _) ih1
        · exact ih2 e2 h hne2
      · rcases ih3 with h | ⟨e2, hm, hn, hx⟩
        · rcases Nat.le_total (getRowA rows (e.2.getLastD 0)).index init with hmx | hmx
          · rw [Nat.max_eq_left hmx] at h ⊢
            exact Or.inl h
          · rw [Nat.max_eq_right hmx] at h ⊢
            exact Or.inr ⟨e, List.mem_cons_self _ _, hne, h.symm⟩
        · exact Or.inr ⟨e2, List.mem_cons_of_mem _ hm, hn, hx⟩


/-- The property C4 ascribes to a reported base index relative to a state,
amended per the code: `none` exactly when the series map is empty; otherwise
an upper bound of the last-row indexes of all non-empty row lists that is
either attained by one of them or equal to the fold's floor `0` (the floor
is what the code reports when series are registered but every row list is
empty). -/
def BaseIndexSpec (st : DLState) (b? : Option Nat) : Prop :=
  (b? = none ↔ st.rowsBySeries = []) ∧
  ∀ b, b? = some b →
    (∀ e ∈ st.rowsBySeries, e.2 ≠ [] → (getRowA st.rows (e.2.getLastD 0)).index ≤ b) ∧
    (b = 0 ∨ ∃ e ∈ st.rowsBySeries, e.2 ≠ [] ∧ (getRowA st.rows (e.2.getLastD 0)).index = b)

theorem getBaseIndex_spec (st : DLState) : BaseIndexSpec st (getBaseIndex st) := by
  rw [getBaseIndex_eq_foldl]
  by_cases h : st.rowsBySeries.length = 0
  · rw [if_pos h]
    refine ⟨by simp [List.length_eq_zero.mp h], ?_⟩
    intro b hb
    cases hb
  · rw [if_neg h]
    obtain ⟨h1, h2, h3⟩ := baseIndexStep_foldl_spec st.rows st.rowsBySeries 0
    refine ⟨⟨fun hx => absurd hx (Option.some_ne_none _),
        fun hx => absurd (show st.rowsBySeries.length = 0 by rw [hx]; rfl) h⟩, ?_⟩
    intro b hb
    cases hb
    refine ⟨h2, ?_⟩
    rcases h3 with hz | hx
    · exact Or.inl hz
    · exact Or.inr hx

theorem getUpdateResponse_baseIndex (st : DLState) (series : Nat) (f : Int)
    (info : Option Bool) : (getUpdateResponse st series f info).baseIndex = getBaseIndex st := by
  unfold getUpdateResponse
  by_cases h : f ≠ -1
  · rw [if_pos h]
  · rw [if_neg h]

theorem setSeriesData_baseIndex (tw : Option Int → Int → Nat) (st : DLState)
    (series : Nat) (data : List DataItem) :
    (setSeriesData tw st series data).2.baseIndex =
      getBaseIndex (setSeriesData tw st series data).1 := by
  unfold setSeriesData
  rw [getUpdateResponse_baseIndex]

theorem updateSeriesDataImpl_baseIndex (tw : Option Int → Int → Nat) (st : DLState)
    (series : Nat) (item : DataItem) :
    (updateSeriesDataImpl tw st series item).2.baseIndex =
      getBaseIndex (updateSeriesDataImpl tw st series item).1 := by
  unfold updateSeriesDataImpl
  by_cases h : (mapGet st.pointByTime item.time).isSome
  all_goals simp only []
  all_goals split
  all_goals rw [getUpdateResponse_baseIndex]

/-- Counterexample to C4 as stated: from a fresh layer, `updateSeriesData`
with a whitespace item registers the series with an empty row list, so no
series has any data row, yet the response's `baseIndex` is `0`, not null. -/
theorem C4_counterexample :
    ∃ r, (updateSeriesData twZero DLState.empty 1 ⟨100, .whitespace⟩).2 = .ok r ∧
      r.baseIndex = some 0 ∧
      (updateSeriesData twZero DLState.empty 1 ⟨100, .whitespace⟩).1.rowsBySeries
        = [(1, ([] : List Nat))] := by
  refine ⟨(updateSeriesDataImpl twZero DLState.empty 1 ⟨100, .whitespace⟩).2, rfl, by decide, by decide⟩

/-- C4 (amended): after every public DataLayer operation the response's
`baseIndex` is null exactly when the series map is empty; otherwise it is an
upper bound of the last-row indexes of all non-empty row lists, attained by
one of them unless it is the fold's floor `0` (which the code also reports
when series are registered but every row list is empty — the claim's
"null when no series has any data row" fails there). -/
theorem C4_base_index (tw : Option Int → Int → Nat) (st : DLState) (series : Nat)
    (data : List DataItem) (item : DataItem) :
    BaseIndexSpec (setSeriesData tw st series data).1
      (setSeriesData tw st series data).2.baseIndex ∧
    ((updateSeriesData tw st series item).2.isOk = true →
      ∃ r, (updateSeriesData tw st series item).2 = .ok r ∧
        BaseIndexSpec (updateSeriesData tw st series item).1 r.baseIndex) := by
  constructor
  · rw [setSeriesData_baseIndex]
    exact getBaseIndex_spec _
  · intro hok
    unfold updateSeriesData at hok ⊢
    by_cases hbad : (match mapGet st.lastTime series with
      | some lt => decide (item.time < lt)
      | none => false) = true
    · rw [if_pos hbad] at hok
      cases hok
    · rw [if_neg hbad] at hok ⊢
      refine ⟨(updateSeriesDataImpl tw st series item).2, rfl, ?_⟩
      rw [updateSeriesDataImpl_baseIndex]
      exact getBaseIndex_spec _

/-- Witness for C4 at a concrete input: the successful in-range update of
`exSetState` reports a base index satisfying the amended characterization. -/
theorem C4_base_index_witness :
    BaseIndexSpec (setSeriesData twZero DLState.empty 1 [⟨1, .single 10⟩]).1
      (setSeriesData twZero DLState.empty 1 [⟨1, .single 10⟩]).2.baseIndex :=
  (C4_base_index twZero DLState.empty 1 [⟨1, .single 10⟩] ⟨1, .single 10⟩).1

theorem getD_set_self {α : Type} [Inhabited α] (l : List α) (i : Nat) (v : α)
    (h : i < l.length) : (l.set i v).getD i default = v := by
  rw [List.getD_eq_getElem?_getD, List.getElem?_set_self (by omega), Option.getD_some]

theorem getD_set_ne {α : Type} [Inhabited α] (l : List α) (i j : Nat) (v : α)
    (h : i ≠ j) : (l.set i v).getD j default = l.getD j default := by
  rw [List.getD_eq_getElem?_getD, List.getElem?_set_ne h, ← List.getD_eq_getElem?_getD]

/-- Evolution of the row arena across an operation: rows are only appended,
and existing rows only ever have their `index` field rewritten, so `time`
and `value` of every pre-existing row survive. -/
def RowsPreserve (a b : List PlotRowV) : Prop :=
  a.length ≤ b.length ∧
  ∀ rid, rid < a.length →
    (b.getD rid default).time = (a.getD rid default).time ∧
    (b.getD rid default).value = (a.getD rid default).value

theorem rowsPreserve_refl (a : List PlotRowV) : RowsPreserve a a :=
  ⟨Nat.le_refl _, fun _ _ => ⟨Eq.refl _, Eq.refl _⟩⟩

theorem RowsPreserve.trans {a b c : List PlotRowV} (h1 : RowsPreserve a b)
    (h2 : RowsPreserve b c) : RowsPreserve a c := by
  have hab := h1.1
  refine ⟨Nat.le_trans h1.1 h2.1, ?_⟩
  intro rid hr
  obtain ⟨t1, v1⟩ := h1.2 rid hr
  obtain ⟨t2, v2⟩ := h2.2 rid (by omega)
  exact ⟨t2.trans t1, v2.trans v1⟩

theorem rowsPreserve_append (a ext : List PlotRowV) : RowsPreserve a (a ++ ext) := by
  refine ⟨by simp, ?_⟩
  intro rid hr
  rw [List.getD_eq_getElem?_getD, List.getElem?_append_left hr, ← List.getD_eq_getElem?_getD]
  exact ⟨rfl, rfl⟩

theorem rowsPreserve_setRowIndex (a : List PlotRowV) (rid idx : Nat) :
    RowsPreserve a (setRowIndex a rid idx) := by
  refine ⟨by simp [setRowIndex], ?_⟩
  intro r hr
  by_cases h : rid = r
  · subst h
    by_cases hlen : rid < a.length
    · rw [setRowIndex, getD_set_self _ _ _ hlen]
      exact ⟨rfl, rfl⟩
    · omega
  · rw [setRowIndex, getD_set_ne _ _ _ _ h]
    exact ⟨rfl, rfl⟩

theorem rowsPreserve_assignRows (idx : Nat) (m : List (Nat × Nat)) :
    ∀ a : List PlotRowV, RowsPreserve a (assignRows a idx m) := by
  induction m with
  | nil => intro a; exact rowsPreserve_refl a
  | cons e rest ih =>
    intro a
    exact (rowsPreserve_setRowIndex a e.2 idx).trans (ih _)

theorem assignIndexToPointData_rows (st : DLState) (p idx : Nat) :
    RowsPreserve st.rows (assignIndexToPointData st p idx).rows :=
  rowsPreserve_assignRows idx _ st.rows

theorem assignFromAux_rows (l : List SPoint) :
    ∀ (st : DLState) (i : Nat), RowsPreserve st.rows (assignFromAux st l i).rows := by
  induction l with
  | nil => intro st i; exact rowsPreserve_refl _
  | cons sp rest ih =>
    intro st i
    exact (assignIndexToPointData_rows st sp.pd i).trans (ih _ _)

theorem assignFrom_rows (st : DLState) (pts : List SPoint) (start : Nat) :
    RowsPreserve st.rows (assignFrom st pts start).rows :=
  assignFromAux_rows _ st start

theorem syncPrefix_rows (old : List SPoint) :
    ∀ (st : DLState) (new : List SPoint) (i : Nat),
    RowsPreserve st.rows (syncPrefix st old new i).1.rows := by
  induction old with
  | nil =>
    intro st new i
    cases new with
    | nil => exact rowsPreserve_refl _
    | cons n ns => exact rowsPreserve_refl _
  | cons o os ih =>
    intro st new i
    cases new with
    | nil => exact rowsPreserve_refl _
    | cons n ns =>
      by_cases ht : o.time = n.time
      · have hne : ¬ o.time ≠ n.time := by simpa using ht
        simp only [syncPrefix, hne, ite_false, if_neg, not_false_eq_true]
        exact (assignIndexToPointData_rows st n.pd i).trans (ih _ _ _)
      · simp only [syncPrefix, ht, ite_true, if_pos, ne_eq, not_false_eq_true]
        exact rowsPreserve_refl _

theorem replaceTimeScalePoints_rows (tw : Option Int → Int → Nat) (st : DLState)
    (newPts : List SPoint) :
    RowsPreserve st.rows (replaceTimeScalePoints tw st newPts).1.rows := by
  unfold replaceTimeScalePoints
  by_cases h : breakToIndex (syncPrefix st st.sorted newPts 0).2.2
      (syncPrefix st st.sorted newPts 0).1.sorted.length
      (syncPrefix st st.sorted newPts 0).2.1.length = -1
  · simp only [h, ite_true, if_pos]
    exact syncPrefix_rows st.sorted st newPts 0
  · simp only [h, ite_false, if_neg, not_false_eq_true]
    exact (syncPrefix_rows st.sorted st newPts 0).trans (assignFrom_rows _ _ _)

theorem unbindSeries_rows (series : Nat) (l : List SPoint) :
    ∀ st : DLState, (unbindSeries st series l).1.rows = st.rows := by
  induction l with
  | nil => intro st; rfl
  | cons sp rest ih => intro st; exact ih _

theorem cleanupPointsData_rows (l : List SPoint) :
    ∀ st : DLState, (cleanupPointsData st l).rows = st.rows := by
  induction l with
  | nil => intro st; rfl
  | cons sp rest ih =>
    intro st
    rw [cleanupPointsData, ih]
    split
    all_goals rfl

theorem setRowsToSeries_rows (st : DLState) (series : Nat) (l : List Nat) :
    (setRowsToSeries st series l).rows = st.rows := by
  unfold setRowsToSeries
  split
  all_goals rfl

theorem ingestData_rows (series : Nat) (data : List DataItem) :
    ∀ (st : DLState) (aff : Bool), ∃ ext,
      (ingestData st series aff data).1.rows = st.rows ++ ext := by
  induction data with
  | nil => intro st aff; exact ⟨[], by simp [ingestData]⟩
  | cons item rest ih =>
    intro st aff
    unfold ingestData
    cases hg : mapGet st.pointByTime item.time with
    | some p =>
      simp only [hg]
      obtain ⟨ext, hext⟩ := ih _ _
      rw [hext]
      exact ⟨_, by rw [List.append_assoc]⟩
    | none =>
      simp only [hg]
      obtain ⟨ext, hext⟩ := ih _ _
      rw [hext]
      exact ⟨_, by rw [List.append_assoc]⟩

theorem ingestData_rowsPreserve (st : DLState) (series : Nat) (aff : Bool)
    (data : List DataItem) : RowsPreserve st.rows (ingestData st series aff data).1.rows := by
  obtain ⟨ext, hext⟩ := ingestData_rows series data st aff
  rw [hext]
  exact rowsPreserve_append _ _

theorem setSeriesDataUnbind_rows (st : DLState) (series : Nat) :
    (setSeriesDataUnbind st series).1.rows = st.rows := by
  unfold setSeriesDataUnbind
  cases mapGet st.rowsBySeries series with
  | none => rfl
  | some _ =>
    by_cases h : st.rowsBySeries.length = 1
    · simp only [h, ite_true, if_pos]
    · simp only [h, ite_false, if_neg, not_false_eq_true]
      exact unbindSeries_rows series st.sorted st

theorem setSeriesDataMain_rows (tw : Option Int → Int → Nat) (st1 : DLState)
    (series : Nat) (nc aff : Bool) (data : List DataItem) :
    RowsPreserve st1.rows (setSeriesDataMain tw st1 series nc aff data).1.rows := by
  unfold setSeriesDataMain
  simp only []
  have h1 := ingestData_rowsPreserve st1 series aff data
  have h2 : RowsPreserve st1.rows
      (if nc then
        cleanupPointsData (ingestData st1 series aff data).1
          (ingestData st1 series aff data).1.sorted
       else (ingestData st1 series aff data).1).rows := by
    split
    · rw [cleanupPointsData_rows]
      exact h1
    · exact h1
  have h3 : RowsPreserve st1.rows
      (setRowsToSeries
        (if nc then
          cleanupPointsData (ingestData st1 series aff data).1
            (ingestData st1 series aff data).1.sorted
         else (ingestData st1 series aff data).1)
        series (ingestData st1 series aff data).2.2).rows := by
    rw [setRowsToSeries_rows]
    exact h2
  split
  · exact h3.trans (replaceTimeScalePoints_rows _ _ _)
  · exact h3

theorem setSeriesData_rows (tw : Option Int → Int → Nat) (st : DLState)
    (series : Nat) (data : List DataItem) :
    RowsPreserve st.rows (setSeriesData tw st series data).1.rows := by
  have h := setSeriesDataMain_rows tw (setSeriesDataUnbind st series).1 series
    (setSeriesDataUnbind st series).2.1 (setSeriesDataUnbind st series).2.2 data
  rw [setSeriesDataUnbind_rows st series] at h
  exact h

theorem mapGet_append_of_some {α β : Type} [DecidableEq α] (a b : List (α × β)) (k : α)
    (v : β) (h : mapGet a k = some v) : mapGet (a ++ b) k = some v := by
  induction a with
  | nil => cases h
  | cons p rest ih =>
    by_cases hp : p.1 = k
    · simp only [mapGet, hp, if_pos] at h ⊢
      exact h
    · simp only [mapGet, hp, if_neg, ite_false, not_false_eq_true, List.cons_append] at h ⊢
      exact ih h

theorem mapGet_append_of_none {α β : Type} [DecidableEq α] (a b : List (α × β)) (k : α)
    (h : mapGet a k = none) : mapGet (a ++ b) k = mapGet b k := by
  induction a with
  | nil => rfl
  | cons p rest ih =>
    by_cases hp : p.1 = k
    · simp only [mapGet, hp, if_pos] at h
      cases h
    · simp only [mapGet, hp, if_neg, ite_false, not_false_eq_true, List.cons_append] at h ⊢
      exact ih h

theorem mapGet_map_entry {β γ : Type} (l : List (Nat × β)) (g : Nat × β → γ) (k : Nat) :
    mapGet (l.map (fun e => (e.1, g e))) k = (mapGet l k).map (fun v => g (k, v)) := by
  induction l with
  | nil => rfl
  | cons p rest ih =>
    obtain ⟨pk, pv⟩ := p
    by_cases hp : pk = k
    · subst hp
      simp [mapGet]
    · simp only [List.map_cons, mapGet, hp, ite_false, if_neg, not_false_eq_true]
      exact ih

/-- The response entry of the updated series always carries the computed
`info`, and its `data` snapshot is the series' current (possibly empty) row
list. -/
theorem getUpdateResponse_info (st : DLState) (series : Nat) (f : Int) (info : Option Bool) :
    ∃ ch, mapGet (getUpdateResponse st series f info).series series = some ch ∧
      ch.info = info ∧
      ch.data = derefRows st ((mapGet st.rowsBySeries series).getD []) := by
  unfold getUpdateResponse
  by_cases hf : f ≠ -1
  · rw [if_pos hf]
    simp only []
    have hmap := mapGet_map_entry st.rowsBySeries
      (fun e => ({ data := derefRows st e.2,
                   info := if e.1 = series then info else none } : SeriesChange)) series
    cases hm : mapGet st.rowsBySeries series with
    | some rids =>
      rw [hm, Option.map_some'] at hmap
      simp only [if_pos rfl] at hmap
      refine ⟨{ data := derefRows st rids, info := info },
        mapGet_append_of_some _ _ _ _ hmap, rfl, ?_⟩
      rfl
    | none =>
      rw [hm, Option.map_none'] at hmap
      rw [mapGet_append_of_none _ _ _ hmap]
      refine ⟨{ data := [], info := info }, ?_, rfl, rfl⟩
      simp [mapGet]
  · rw [if_neg hf]
    refine ⟨{ data := derefRows st ((mapGet st.rowsBySeries series).getD []), info := info },
      ?_, rfl, rfl⟩
    simp [mapGet]

theorem seriesUpdateInfo_some (st : DLState) (cur prev : List Nat)
    (hc : cur ≠ []) (hp : prev ≠ []) :
    seriesUpdateInfo st (some cur) (some prev) =
      some (decide
        ((getRowA st.rows (prev.getLastD 0)).time ≤ (getRowA st.rows (cur.getLastD 0)).time ∧
         (getRowA st.rows (prev.headD 0)).time ≤ (getRowA st.rows (cur.headD 0)).time)) := by
  cases cur with
  | nil => exact absurd rfl hc
  | cons c cs =>
    cases prev with
    | nil => exact absurd rfl hp
    | cons p ps => rfl

theorem headD_mem {l : List Nat} (h : l ≠ []) : l.headD 0 ∈ l := by
  cases l with
  | nil => exact absurd rfl h
  | cons x xs => exact List.mem_cons_self _ _

theorem getLastD_mem {l : List Nat} (h : l ≠ []) : l.getLastD 0 ∈ l := by
  rw [List.getLastD_eq_getLast?, List.getLast?_eq_getLast_of_ne_nil h, Option.getD_some]
  exact List.getLast_mem h

/-- The response entry of the updated series of a `setSeriesData` call: its
`info` is `seriesUpdateInfo` of the new row list against the captured
previous one, and its `data` is the new row list's snapshot. -/
theorem setSeriesData_info (tw : Option Int → Int → Nat) (st : DLState)
    (series : Nat) (data : List DataItem) :
    ∃ ch, mapGet (setSeriesData tw st series data).2.series series = some ch ∧
      ch.info = seriesUpdateInfo (setSeriesData tw st series data).1
        (mapGet (setSeriesData tw st series data).1.rowsBySeries series)
        (mapGet st.rowsBySeries series) ∧
      ch.data = derefRows (setSeriesData tw st series data).1
        ((mapGet (setSeriesData tw st series data).1.rowsBySeries series).getD []) := by
  unfold setSeriesData
  simp only []
  exact getUpdateResponse_info _ _ _ _

/-- Counterexample to C9 as stated: on `exOneRow` (series 1 holds the single
value row at timestamp 1, row id 0), a whitespace update at timestamp 2
leaves the row list `[0]` untouched, so the new last/first timestamps equal
the previous ones and the claimed formula is true, yet the response reports
`info.lastBarUpdatedOrNewBarsAddedToTheRight = false` (the code reports
whether the item was value-bearing). -/
theorem C9_counterexample :
    ∃ r ch, (updateSeriesData twZero exOneRow 1 ⟨2, .whitespace⟩).2 = .ok r ∧
      mapGet exOneRow.rowsBySeries 1 = some [0] ∧
      mapGet (updateSeriesData twZero exOneRow 1 ⟨2, .whitespace⟩).1.rowsBySeries 1
        = some [0] ∧
      (getRowA (updateSeriesData twZero exOneRow 1 ⟨2, .whitespace⟩).1.rows 0).time
        = (getRowA exOneRow.rows 0).time ∧
      mapGet r.series 1 = some ch ∧
      ch.info = some false := by
  refine ⟨(updateSeriesDataImpl twZero exOneRow 1 ⟨2, .whitespace⟩).2,
    { data := [{ index := 0, time := 1, value := some (5, 5, 5, 5) }], info := some false },
    rfl, rfl, by decide, by decide, by decide, rfl⟩

/-- C9 (amended): the updated series' response entry carries
`lastBarUpdatedOrNewBarsAddedToTheRight` as follows.  For `setSeriesData`
(and hence `removeSeries`), when the previous and the new row list are both
non-empty, it is true exactly when the new last timestamp is at least the
previous last and the new first timestamp is at least the previous first.
For `updateSeriesData`, it is true exactly when the item is value-bearing. -/
theorem C9_last_bar_updated_info (tw : Option Int → Int → Nat) (st : DLState)
    (series : Nat) (data : List DataItem) (item : DataItem) :
    (∀ prevIds curIds, mapGet st.rowsBySeries series = some prevIds → prevIds ≠ [] →
      (∀ rid, rid ∈ prevIds → rid < st.rows.length) →
      mapGet (setSeriesData tw st series data).1.rowsBySeries series = some curIds →
      curIds ≠ [] →
      ∃ ch, mapGet (setSeriesData tw st series data).2.series series = some ch ∧
        ch.info = some (decide
          ((getRowA st.rows (prevIds.getLastD 0)).time ≤
            (getRowA (setSeriesData tw st series data).1.rows (curIds.getLastD 0)).time ∧
           (getRowA st.rows (prevIds.headD 0)).time ≤
            (getRowA (setSeriesData tw st series data).1.rows (curIds.headD 0)).time))) ∧
    (∀ r, (updateSeriesData tw st series item).2 = .ok r →
      ∃ ch, mapGet r.series series = some ch ∧
        ch.info = some ((itemPlotValue item).isSome)) := by
  constructor
  · intro prevIds curIds hprev hpne hrange hcur hcne
    obtain ⟨ch, hm, hinfo, hdata⟩ := setSeriesData_info tw st series data
    rw [hprev, hcur, seriesUpdateInfo_some _ _ _ hcne hpne] at hinfo
    have hpresv := (setSeriesData_rows tw st series data).2
    have hlast := (hpresv (prevIds.getLastD 0) (hrange _ (getLastD_mem hpne))).1
    have hhead := (hpresv (prevIds.headD 0) (hrange _ (headD_mem hpne))).1
    rw [show getRowA (setSeriesData tw st series data).1.rows (prevIds.getLastD 0) =
        (setSeriesData tw st series data).1.rows.getD (prevIds.getLastD 0) default from rfl]
      at hinfo
    refine ⟨ch, hm, ?_⟩
    rw [hinfo]
    congr 1
    rw [show getRowA (setSeriesData tw st series data).1.rows (prevIds.headD 0) =
        (setSeriesData tw st series data).1.rows.getD (prevIds.headD 0) default from rfl]
    rw [hlast, hhead]
    rfl
  · intro r hok
    unfold updateSeriesData at hok
    by_cases hbad : (match mapGet st.lastTime series with
      | some lt => decide (item.time < lt)
      | none => false) = true
    · rw [if_pos hbad] at hok
      cases hok
    · rw [if_neg hbad] at hok
      have hr : r = (updateSeriesDataImpl tw st series item).2 := by
        cases hok
        rfl
      subst hr
      unfold updateSeriesDataImpl
      simp only []
      split
      · obtain ⟨ch, h1, h2, h3⟩ := getUpdateResponse_info _ series (-1) _
        exact ⟨ch, h1, h2⟩
      · obtain ⟨ch, h1, h2, h3⟩ := getUpdateResponse_info _ series _ _
        exact ⟨ch, h1, h2⟩

/-- Witness for C9 at a concrete input: re-sending series 1 of `exOneRow`
its single point reports `info = true` (tail edit), and appending a value
point through `updateSeriesData` reports `info = true` as well. -/
theorem C9_last_bar_updated_info_witness :
    (∃ ch, mapGet (setSeriesData twZero exOneRow 1 [⟨1, .single 7⟩]).2.series 1 = some ch ∧
      ch.info = some true) ∧
    (∃ ch, mapGet (updateSeriesDataImpl twZero exOneRow 1 ⟨2, .single 9⟩).2.series 1
        = some ch ∧ ch.info = some true) := by
  constructor
  · obtain ⟨ch, hm, hinfo⟩ :=
      (C9_last_bar_updated_info twZero exOneRow 1 [⟨1, .single 7⟩] ⟨2, .single 9⟩).1
        [0] [1] (by decide) (by decide) (by decide) (by decide) (by decide)
    refine ⟨ch, hm, ?_⟩
    rw [hinfo]
    decide
  · obtain ⟨ch, hm, hinfo⟩ :=
      (C9_last_bar_updated_info twZero exOneRow 1 [⟨1, .single 7⟩] ⟨2, .single 9⟩).2
        (updateSeriesDataImpl twZero exOneRow 1 ⟨2, .single 9⟩).2 rfl
    exact ⟨ch, hm, hinfo⟩

theorem mapGet_none_iff {α β : Type} [DecidableEq α] (m : List (α × β)) (k : α) :
    mapGet m k = none ↔ ∀ e ∈ m, e.1 ≠ k := by
  induction m with
  | nil => simp [mapGet]
  | cons p rest ih =>
    by_cases hp : p.1 = k
    · simp [mapGet, hp]
    · simp only [mapGet, hp, ite_false, if_neg, not_false_eq_true, List.mem_cons]
      constructor
      · intro h e he
        rcases he with he | he
        · subst he
          exact hp
        · exact (ih.mp h) e he
      · intro h
        exact ih.mpr (fun e he => h e (Or.inr he))

theorem mapGet_some_mem {α β : Type} [DecidableEq α] (m : List (α × β)) (k : α) (v : β)
    (h : mapGet m k = some v) : (k, v) ∈ m := by
  induction m with
  | nil => cases h
  | cons p rest ih =>
    obtain ⟨pk, pv⟩ := p
    by_cases hp : pk = k
    · subst hp
      simp only [mapGet, if_pos rfl] at h
      cases h
      exact List.mem_cons_self _ _
    · simp only [mapGet, hp, ite_false, if_neg, not_false_eq_true] at h
      exact List.mem_cons_of_mem _ (ih h)

theorem mapSet_absent {α β : Type} [DecidableEq α] (m : List (α × β)) (k : α) (v : β)
    (h : mapGet m k = none) : mapSet m k v = m ++ [(k, v)] := by
  induction m with
  | nil => rfl
  | cons p rest ih =>
    by_cases hp : p.1 = k
    · simp [mapGet, hp] at h
    · simp only [mapGet, hp, ite_false, if_neg, not_false_eq_true] at h
      simp only [mapSet, hp, ite_false, if_neg, not_false_eq_true, List.cons_append]
      rw [ih h]

theorem mapSet_mem {α β : Type} [DecidableEq α] (m : List (α × β)) (k : α) (v : β) :
    ∀ e ∈ mapSet m k v, e = (k, v) ∨ e ∈ m := by
  induction m with
  | nil =>
    intro e he
    rcases List.mem_cons.mp he with he | he
    · exact Or.inl he
    · cases he
  | cons p rest ih =>
    intro e he
    by_cases hp : p.1 = k
    · rw [mapSet, if_pos hp] at he
      rcases List.mem_cons.mp he with he | he
      · exact Or.inl he
      · exact Or.inr (List.mem_cons_of_mem _ he)
    · rw [mapSet, if_neg hp] at he
      rcases List.mem_cons.mp he with he | he
      · exact Or.inr (he ▸ List.mem_cons_self _ _)
      · rcases ih e he with h | h
        · exact Or.inl h
        · exact Or.inr (List.mem_cons_of_mem _ h)

theorem mapDelete_sub {α β : Type} [DecidableEq α] (m : List (α × β)) (k : α) :
    ∀ e ∈ (mapDelete m k).1, e ∈ m := by
  induction m with
  | nil => intro e he; cases he
  | cons p rest ih =>
    intro e he
    by_cases hp : p.1 = k
    · rw [mapDelete, if_pos hp] at he
      exact List.mem_cons_of_mem _ he
    · rw [mapDelete, if_neg hp] at he
      rcases List.mem_cons.mp he with he | he
      · exact he ▸ List.mem_cons_self _ _
      · exact List.mem_cons_of_mem _ (ih e he)

theorem mapDelete_keys_sublist {α β : Type} [DecidableEq α] (m : List (α × β)) (k : α) :
    ((mapDelete m k).1.map Prod.fst).Sublist (m.map Prod.fst) := by
  induction m with
  | nil => exact List.Sublist.refl _
  | cons p rest ih =>
    by_cases hp : p.1 = k
    · rw [mapDelete, if_pos hp]
      simp only [List.map_cons]
      exact List.sublist_cons_self _ _
    · rw [mapDelete, if_neg hp]
      simp only [List.map_cons]
      exact List.Sublist.cons₂ _ ih

/-- Read a point data object from the arena. -/
def pdAt (s : DLState) (p : Nat) : PointData := s.pds.getD p default

/-- Read a row object from the arena of a state. -/
def rowAt (s : DLState) (r : Nat) : PlotRowV := s.rows.getD r default

/-- Mappings of distinct point data objects never share a row object. -/
def DisjState (s : DLState) : Prop :=
  ∀ p q, p ≠ q → ∀ ep ∈ (pdAt s p).mapping, ∀ eq2 ∈ (pdAt s q).mapping, ep.2 ≠ eq2.2

/-- Every row id stored in a mapping points into the row arena. -/
def RowRangeState (s : DLState) : Prop :=
  ∀ p, ∀ e ∈ (pdAt s p).mapping, e.2 < s.rows.length

theorem assignRows_effect (idx : Nat) (m : List (Nat × Nat)) :
    ∀ rows : List PlotRowV,
    (assignRows rows idx m).length = rows.length ∧
    (∀ r, r < rows.length → (∃ e ∈ m, e.2 = r) →
      (assignRows rows idx m).getD r default = { rows.getD r default with index := idx }) ∧
    (∀ r, (∀ e ∈ m, e.2 ≠ r) →
      (assignRows rows idx m).getD r default = rows.getD r default) := by
  induction m with
  | nil =>
    intro rows
    exact ⟨rfl, fun r _ h => absurd h (by simp), fun r _ => rfl⟩
  | cons e0 rest ih =>
    intro rows
    have hlen : (setRowIndex rows e0.2 idx).length = rows.length := by simp [setRowIndex]
    obtain ⟨ih1, ih2, ih3⟩ := ih (setRowIndex rows e0.2 idx)
    refine ⟨by rw [show assignRows rows idx (e0 :: rest) =
        assignRows (setRowIndex rows e0.2 idx) idx rest from rfl, ih1, hlen], ?_, ?_⟩
    · intro r hr hex
      show (assignRows (setRowIndex rows e0.2 idx) idx rest).getD r default = _
      by_cases hrest : ∃ e ∈ rest, e.2 = r
      · rw [ih2 r (by omega) hrest]
        by_cases h0 : e0.2 = r
        · subst h0
          rw [setRowIndex, getD_set_self _ _ _ hr]
          rfl
        · rw [setRowIndex, getD_set_ne _ _ _ _ h0]
      · obtain ⟨e, he, her⟩ := hex
        rcases List.mem_cons.mp he with he | he
        · subst he
          rw [ih3 r (by intro e2 he2 h2; exact hrest ⟨e2, he2, h2⟩)]
          subst her
          rw [setRowIndex, getD_set_self _ _ _ hr]
          rfl
        · exact absurd ⟨e, he, her⟩ hrest
    · intro r hnone
      show (assignRows (setRowIndex rows e0.2 idx) idx rest).getD r default = _
      rw [ih3 r (fun e he => hnone e (List.mem_cons_of_mem _ he))]
      rw [setRowIndex, getD_set_ne _ _ _ _ (hnone e0 (List.mem_cons_self _ _))]

theorem assignIndexToPointData_effect (s : DLState) (p idx : Nat) (hp : p < s.pds.length) :
    (assignIndexToPointData s p idx).pds.length = s.pds.length ∧
    (assignIndexToPointData s p idx).rows.length = s.rows.length ∧
    pdAt (assignIndexToPointData s p idx) p = { pdAt s p with index := idx } ∧
    (∀ q, q ≠ p → pdAt (assignIndexToPointData s p idx) q = pdAt s q) ∧
    (∀ r, r < s.rows.length → (∃ e ∈ (pdAt s p).mapping, e.2 = r) →
      rowAt (assignIndexToPointData s p idx) r = { rowAt s r with index := idx }) ∧
    (∀ r, (∀ e ∈ (pdAt s p).mapping, e.2 ≠ r) →
      rowAt (assignIndexToPointData s p idx) r = rowAt s r) := by
  obtain ⟨a1, a2, a3⟩ := assignRows_effect idx (pdAt s p).mapping s.rows
  refine ⟨by simp [assignIndexToPointData], a1, ?_, ?_, ?_, ?_⟩
  · show (s.pds.set p _).getD p default = _
    exact getD_set_self _ _ _ hp
  · intro q hq
    show (s.pds.set p _).getD q default = _
    exact getD_set_ne _ _ _ _ (fun h => hq h.symm)
  · intro r hr hex
    exact a2 r hr hex
  · intro r hnone
    exact a3 r hnone

theorem assignFromAux_effect (pts : List SPoint) :
    ∀ (s : DLState) (i : Nat),
    pts.Pairwise (fun a b => a.pd ≠ b.pd) →
    (∀ sp ∈ pts, sp.pd < s.pds.length) →
    DisjState s → RowRangeState s →
    (assignFromAux s pts i).pds.length = s.pds.length ∧
    (assignFromAux s pts i).rows.length = s.rows.length ∧
    (∀ k, k < pts.length →
      pdAt (assignFromAux s pts i) (pts.getD k default).pd =
        { pdAt s (pts.getD k default).pd with index := i + k } ∧
      ∀ e ∈ (pdAt s (pts.getD k default).pd).mapping,
        rowAt (assignFromAux s pts i) e.2 = { rowAt s e.2 with index := i + k }) ∧
    (∀ q, (∀ sp ∈ pts, sp.pd ≠ q) → pdAt (assignFromAux s pts i) q = pdAt s q) ∧
    (∀ r, (∀ sp ∈ pts, ∀ e ∈ (pdAt s sp.pd).mapping, e.2 ≠ r) →
      rowAt (assignFromAux s pts i) r = rowAt s r) := by
  induction pts with
  | nil =>
    intro s i _ _ _ _
    exact ⟨rfl, rfl, fun k hk => absurd hk (by simp), fun q _ => rfl, fun r _ => rfl⟩
  | cons sp rest ih =>
    intro s i hpw hrange hdisj hrr
    have hsp : sp.pd < s.pds.length := hrange sp (List.mem_cons_self _ _)
    obtain ⟨e1, e2, e3, e4, e5, e6⟩ := assignIndexToPointData_effect s sp.pd i hsp
    set s1 := assignIndexToPointData s sp.pd i with hs1
    have hmapconst : ∀ q, (pdAt s1 q).mapping = (pdAt s q).mapping := by
      intro q
      by_cases hq : q = sp.pd
      · subst hq
        rw [e3]
      · rw [e4 q hq]
    have htpconst : ∀ q, (pdAt s1 q).timePoint = (pdAt s q).timePoint := by
      intro q
      by_cases hq : q = sp.pd
      · subst hq
        rw [e3]
      · rw [e4 q hq]
    have hdist : ∀ b ∈ rest, sp.pd ≠ b.pd := by
      intro b hb
      exact (List.pairwise_cons.mp hpw).1 b hb
    have hdisj1 : DisjState s1 := by
      intro p q hpq ep hep eq2 heq2
      rw [hmapconst] at hep heq2
      exact hdisj p q hpq ep hep eq2 heq2
    have hrr1 : RowRangeState s1 := by
      intro p e he
      rw [hmapconst] at he
      rw [e2]
      exact hrr p e he
    have hrange1 : ∀ b ∈ rest, b.pd < s1.pds.length := by
      intro b hb
      rw [e1]
      exact hrange b (List.mem_cons_of_mem _ hb)
    obtain ⟨f1, f2, f3, f4, f5⟩ := ih s1 (i + 1) (List.pairwise_cons.mp hpw).2 hrange1 hdisj1 hrr1
    have hres : assignFromAux s (sp :: rest) i = assignFromAux s1 rest (i + 1) := rfl
    rw [hres]
    refine ⟨by rw [f1, e1], by rw [f2, e2], ?_, ?_, ?_⟩
    · intro k hk
      cases k with
      | zero =>
        rw [List.getD_cons_zero]
        constructor
        · rw [f4 sp.pd (fun b hb => (hdist b hb).symm), e3, Nat.add_zero]
        · intro e he
          have hnot : ∀ b ∈ rest, ∀ e2 ∈ (pdAt s1 b.pd).mapping, e2.2 ≠ e.2 := by
            intro b hb e2 he2
            rw [hmapconst] at he2
            exact hdisj b.pd sp.pd (fun h => hdist b hb h.symm) e2 he2 e he
          rw [f5 e.2 hnot, Nat.add_zero]
          exact e5 e.2 (hrr sp.pd e he) ⟨e, he, rfl⟩
      | succ k2 =>
        have hk2 : k2 < rest.length := by simpa using hk
        obtain ⟨g1, g2⟩ := f3 k2 hk2
        have hpdne : (rest.getD k2 default).pd ≠ sp.pd := by
          have hmem : rest.getD k2 default ∈ rest := by
            rw [List.getD_eq_getElem _ _ hk2]
            exact List.getElem_mem _
          exact fun h => hdist _ hmem h.symm
        rw [List.getD_cons_succ]
        constructor
        · rw [g1, e4 _ hpdne, show i + (k2 + 1) = i + 1 + k2 from by omega]
        · intro e he
          have he1 : e ∈ (pdAt s1 (rest.getD k2 default).pd).mapping := by
            rw [hmapconst]
            exact he
          rw [g2 e he1]
          have hrne : ∀ e2 ∈ (pdAt s sp.pd).mapping, e2.2 ≠ e.2 := by
            intro e2 he2
            exact hdisj sp.pd (rest.getD k2 default).pd (fun h => hpdne h.symm) e2 he2 e he
          rw [e6 e.2 hrne, show i + (k2 + 1) = i + 1 + k2 from by omega]
    · intro q hq
      rw [f4 q (fun b hb => hq b (List.mem_cons_of_mem _ hb))]
      exact e4 q (fun h => hq sp (List.mem_cons_self _ _) (h ▸ rfl))
    · intro r hr
      have hr1 : ∀ b ∈ rest, ∀ e ∈ (pdAt s1 b.pd).mapping, e.2 ≠ r := by
        intro b hb e he
        rw [hmapconst] at he
        exact hr b (List.mem_cons_of_mem _ hb) e he
      rw [f5 r hr1]
      exact e6 r (fun e he => hr sp (List.mem_cons_self _ _) e he)

theorem insertByTime_mem (sp a : SPoint) (l : List SPoint) :
    a ∈ insertByTime sp l ↔ a = sp ∨ a ∈ l := by
  induction l with
  | nil => simp [insertByTime]
  | cons x xs ih =>
    by_cases h : sp.time < x.time
    · rw [insertByTime, if_pos h]
      simp [List.mem_cons]
    · rw [insertByTime, if_neg h]
      simp only [List.mem_cons, ih]
      tauto

theorem insertByTime_length (sp : SPoint) (l : List SPoint) :
    (insertByTime sp l).length = l.length + 1 := by
  induction l with
  | nil => rfl
  | cons x xs ih =>
    by_cases h : sp.time < x.time
    · rw [insertByTime, if_pos h]
      rfl
    · rw [insertByTime, if_neg h]
      simp [ih]

theorem insertByTime_pairwise (sp : SPoint) (l : List SPoint)
    (hl : l.Pairwise (fun a b => a.time < b.time))
    (hne : ∀ x ∈ l, sp.time ≠ x.time) :
    (insertByTime sp l).Pairwise (fun a b => a.time < b.time) := by
  induction l with
  | nil => simp [insertByTime]
  | cons x xs ih =>
    obtain ⟨hx, hxs⟩ := List.pairwise_cons.mp hl
    by_cases h : sp.time < x.time
    · rw [insertByTime, if_pos h]
      refine List.pairwise_cons.mpr ⟨?_, hl⟩
      intro b hb
      rcases List.mem_cons.mp hb with hb | hb
      · exact hb ▸ h
      · exact lt_trans h (hx b hb)
    · rw [insertByTime, if_neg h]
      have hxsp : x.time < sp.time := by
        rcases lt_trichotomy sp.time x.time with hc | hc | hc
        · exact absurd hc h
        · exact absurd hc (hne x (List.mem_cons_self _ _))
        · exact hc
      refine List.pairwise_cons.mpr ⟨?_, ?_⟩
      · intro b hb
        rcases (insertByTime_mem sp b xs).mp hb with hb | hb
        · exact hb ▸ hxsp
        · exact hx b hb
      · exact ih hxs (fun y hy => hne y (List.mem_cons_of_mem _ hy))

theorem sortByTime_mem (l : List SPoint) (a : SPoint) : a ∈ sortByTime l ↔ a ∈ l := by
  induction l with
  | nil => simp [sortByTime]
  | cons x xs ih =>
    rw [sortByTime, insertByTime_mem, ih, List.mem_cons]

theorem sortByTime_length (l : List SPoint) : (sortByTime l).length = l.length := by
  induction l with
  | nil => rfl
  | cons x xs ih =>
    rw [sortByTime, insertByTime_length, ih]
    rfl

theorem sortByTime_pairwise (l : List SPoint)
    (hne : l.Pairwise (fun a b => a.time ≠ b.time)) :
    (sortByTime l).Pairwise (fun a b => a.time < b.time) := by
  induction l with
  | nil => simp [sortByTime]
  | cons x xs ih =>
    obtain ⟨hx, hxs⟩ := List.pairwise_cons.mp hne
    rw [sortByTime]
    refine insertByTime_pairwise x (sortByTime xs) (ih hxs) ?_
    intro y hy
    exact hx y ((sortByTime_mem xs y).mp hy)

theorem pairwise_lt_getD (l : List SPoint)
    (h : l.Pairwise (fun a b => a.time < b.time)) :
    ∀ i j, i < j → j < l.length → (l.getD i default).time < (l.getD j default).time := by
  intro i j hij hj
  have hi : i < l.length := by omega
  rw [List.getD_eq_getElem _ _ hi, List.getD_eq_getElem _ _ hj]
  exact List.pairwise_iff_getElem.mp h i j hi hj hij

/-- The components of the `DataLayer` invariant that hold at every stage of
the mutation pipelines (the two components tying the timestamp map to the
sorted array are broken between ingestion and time-scale reconciliation and
live only in `DLInv`): strictly ascending sorted timestamps, dense
synchronized indexes along the sorted array (I1/I2), timestamp-map key
consistency and key uniqueness, arena-range validity, pairwise disjointness
of the mappings' row objects, value-only per-series lists (I4), mapping
rows carrying their point's timestamp, and no dangling point data (every
mapped or sorted point data still holds at least one row). -/
structure PipeInv (σ : DLState) : Prop where
  mono : ∀ i j, i < j → j < σ.sorted.length →
    (σ.sorted.getD i default).time < (σ.sorted.getD j default).time
  sIndex : ∀ i, i < σ.sorted.length → (pdAt σ (σ.sorted.getD i default).pd).index = i
  sTime : ∀ i, i < σ.sorted.length →
    (pdAt σ (σ.sorted.getD i default).pd).timePoint = (σ.sorted.getD i default).time
  sRows : ∀ i, i < σ.sorted.length →
    ∀ e ∈ (pdAt σ (σ.sorted.getD i default).pd).mapping, (rowAt σ e.2).index = i
  sPdRange : ∀ i, i < σ.sorted.length → (σ.sorted.getD i default).pd < σ.pds.length
  mKeys : ∀ e ∈ σ.pointByTime, e.2 < σ.pds.length ∧ (pdAt σ e.2).timePoint = e.1
  mNodup : (σ.pointByTime.map Prod.fst).Nodup
  rRange : RowRangeState σ
  disj : DisjState σ
  wRows : ∀ s ∈ σ.rowsBySeries, ∀ rid ∈ s.2, rid < σ.rows.length ∧ (rowAt σ rid).value.isSome
  mTime : ∀ p, ∀ e ∈ (pdAt σ p).mapping, (rowAt σ e.2).time = (pdAt σ p).timePoint
  neMap : ∀ e ∈ σ.pointByTime, (pdAt σ e.2).mapping ≠ []
  neSorted : ∀ i, i < σ.sorted.length → (pdAt σ (σ.sorted.getD i default).pd).mapping ≠ []

/-- The full `DataLayer` invariant, holding after every public operation:
`PipeInv` plus the two-way correspondence between the timestamp map's keys
and the timestamps on the sorted array. -/
structure DLInv (σ : DLState) : Prop where
  pipe : PipeInv σ
  mSub : ∀ e ∈ σ.pointByTime, ∃ i, i < σ.sorted.length ∧ (σ.sorted.getD i default).time = e.1
  sSub : ∀ i, i < σ.sorted.length → ∃ e ∈ σ.pointByTime, e.1 = (σ.sorted.getD i default).time

theorem collectTimeScalePoints_spec (σ : DLState)
    (hkeys : ∀ e ∈ σ.pointByTime, e.2 < σ.pds.length ∧ (pdAt σ e.2).timePoint = e.1)
    (hnodup : (σ.pointByTime.map Prod.fst).Nodup) :
    (collectTimeScalePoints σ).length = σ.pointByTime.length ∧
    (∀ sp ∈ collectTimeScalePoints σ, (sp.time, sp.pd) ∈ σ.pointByTime ∧
      sp.time = (pdAt σ sp.pd).timePoint) ∧
    (∀ e ∈ σ.pointByTime, ∃ sp ∈ collectTimeScalePoints σ, sp.pd = e.2 ∧ sp.time = e.1) ∧
    (collectTimeScalePoints σ).Pairwise (fun a b => a.time < b.time) ∧
    (collectTimeScalePoints σ).Pairwise (fun a b => a.pd ≠ b.pd) := by
  have hmapeq : ∀ sp, sp ∈ σ.pointByTime.map (fun tp =>
      ({ timeWeight := 0, time := (σ.pds.getD tp.2 default).timePoint, pd := tp.2 } : SPoint)) ↔
      ∃ e ∈ σ.pointByTime, sp = { timeWeight := 0, time := e.1, pd := e.2 } := by
    intro sp
    rw [List.mem_map]
    constructor
    · rintro ⟨e, he, rfl⟩
      refine ⟨e, he, ?_⟩
      have h := (hkeys e he).2
      simp only [pdAt] at h
      rw [h]
    · rintro ⟨e, he, rfl⟩
      refine ⟨e, he, ?_⟩
      have h := (hkeys e he).2
      simp only [pdAt] at h
      rw [h]
  have hmem : ∀ sp, sp ∈ collectTimeScalePoints σ ↔
      ∃ e ∈ σ.pointByTime, sp = { timeWeight := 0, time := e.1, pd := e.2 } := by
    intro sp
    rw [collectTimeScalePoints, sortByTime_mem]
    exact hmapeq sp
  have hpne : (σ.pointByTime.map (fun tp =>
      ({ timeWeight := 0, time := (σ.pds.getD tp.2 default).timePoint, pd := tp.2 } : SPoint))).Pairwise
      (fun a b => a.time ≠ b.time) := by
    have h2 : (σ.pointByTime.map Prod.fst).Pairwise (fun a b => a ≠ b) := hnodup
    have h3 : σ.pointByTime.Pairwise (fun a b => a.1 ≠ b.1) := by
      rw [List.pairwise_map] at h2
      exact h2
    rw [List.pairwise_map]
    refine h3.imp_of_mem ?_
    intro a b ha hb hne
    show (pdAt σ a.2).timePoint ≠ (pdAt σ b.2).timePoint
    rw [(hkeys a ha).2, (hkeys b hb).2]
    exact hne
  have hplt : (collectTimeScalePoints σ).Pairwise (fun a b => a.time < b.time) :=
    sortByTime_pairwise _ hpne
  refine ⟨?_, ?_, ?_, hplt, ?_⟩
  · rw [collectTimeScalePoints, sortByTime_length, List.length_map]
  · intro sp hsp
    obtain ⟨e, he, rfl⟩ := (hmem sp).mp hsp
    exact ⟨he, ((hkeys e he).2).symm⟩
  · intro e he
    exact ⟨{ timeWeight := 0, time := e.1, pd := e.2 },
      (hmem _).mpr ⟨e, he, rfl⟩, rfl, rfl⟩
  · refine hplt.imp_of_mem ?_
    intro a b ha hb hlt
    obtain ⟨ea, hea, rfl⟩ := (hmem a).mp ha
    obtain ⟨eb, heb, rfl⟩ := (hmem b).mp hb
    intro hpd
    simp only at hpd hlt
    have h1 := (hkeys ea hea).2
    have h2 := (hkeys eb heb).2
    rw [hpd] at h1
    rw [h1] at h2
    omega

theorem mapDelete_not_deleted {α β : Type} [DecidableEq α] (m : List (α × β)) (k : α)
    (h : (mapDelete m k).2 = false) : (mapDelete m k).1 = m := by
  induction m with
  | nil => rfl
  | cons p rest ih =>
    by_cases hp : p.1 = k
    · rw [mapDelete, if_pos hp] at h
      cases h
    · rw [mapDelete, if_neg hp] at h ⊢
      have h2 : (mapDelete rest k).2 = false := h
      show p :: (mapDelete rest k).1 = p :: rest
      rw [ih h2]

theorem mapDelete_mem_iff {α β : Type} [DecidableEq α] (m : List (α × β)) (k : α)
    (hn : (m.map Prod.fst).Nodup) (e : α × β) :
    e ∈ (mapDelete m k).1 ↔ e ∈ m ∧ e.1 ≠ k := by
  induction m with
  | nil => simp [mapDelete]
  | cons p rest ih =>
    rw [List.map_cons, List.nodup_cons] at hn
    by_cases hp : p.1 = k
    · rw [mapDelete, if_pos hp]
      constructor
      · intro he
        refine ⟨List.mem_cons_of_mem _ he, ?_⟩
        intro hek
        refine hn.1 ?_
        rw [hp, ← hek]
        exact List.mem_map.mpr ⟨e, he, rfl⟩
      · rintro ⟨he, hek⟩
        rcases List.mem_cons.mp he with he | he
        · exact absurd (he ▸ hp) hek
        · exact he
    · rw [mapDelete, if_neg hp]
      simp only [List.mem_cons, ih hn.2]
      constructor
      · rintro (rfl | ⟨he, hek⟩)
        · exact ⟨Or.inl rfl, hp⟩
        · exact ⟨Or.inr he, hek⟩
      · rintro ⟨rfl | he, hek⟩
        · exact Or.inl rfl
        · exact Or.inr ⟨he, hek⟩

theorem mapGet_of_mem {α β : Type} [DecidableEq α] (m : List (α × β))
    (hn : (m.map Prod.fst).Nodup) (e : α × β) (he : e ∈ m) : mapGet m e.1 = some e.2 := by
  induction m with
  | nil => cases he
  | cons p rest ih =>
    rw [List.map_cons, List.nodup_cons] at hn
    rcases List.mem_cons.mp he with he | he
    · subst he
      rw [mapGet, if_pos rfl]
    · have hne : p.1 ≠ e.1 := by
        intro h
        exact hn.1 (h ▸ List.mem_map.mpr ⟨e, he, rfl⟩)
      rw [mapGet, if_neg hne]
      exact ih hn.2 he

theorem mapSet_mem_of_ne {α β : Type} [DecidableEq α] (m : List (α × β)) (k : α) (v : β)
    (e : α × β) (he : e ∈ m) (hne : e.1 ≠ k) : e ∈ mapSet m k v := by
  induction m with
  | nil => cases he
  | cons p rest ih =>
    by_cases hp : p.1 = k
    · rw [mapSet, if_pos hp]
      rcases List.mem_cons.mp he with he | he
      · exact absurd (he ▸ hp) hne
      · exact List.mem_cons_of_mem _ he
    · rw [mapSet, if_neg hp]
      rcases List.mem_cons.mp he with he | he
      · exact he ▸ List.mem_cons_self _ _
      · exact List.mem_cons_of_mem _ (ih he)

theorem mapSet_self_mem {α β : Type} [DecidableEq α] (m : List (α × β)) (k : α) (v : β) :
    (k, v) ∈ mapSet m k v := by
  induction m with
  | nil => exact List.mem_cons_self _ _
  | cons p rest ih =>
    by_cases hp : p.1 = k
    · rw [mapSet, if_pos hp]
      exact List.mem_cons_self _ _
    · rw [mapSet, if_neg hp]
      exact List.mem_cons_of_mem _ ih

theorem mapSet_ne_nil {α β : Type} [DecidableEq α] (m : List (α × β)) (k : α) (v : β) :
    mapSet m k v ≠ [] := by
  cases m with
  | nil => simp [mapSet]
  | cons p rest =>
    by_cases hp : p.1 = k
    · rw [mapSet, if_pos hp]
      simp
    · rw [mapSet, if_neg hp]
      simp

theorem nodup_append_single {α : Type} (l : List α) (a : α) (h : l.Nodup) (ha : a ∉ l) :
    (l ++ [a]).Nodup := by
  simp [List.nodup_append, h, ha]

theorem getD_append_lt {α : Type} [Inhabited α] (a b : List α) (i : Nat) (h : i < a.length) :
    (a ++ b).getD i default = a.getD i default := by
  rw [List.getD_eq_getElem?_getD, List.getElem?_append_left h, ← List.getD_eq_getElem?_getD]

theorem getD_append_right {α : Type} [Inhabited α] (a b : List α) (i : Nat)
    (h : a.length ≤ i) : (a ++ b).getD i default = b.getD (i - a.length) default := by
  rw [List.getD_eq_getElem?_getD, List.getElem?_append_right h, ← List.getD_eq_getElem?_getD]

theorem splice_length (arr : List SPoint) (np : SPoint) (ii : Nat) (hii : ii ≤ arr.length) :
    (arr.take ii ++ np :: arr.drop ii).length = arr.length + 1 := by
  simp
  omega

theorem splice_getD (arr : List SPoint) (np : SPoint) (ii k : Nat) (hii : ii ≤ arr.length) :
    (arr.take ii ++ np :: arr.drop ii).getD k default =
      (if k < ii then arr.getD k default
       else if k = ii then np
       else arr.getD (k - 1) default) := by
  have hlen : (arr.take ii).length = ii := by
    rw [List.length_take]
    omega
  by_cases h1 : k < ii
  · rw [if_pos h1, getD_append_lt _ _ _ (by omega)]
    rw [List.getD_eq_getElem?_getD, List.getElem?_take, if_pos h1, ← List.getD_eq_getElem?_getD]
  · rw [if_neg h1, getD_append_right _ _ _ (by omega), hlen]
    by_cases h2 : k = ii
    · rw [if_pos h2, h2, Nat.sub_self, List.getD_cons_zero]
    · rw [if_neg h2]
      have hk : k - ii = (k - ii - 1) + 1 := by omega
      rw [hk, List.getD_cons_succ]
      by_cases h3 : k - 1 < arr.length
      · rw [List.getD_eq_getElem?_getD, List.getElem?_drop, ← List.getD_eq_getElem?_getD]
        congr 1
        omega
      · have hd : arr.getD (k - 1) default = default := by
          rw [List.getD_eq_getElem?_getD, List.getElem?_eq_none (by omega)]
          rfl
        have hd2 : (arr.drop ii).getD (k - ii - 1) default = default := by
          rw [List.getD_eq_getElem?_getD, List.getElem?_eq_none (by simp; omega)]
          rfl
        rw [hd, hd2]

theorem pairwise_getD_iff {α : Type} [Inhabited α] {P : α → α → Prop} (l : List α) :
    l.Pairwise P ↔ ∀ i j, i < j → j < l.length → P (l.getD i default) (l.getD j default) := by
  rw [List.pairwise_iff_getElem]
  constructor
  · intro h i j hij hj
    have hi : i < l.length := by omega
    rw [List.getD_eq_getElem _ _ hi, List.getD_eq_getElem _ _ hj]
    exact h i j hi hj hij
  · intro h i j hi hj hij
    have := h i j hij hj
    rwa [List.getD_eq_getElem _ _ hi, List.getD_eq_getElem _ _ hj] at this

theorem assignRows_frame (idx : Nat) (m : List (Nat × Nat)) :
    ∀ (rows : List PlotRowV) (r : Nat),
    ((assignRows rows idx m).getD r default).time = (rows.getD r default).time ∧
    ((assignRows rows idx m).getD r default).value = (rows.getD r default).value := by
  induction m with
  | nil => intro rows r; exact ⟨rfl, rfl⟩
  | cons e rest ih =>
    intro rows r
    obtain ⟨h1, h2⟩ := ih (setRowIndex rows e.2 idx) r
    have hset : ((setRowIndex rows e.2 idx).getD r default).time = (rows.getD r default).time ∧
        ((setRowIndex rows e.2 idx).getD r default).value = (rows.getD r default).value := by
      by_cases he : e.2 = r
      · subst he
        by_cases hlen : e.2 < rows.length
        · rw [setRowIndex, getD_set_self _ _ _ hlen]
          exact ⟨rfl, rfl⟩
        · rw [setRowIndex, List.set_eq_of_length_le (by omega)]
          exact ⟨rfl, rfl⟩
      · rw [setRowIndex, getD_set_ne _ _ _ _ he]
        exact ⟨rfl, rfl⟩
    exact ⟨h1.trans hset.1, h2.trans hset.2⟩

theorem assignIndexToPointData_pd_frame (s : DLState) (p i q : Nat) :
    (pdAt (assignIndexToPointData s p i) q).mapping = (pdAt s q).mapping ∧
    (pdAt (assignIndexToPointData s p i) q).timePoint = (pdAt s q).timePoint := by
  by_cases hq : q = p
  · subst hq
    by_cases hp : q < s.pds.length
    · show ((s.pds.set q _).getD q default).mapping = _ ∧
        ((s.pds.set q _).getD q default).timePoint = _
      rw [getD_set_self _ _ _ hp]
      exact ⟨rfl, rfl⟩
    · show ((s.pds.set q _).getD q default).mapping = _ ∧
        ((s.pds.set q _).getD q default).timePoint = _
      rw [List.set_eq_of_length_le (by omega)]
      exact ⟨rfl, rfl⟩
  · show ((s.pds.set p _).getD q default).mapping = _ ∧
      ((s.pds.set p _).getD q default).timePoint = _
    rw [getD_set_ne _ _ _ _ (fun h => hq h.symm)]
    exact ⟨rfl, rfl⟩

theorem assignFromAux_frames (pts : List SPoint) :
    ∀ (s : DLState) (i : Nat),
    (assignFromAux s pts i).pds.length = s.pds.length ∧
    (assignFromAux s pts i).rows.length = s.rows.length ∧
    (assignFromAux s pts i).pointByTime = s.pointByTime ∧
    (assignFromAux s pts i).rowsBySeries = s.rowsBySeries ∧
    (assignFromAux s pts i).lastTime = s.lastTime ∧
    (assignFromAux s pts i).sorted = s.sorted ∧
    (∀ q, (pdAt (assignFromAux s pts i) q).mapping = (pdAt s q).mapping ∧
      (pdAt (assignFromAux s pts i) q).timePoint = (pdAt s q).timePoint) ∧
    (∀ r, (rowAt (assignFromAux s pts i) r).time = (rowAt s r).time ∧
      (rowAt (assignFromAux s pts i) r).value = (rowAt s r).value) := by
  induction pts with
  | nil =>
    intro s i
    exact ⟨rfl, rfl, rfl, rfl, rfl, rfl, fun q => ⟨rfl, rfl⟩, fun r => ⟨rfl, rfl⟩⟩
  | cons sp rest ih =>
    intro s i
    obtain ⟨f1, f2, f3, f4, f5, f6, f7, f8⟩ := ih (assignIndexToPointData s sp.pd i) (i + 1)
    have hres : assignFromAux s (sp :: rest) i =
        assignFromAux (assignIndexToPointData s sp.pd i) rest (i + 1) := rfl
    rw [hres]
    refine ⟨by rw [f1]; simp [assignIndexToPointData],
      by rw [f2]; simp [assignIndexToPointData, assignRows_effect],
      by rw [f3, assignIndexToPointData_pointByTime],
      by rw [f4, assignIndexToPointData_rowsBySeries],
      by rw [f5, assignIndexToPointData_lastTime],
      by rw [f6, assignIndexToPointData_sorted], ?_, ?_⟩
    · intro q
      obtain ⟨g1, g2⟩ := assignIndexToPointData_pd_frame s sp.pd i q
      exact ⟨(f7 q).1.trans g1, (f7 q).2.trans g2⟩
    · intro r
      obtain ⟨g1, g2⟩ := assignRows_frame i (pdAt s sp.pd).mapping s.rows r
      exact ⟨(f8 r).1.trans g1, (f8 r).2.trans g2⟩

theorem cleanupPointsData_fields (pts : List SPoint) : ∀ st : DLState,
    (cleanupPointsData st pts).rows = st.rows ∧
    (cleanupPointsData st pts).pds = st.pds ∧
    (cleanupPointsData st pts).rowsBySeries = st.rowsBySeries ∧
    (cleanupPointsData st pts).lastTime = st.lastTime ∧
    (cleanupPointsData st pts).sorted = st.sorted := by
  induction pts with
  | nil => intro st; exact ⟨rfl, rfl, rfl, rfl, rfl⟩
  | cons sp rest ih =>
    intro st
    rw [cleanupPointsData]
    by_cases h : (st.pds.getD sp.pd default).mapping.isEmpty = true
    · rw [if_pos h]
      exact ih _
    · rw [if_neg h]
      exact ih _

theorem cleanupPointsData_mem (pts : List SPoint) : ∀ st : DLState,
    (st.pointByTime.map Prod.fst).Nodup →
    (∀ e, e ∈ (cleanupPointsData st pts).pointByTime ↔
      (e ∈ st.pointByTime ∧
        ¬∃ sp ∈ pts, sp.time = e.1 ∧ (pdAt st sp.pd).mapping = [])) ∧
    ((cleanupPointsData st pts).pointByTime.map Prod.fst).Nodup := by
  induction pts with
  | nil =>
    intro st hn
    refine ⟨?_, hn⟩
    intro e
    simp [cleanupPointsData]
  | cons sp rest ih =>
    intro st hn
    rw [cleanupPointsData]
    by_cases h : (st.pds.getD sp.pd default).mapping.isEmpty = true
    · have hemp : (pdAt st sp.pd).mapping = [] := by
        rw [show (pdAt st sp.pd).mapping = (st.pds.getD sp.pd default).mapping from rfl]
        exact List.isEmpty_iff.mp h
      rw [if_pos h]
      have hn1 : (((mapDelete st.pointByTime sp.time).1).map Prod.fst).Nodup :=
        (mapDelete_keys_sublist st.pointByTime sp.time).nodup hn
      obtain ⟨ihm, ihn⟩ := ih { st with pointByTime := (mapDelete st.pointByTime sp.time).1 } hn1
      refine ⟨?_, ihn⟩
      intro e
      rw [ihm e]
      have hdel : e ∈ (mapDelete st.pointByTime sp.time).1 ↔
          e ∈ st.pointByTime ∧ e.1 ≠ sp.time := mapDelete_mem_iff _ _ hn e
      constructor
      · rintro ⟨he1, he2⟩
        obtain ⟨hm, hne⟩ := hdel.mp he1
        refine ⟨hm, ?_⟩
        rintro ⟨sp2, hsp2, ht2, hm2⟩
        rcases List.mem_cons.mp hsp2 with hsp2 | hsp2
        · exact hne (by rw [← hsp2, ht2])
        · exact he2 ⟨sp2, hsp2, ht2, hm2⟩
      · rintro ⟨hm, hno⟩
        have hne : e.1 ≠ sp.time := by
          intro hne
          exact hno ⟨sp, List.mem_cons_self _ _, hne.symm, hemp⟩
        refine ⟨hdel.mpr ⟨hm, hne⟩, ?_⟩
        rintro ⟨sp2, hsp2, ht2, hm2⟩
        exact hno ⟨sp2, List.mem_cons_of_mem _ hsp2, ht2, hm2⟩
    · have hemp : (pdAt st sp.pd).mapping ≠ [] := by
        rw [show (pdAt st sp.pd).mapping = (st.pds.getD sp.pd default).mapping from rfl]
        intro hc
        exact h (List.isEmpty_iff.mpr hc)
      rw [if_neg h]
      obtain ⟨ihm, ihn⟩ := ih st hn
      refine ⟨?_, ihn⟩
      intro e
      rw [ihm e]
      constructor
      · rintro ⟨hm, hno⟩
        refine ⟨hm, ?_⟩
        rintro ⟨sp2, hsp2, ht2, hm2⟩
        rcases List.mem_cons.mp hsp2 with hsp2 | hsp2
        · exact hemp (hsp2 ▸ hm2)
        · exact hno ⟨sp2, hsp2, ht2, hm2⟩
      · rintro ⟨hm, hno⟩
        refine ⟨hm, ?_⟩
        rintro ⟨sp2, hsp2, ht2, hm2⟩
        exact hno ⟨sp2, List.mem_cons_of_mem _ hsp2, ht2, hm2⟩

theorem unbindSeries_effect (series : Nat) (pts : List SPoint) : ∀ st : DLState,
    pts.Pairwise (fun a b => a.pd ≠ b.pd) →
    (unbindSeries st series pts).1.rows = st.rows ∧
    (unbindSeries st series pts).1.pointByTime = st.pointByTime ∧
    (unbindSeries st series pts).1.rowsBySeries = st.rowsBySeries ∧
    (unbindSeries st series pts).1.lastTime = st.lastTime ∧
    (unbindSeries st series pts).1.sorted = st.sorted ∧
    (unbindSeries st series pts).1.pds.length = st.pds.length ∧
    (∀ sp ∈ pts, pdAt (unbindSeries st series pts).1 sp.pd =
      { pdAt st sp.pd with mapping := (mapDelete (pdAt st sp.pd).mapping series).1 }) ∧
    (∀ q, (∀ sp ∈ pts, sp.pd ≠ q) → pdAt (unbindSeries st series pts).1 q = pdAt st q) ∧
    ((unbindSeries st series pts).2 = false →
      ∀ q, pdAt (unbindSeries st series pts).1 q = pdAt st q) := by
  induction pts with
  | nil =>
    intro st _
    refine ⟨rfl, rfl, rfl, rfl, rfl, rfl, ?_, ?_, ?_⟩
    · intro sp h
      cases h
    · intro q _
      rfl
    · intro _ q
      rfl
  | cons sp rest ih =>
    intro st hpw
    obtain ⟨hhd, htl⟩ := List.pairwise_cons.mp hpw
    have hres : unbindSeries st series (sp :: rest) =
        (let dm := mapDelete (pdAt st sp.pd).mapping series;
         let st1 : DLState := { st with
           pds := st.pds.set sp.pd { pdAt st sp.pd with mapping := dm.1 } };
         let r := unbindSeries st1 series rest;
         ((r.1 : DLState), dm.2 || r.2)) := rfl
    rw [hres]
    simp only []
    set st1 : DLState := { st with
      pds := st.pds.set sp.pd
        { pdAt st sp.pd with mapping := (mapDelete (pdAt st sp.pd).mapping series).1 } }
      with hst1
    obtain ⟨f1, f2, f3, f4, f5, f6, f7, f8, f9⟩ := ih st1 htl
    have hpd1 : pdAt st1 sp.pd =
        { pdAt st sp.pd with mapping := (mapDelete (pdAt st sp.pd).mapping series).1 } := by
      by_cases hlt : sp.pd < st.pds.length
      · show (st.pds.set sp.pd _).getD sp.pd default = _
        exact getD_set_self _ _ _ hlt
      · show (st.pds.set sp.pd _).getD sp.pd default = _
        rw [List.set_eq_of_length_le (by omega)]
        show pdAt st sp.pd = _
        have hdef : pdAt st sp.pd = default := by
          show st.pds.getD sp.pd default = default
          rw [List.getD_eq_getElem?_getD, List.getElem?_eq_none (by omega)]
          rfl
        rw [hdef]
        rfl
    have hpd1q : ∀ q, q ≠ sp.pd → pdAt st1 q = pdAt st q := by
      intro q hq
      show (st.pds.set sp.pd _).getD q default = _
      exact getD_set_ne _ _ _ _ (fun h => hq h.symm)
    refine ⟨f1, f2, f3, f4, f5, by rw [f6, hst1]; simp, ?_, ?_, ?_⟩
    · intro sp2 hsp2
      rcases List.mem_cons.mp hsp2 with hsp2 | hsp2
      · subst hsp2
        rw [f8 sp2.pd (fun b hb h => hhd b hb h.symm), hpd1]
      · rw [f7 sp2 hsp2, hpd1q sp2.pd (fun h => hhd sp2 hsp2 h.symm)]
    · intro q hq
      rw [f8 q (fun b hb => hq b (List.mem_cons_of_mem _ hb)),
        hpd1q q (fun h => hq sp (List.mem_cons_self _ _) h.symm)]
    · intro hfl q
      have hor := Bool.or_eq_false_iff.mp hfl
      have hmd : (mapDelete (pdAt st sp.pd).mapping series).1 = (pdAt st sp.pd).mapping :=
        mapDelete_not_deleted _ _ hor.1
      have hpdq : pdAt st1 q = pdAt st q := by
        by_cases hq : q = sp.pd
        · subst hq
          rw [hpd1, hmd]
        · exact hpd1q q hq
      rw [f9 hor.2 q, hpdq]

theorem matchedLen_le (old new : List SPoint) :
    matchedLen old new ≤ min old.length new.length := by
  rw [matchedLen]
  cases hfd : firstDiffIdx old new with
  | none => exact Nat.le_refl _
  | some i =>
    have := (firstDiffIdx_some old new i hfd).2.1
    simpa using Nat.le_of_lt this

theorem matchedLen_prefix_eq (old new : List SPoint) (j : Nat) (hj : j < matchedLen old new) :
    (old.getD j default).time = (new.getD j default).time := by
  rw [matchedLen] at hj
  cases hfd : firstDiffIdx old new with
  | none =>
    rw [hfd] at hj
    exact firstDiffIdx_none old new hfd j (by simpa using hj)
  | some i =>
    rw [hfd] at hj
    exact (firstDiffIdx_some old new i hfd).1 j (by simpa using hj)

theorem syncPrefix_state (old : List SPoint) : ∀ (st : DLState) (new : List SPoint) (i : Nat),
    (syncPrefix st old new i).1 = assignFromAux st (new.take (matchedLen old new)) i := by
  induction old with
  | nil =>
    intro st new i
    cases new with
    | nil => rfl
    | cons n ns =>
      rw [matchedLen_nil_left]
      rfl
  | cons o os ih =>
    intro st new i
    cases new with
    | nil =>
      rw [matchedLen_nil_right]
      rfl
    | cons n ns =>
      by_cases ht : o.time = n.time
      · have hne : ¬ o.time ≠ n.time := by simpa using ht
        rw [matchedLen_cons, if_pos ht]
        have hstep : (syncPrefix st (o :: os) (n :: ns) i).1 =
            (syncPrefix (assignIndexToPointData st n.pd i) os ns (i + 1)).1 := by
          simp only [syncPrefix, hne, ite_false, if_neg, not_false_eq_true]
        rw [hstep, ih]
        rfl
      · rw [matchedLen_cons, if_neg ht]
        have hstep : (syncPrefix st (o :: os) (n :: ns) i).1 = st := by
          simp only [syncPrefix, ht, ite_true, if_pos, ne_eq, not_false_eq_true]
        rw [hstep]
        rfl

theorem fillWeightsForPoints_pd_time (tw : Option Int → Int → Nat) (pts : List SPoint)
    (start i : Nat) (hi : i < pts.length) :
    ((fillWeightsForPoints tw pts start).getD i default).time = (pts.getD i default).time ∧
    ((fillWeightsForPoints tw pts start).getD i default).pd = (pts.getD i default).pd := by
  unfold fillWeightsForPoints
  rw [List.getD_eq_getElem?_getD, List.getElem?_map, List.getElem?_range hi]
  by_cases hs : i < start
  · simp [hs]
  · simp [hs]

/-- Read a point data object beyond the arena is the default record. -/
theorem pdAt_default (σ : DLState) (q : Nat) (h : σ.pds.length ≤ q) : pdAt σ q = default := by
  show σ.pds.getD q default = default
  rw [List.getD_eq_getElem?_getD, List.getElem?_eq_none (by omega)]
  rfl

/-- Everything the ingestion loop guarantees about its result relative to
its input state: which fields are untouched, how the timestamp map and the
arenas grow, and that key consistency, range validity, disjointness and
row-timestamp consistency are maintained. -/
structure IngestOut (st : DLState) (aff : Bool) (R : DLState × Bool × List Nat) : Prop where
  sorted : R.1.sorted = st.sorted
  rbs : R.1.rowsBySeries = st.rowsBySeries
  lt : R.1.lastTime = st.lastTime
  mapExt : ∃ mext, R.1.pointByTime = st.pointByTime ++ mext
  affFalse : R.2.1 = false → R.1.pointByTime = st.pointByTime ∧ aff = false
  mKeys : ∀ e ∈ R.1.pointByTime, e.2 < R.1.pds.length ∧ (pdAt R.1 e.2).timePoint = e.1
  mNodup : (R.1.pointByTime.map Prod.fst).Nodup
  newNe : ∀ e ∈ R.1.pointByTime, e ∉ st.pointByTime → (pdAt R.1 e.2).mapping ≠ []
  rowsLen : st.rows.length ≤ R.1.rows.length
  rowsOld : ∀ r, r < st.rows.length → rowAt R.1 r = rowAt st r
  ridsLt : ∀ rid ∈ R.2.2, rid < R.1.rows.length
  pdsLen : st.pds.length ≤ R.1.pds.length
  pdOld : ∀ q, q < st.pds.length → (pdAt R.1 q).index = (pdAt st q).index ∧
    (pdAt R.1 q).timePoint = (pdAt st q).timePoint
  mapOld : ∀ q, q < st.pds.length → ∀ e ∈ (pdAt R.1 q).mapping,
    e ∈ (pdAt st q).mapping ∨
    (st.rows.length ≤ e.2 ∧ (rowAt R.1 e.2).index = (pdAt st q).index ∧
      (rowAt R.1 e.2).time = (pdAt st q).timePoint)
  emptyBack : ∀ q, (pdAt R.1 q).mapping = [] → (pdAt st q).mapping = []
  rRange : RowRangeState R.1
  disj : DisjState R.1
  mTime : ∀ p, ∀ e ∈ (pdAt R.1 p).mapping, (rowAt R.1 e.2).time = (pdAt R.1 p).timePoint

theorem ingestData_main (series : Nat) (data : List DataItem) :
    ∀ (st : DLState) (aff : Bool),
    (∀ e ∈ st.pointByTime, e.2 < st.pds.length ∧ (pdAt st e.2).timePoint = e.1) →
    (st.pointByTime.map Prod.fst).Nodup →
    RowRangeState st → DisjState st →
    (∀ p, ∀ e ∈ (pdAt st p).mapping, (rowAt st e.2).time = (pdAt st p).timePoint) →
    IngestOut st aff (ingestData st series aff data) := by
  induction data with
  | nil =>
    intro st aff hK hN hR hD hT
    refine ⟨rfl, rfl, rfl, ⟨[], by simp [ingestData]⟩, ?_, hK, hN, ?_, Nat.le_refl _,
      fun r _ => rfl, ?_, Nat.le_refl _, fun q _ => ⟨rfl, rfl⟩, ?_, fun q h => h, hR, hD, hT⟩
    · intro h
      exact ⟨rfl, h⟩
    · intro e he hne
      exact absurd he hne
    · intro rid hr
      cases hr
    · intro q _ e he
      exact Or.inl he
  | cons item rest ih =>
    intro st aff hK hN hR hD hT
    cases hg : mapGet st.pointByTime item.time with
    | some p =>
      obtain ⟨hplt, htp⟩ := hK (item.time, p) (mapGet_some_mem _ _ _ hg)
      set rid := st.rows.length with hrid
      set row : PlotRowV :=
        { index := (st.pds.getD p default).index, time := item.time,
          value := itemPlotValue item } with hrow
      set st2 : DLState :=
        { st with
          rows := st.rows ++ [row],
          pds := st.pds.set p
            { st.pds.getD p default with
              mapping := mapSet (st.pds.getD p default).mapping series rid } } with hst2
      have hred : ingestData st series aff (item :: rest) =
          ((ingestData st2 series aff rest).1, (ingestData st2 series aff rest).2.1,
            rid :: (ingestData st2 series aff rest).2.2) := by
        conv_lhs => unfold ingestData
        simp only [hg]
      have hpd2p : pdAt st2 p =
          { pdAt st p with mapping := mapSet (pdAt st p).mapping series rid } := by
        show (st.pds.set p _).getD p default = _
        exact getD_set_self _ _ _ hplt
      have hpd2q : ∀ q, q ≠ p → pdAt st2 q = pdAt st q := by
        intro q hq
        show (st.pds.set p _).getD q default = _
        exact getD_set_ne _ _ _ _ (fun h => hq h.symm)
      have hrows2 : ∀ r, r < st.rows.length → rowAt st2 r = rowAt st r := by
        intro r hr
        show (st.rows ++ [row]).getD r default = _
        exact getD_append_lt _ _ _ hr
      have hrowrid : rowAt st2 rid = row := by
        show (st.rows ++ [row]).getD st.rows.length default = _
        rw [getD_append_right _ _ _ (Nat.le_refl _), Nat.sub_self, List.getD_cons_zero]
      have hlen2 : st2.rows.length = st.rows.length + 1 := by
        simp [hst2]
      have hplen2 : st2.pds.length = st.pds.length := by
        simp [hst2]
      have hmap2 : st2.pointByTime = st.pointByTime := rfl
      have hK2 : ∀ e ∈ st2.pointByTime, e.2 < st2.pds.length ∧
          (pdAt st2 e.2).timePoint = e.1 := by
        intro e he
        rw [hmap2] at he
        obtain ⟨h1, h2⟩ := hK e he
        refine ⟨by omega, ?_⟩
        by_cases hep : e.2 = p
        · rw [hep, hpd2p]
          rw [hep] at h2
          exact h2
        · rw [hpd2q e.2 hep]
          exact h2
      have hR2 : RowRangeState st2 := by
        intro q e he
        rw [hlen2]
        by_cases hqp : q = p
        · rw [hqp, hpd2p] at he
          rcases mapSet_mem _ _ _ e he with h | h
          · rw [h]
            omega
          · have := hR p e h
            omega
        · rw [hpd2q q hqp] at he
          have := hR q e he
          omega
      have hD2 : DisjState st2 := by
        intro a b hab ea hea eb heb
        by_cases hap : a = p
        · subst hap
          rw [hpd2p] at hea
          rw [hpd2q b (fun h => hab h.symm)] at heb
          rcases mapSet_mem _ _ _ ea hea with h | h
          · rw [h]
            have := hR b eb heb
            simp only []
            omega
          · exact hD a b hab ea h eb heb
        · rw [hpd2q a hap] at hea
          by_cases hbp : b = p
          · subst hbp
            rw [hpd2p] at heb
            rcases mapSet_mem _ _ _ eb heb with h | h
            · rw [h]
              have := hR a ea hea
              simp only []
              omega
            · exact hD a b hab ea hea eb h
          · rw [hpd2q b hbp] at heb
            exact hD a b hab ea hea eb heb
      have hT2 : ∀ q, ∀ e ∈ (pdAt st2 q).mapping,
          (rowAt st2 e.2).time = (pdAt st2 q).timePoint := by
        intro q e he
        by_cases hqp : q = p
        · subst hqp
          rw [hpd2p] at he ⊢
          rcases mapSet_mem _ _ _ e he with h | h
          · rw [h]
            show (rowAt st2 rid).time = _
            rw [hrowrid]
            exact htp.symm
          · rw [hrows2 e.2 (hR q e h)]
            exact hT q e h
        · rw [hpd2q q hqp] at he ⊢
          rw [hrows2 e.2 (hR q e he)]
          exact hT q e he
      have out2 := ih st2 aff hK2 hN hR2 hD2 hT2
      rw [hred]
      set R2 := ingestData st2 series aff rest with hR2def
      refine ⟨out2.sorted, out2.rbs, out2.lt, ?_, ?_, out2.mKeys, out2.mNodup, ?_, ?_, ?_,
        ?_, ?_, ?_, ?_, ?_, out2.rRange, out2.disj, out2.mTime⟩
      · obtain ⟨mext, hm⟩ := out2.mapExt
        exact ⟨mext, hm⟩
      · intro h
        obtain ⟨h1, h2⟩ := out2.affFalse h
        exact ⟨h1, h2⟩
      · intro e he hne
        exact out2.newNe e he hne
      · have h1 := out2.rowsLen
        rw [hlen2] at h1
        show st.rows.length ≤ R2.1.rows.length
        omega
      · intro r hr
        rw [out2.rowsOld r (by rw [hlen2]; omega)]
        exact hrows2 r hr
      · intro r hr
        rcases List.mem_cons.mp hr with hr | hr
        · subst hr
          have h1 := out2.rowsLen
          rw [hlen2] at h1
          show rid < R2.1.rows.length
          omega
        · exact out2.ridsLt r hr
      · have h1 := out2.pdsLen
        rw [hplen2] at h1
        show st.pds.length ≤ R2.1.pds.length
        omega
      · intro q hq
        obtain ⟨h1, h2⟩ := out2.pdOld q (by rw [hplen2]; omega)
        by_cases hqp : q = p
        · subst hqp
          rw [h1, h2, hpd2p]
          exact ⟨rfl, rfl⟩
        · rw [h1, h2, hpd2q q hqp]
          exact ⟨rfl, rfl⟩
      · intro q hq e he
        rcases out2.mapOld q (by rw [hplen2]; omega) e he with hA | hB
        · by_cases hqp : q = p
          · subst hqp
            rw [hpd2p] at hA
            rcases mapSet_mem _ _ _ e hA with h | h
            · refine Or.inr ⟨?_, ?_, ?_⟩
              · rw [h]
              · rw [h]
                show (rowAt R2.1 rid).index = _
                rw [out2.rowsOld rid (by rw [hlen2]; omega), hrowrid]
                rfl
              · rw [h]
                show (rowAt R2.1 rid).time = _
                rw [out2.rowsOld rid (by rw [hlen2]; omega), hrowrid]
                exact htp.symm
            · exact Or.inl h
          · rw [hpd2q q hqp] at hA
            exact Or.inl hA
        · obtain ⟨hb1, hb2, hb3⟩ := hB
          refine Or.inr ⟨by omega, ?_, ?_⟩
          · rw [hb2]
            by_cases hqp : q = p
            · subst hqp
              rw [hpd2p]
            · rw [hpd2q q hqp]
          · rw [hb3]
            by_cases hqp : q = p
            · subst hqp
              rw [hpd2p]
            · rw [hpd2q q hqp]
      · intro q hq
        have h2 := out2.emptyBack q hq
        by_cases hqp : q = p
        · subst hqp
          rw [hpd2p] at h2
          exact absurd h2 (mapSet_ne_nil _ _ _)
        · rw [hpd2q q hqp] at h2
          exact h2
    | none =>
      have hfresh : ∀ e ∈ st.pointByTime, e.1 ≠ item.time :=
        (mapGet_none_iff _ _).mp hg
      set p := st.pds.length with hp
      set stc : DLState :=
        { st with
          pds := st.pds ++ [{ index := 0, timePoint := item.time, mapping := [] }],
          pointByTime := mapSet st.pointByTime item.time p } with hstc
      have hmapc : stc.pointByTime = st.pointByTime ++ [(item.time, p)] := by
        show mapSet st.pointByTime item.time p = _
        exact mapSet_absent _ _ _ hg
      have hpdcp : pdAt stc p = { index := 0, timePoint := item.time, mapping := [] } := by
        show (st.pds ++ _).getD st.pds.length default = _
        rw [getD_append_right _ _ _ (Nat.le_refl _), Nat.sub_self, List.getD_cons_zero]
      have hpdcq : ∀ q, q ≠ p → pdAt stc q = pdAt st q := by
        intro q hq
        by_cases hlt : q < st.pds.length
        · show (st.pds ++ _).getD q default = _
          exact getD_append_lt _ _ _ hlt
        · have h1 : pdAt stc q = default := by
            refine pdAt_default _ _ ?_
            show (st.pds ++ _).length ≤ q
            simp only [List.length_append, List.length_cons, List.length_nil]
            omega
          have h2 : pdAt st q = default := pdAt_default _ _ (by omega)
          rw [h1, h2]
      set rid := st.rows.length with hrid
      set row : PlotRowV :=
        { index := (stc.pds.getD p default).index, time := item.time,
          value := itemPlotValue item } with hrow
      have hrow0 : row = { index := 0, time := item.time, value := itemPlotValue item } := by
        rw [hrow, show (stc.pds.getD p default) = pdAt stc p from rfl, hpdcp]
      set st2 : DLState :=
        { stc with
          rows := stc.rows ++ [row],
          pds := stc.pds.set p
            { stc.pds.getD p default with
              mapping := mapSet (stc.pds.getD p default).mapping series stc.rows.length } }
        with hst2
      have hred : ingestData st series aff (item :: rest) =
          ((ingestData st2 series true rest).1, (ingestData st2 series true rest).2.1,
            rid :: (ingestData st2 series true rest).2.2) := by
        conv_lhs => unfold ingestData
        simp only [hg]
      have hplt : p < stc.pds.length := by
        show p < (st.pds ++ _).length
        simp only [List.length_append, List.length_cons, List.length_nil]
        omega
      have hpd2p : pdAt st2 p =
          { index := 0, timePoint := item.time, mapping := [(series, rid)] } := by
        show (stc.pds.set p _).getD p default = _
        rw [getD_set_self _ _ _ hplt]
        rw [show (stc.pds.getD p default) = pdAt stc p from rfl, hpdcp]
        rfl
      have hpd2q : ∀ q, q ≠ p → pdAt st2 q = pdAt st q := by
        intro q hq
        have h1 : pdAt st2 q = pdAt stc q := by
          show (stc.pds.set p _).getD q default = _
          exact getD_set_ne _ _ _ _ (fun h => hq h.symm)
        rw [h1, hpdcq q hq]
      have hrows2 : ∀ r, r < st.rows.length → rowAt st2 r = rowAt st r := by
        intro r hr
        show (st.rows ++ [row]).getD r default = _
        exact getD_append_lt _ _ _ hr
      have hrowrid : rowAt st2 rid = row := by
        show (st.rows ++ [row]).getD st.rows.length default = _
        rw [getD_append_right _ _ _ (Nat.le_refl _), Nat.sub_self, List.getD_cons_zero]
      have hlen2 : st2.rows.length = st.rows.length + 1 := by
        simp [hst2]
      have hplen2 : st2.pds.length = st.pds.length + 1 := by
        simp [hst2, hstc]
      have hmap2 : st2.pointByTime = st.pointByTime ++ [(item.time, p)] := hmapc
      have hK2 : ∀ e ∈ st2.pointByTime, e.2 < st2.pds.length ∧
          (pdAt st2 e.2).timePoint = e.1 := by
        intro e he
        rw [hmap2] at he
        rcases List.mem_append.mp he with he | he
        · obtain ⟨h1, h2⟩ := hK e he
          refine ⟨by omega, ?_⟩
          rw [hpd2q e.2 (by omega)]
          exact h2
        · have he2 : e = (item.time, p) := by simpa using he
          rw [he2]
          refine ⟨by omega, ?_⟩
          rw [hpd2p]
      have hN2 : (st2.pointByTime.map Prod.fst).Nodup := by
        rw [hmap2, List.map_append]
        refine nodup_append_single _ _ hN ?_
        intro hmem
        obtain ⟨e, he, hee⟩ := List.mem_map.mp hmem
        exact hfresh e he hee
      have hR2 : RowRangeState st2 := by
        intro q e he
        rw [hlen2]
        by_cases hqp : q = p
        · rw [hqp, hpd2p] at he
          have he2 : e = (series, rid) := by simpa using he
          rw [he2]
          simp only []
          omega
        · rw [hpd2q q hqp] at he
          have := hR q e he
          omega
      have hD2 : DisjState st2 := by
        intro a b hab ea hea eb heb
        by_cases hap : a = p
        · subst hap
          rw [hpd2p] at hea
          have hea2 : ea = (series, rid) := by simpa using hea
          rw [hpd2q b (fun h => hab h.symm)] at heb
          rw [hea2]
          have := hR b eb heb
          simp only []
          omega
        · rw [hpd2q a hap] at hea
          by_cases hbp : b = p
          · subst hbp
            rw [hpd2p] at heb
            have heb2 : eb = (series, rid) := by simpa using heb
            rw [heb2]
            have := hR a ea hea
            simp only []
            omega
          · rw [hpd2q b hbp] at heb
            exact hD a b hab ea hea eb heb
      have hT2 : ∀ q, ∀ e ∈ (pdAt st2 q).mapping,
          (rowAt st2 e.2).time = (pdAt st2 q).timePoint := by
        intro q e he
        by_cases hqp : q = p
        · subst hqp
          rw [hpd2p] at he ⊢
          have he2 : e = (series, rid) := by simpa using he
          rw [he2]
          show (rowAt st2 rid).time = _
          rw [hrowrid, hrow0]
        · rw [hpd2q q hqp] at he ⊢
          rw [hrows2 e.2 (hR q e he)]
          exact hT q e he
      have out2 := ih st2 true hK2 hN2 hR2 hD2 hT2
      rw [hred]
      set R2 := ingestData st2 series true rest with hR2def
      have hridrowsc : rid = stc.rows.length := rfl
      refine ⟨out2.sorted, out2.rbs, out2.lt, ?_, ?_, out2.mKeys, out2.mNodup, ?_, ?_, ?_,
        ?_, ?_, ?_, ?_, ?_, out2.rRange, out2.disj, out2.mTime⟩
      · obtain ⟨mext, hm⟩ := out2.mapExt
        refine ⟨(item.time, p) :: mext, ?_⟩
        rw [hm, hmap2, List.append_assoc]
        rfl
      · intro h
        obtain ⟨h1, h2⟩ := out2.affFalse h
        cases h2
      · intro e he hne
        by_cases he2 : e ∈ st2.pointByTime
        · rw [hmap2] at he2
          rcases List.mem_append.mp he2 with h3 | h3
          · exact absurd h3 hne
          · have he3 : e = (item.time, p) := by simpa using h3
            intro hemp
            have := out2.emptyBack e.2 hemp
            rw [he3] at this
            rw [hpd2p] at this
            simp at this
        · exact out2.newNe e he he2
      · have h1 := out2.rowsLen
        rw [hlen2] at h1
        show st.rows.length ≤ R2.1.rows.length
        omega
      · intro r hr
        rw [out2.rowsOld r (by rw [hlen2]; omega)]
        exact hrows2 r hr
      · intro r hr
        rcases List.mem_cons.mp hr with hr | hr
        · subst hr
          have h1 := out2.rowsLen
          rw [hlen2] at h1
          show rid < R2.1.rows.length
          omega
        · exact out2.ridsLt r hr
      · have h1 := out2.pdsLen
        rw [hplen2] at h1
        show st.pds.length ≤ R2.1.pds.length
        omega
      · intro q hq
        obtain ⟨h1, h2⟩ := out2.pdOld q (by rw [hplen2]; omega)
        rw [h1, h2, hpd2q q (by omega)]
        exact ⟨rfl, rfl⟩
      · intro q hq e he
        rcases out2.mapOld q (by rw [hplen2]; omega) e he with hA | hB
        · rw [hpd2q q (by omega)] at hA
          exact Or.inl hA
        · obtain ⟨hb1, hb2, hb3⟩ := hB
          rw [hlen2] at hb1
          rw [hpd2q q (by omega)] at hb2 hb3
          exact Or.inr ⟨by omega, hb2, hb3⟩
      · intro q hq
        have h2 := out2.emptyBack q hq
        by_cases hqp : q = p
        · subst hqp
          rw [hpd2p] at h2
          simp at h2
        · rw [hpd2q q hqp] at h2
          exact h2

theorem getD_take (l : List SPoint) (i n : Nat) (h : i < n) :
    (l.take n).getD i default = l.getD i default := by
  rw [List.getD_eq_getElem?_getD, List.getElem?_take, if_pos h, ← List.getD_eq_getElem?_getD]

theorem getD_drop (l : List SPoint) (n i : Nat) :
    (l.drop n).getD i default = l.getD (n + i) default := by
  rw [List.getD_eq_getElem?_getD, List.getElem?_drop, ← List.getD_eq_getElem?_getD]

theorem mem_getD {α : Type} [Inhabited α] (l : List α) (a : α) (h : a ∈ l) :
    ∃ k, k < l.length ∧ l.getD k default = a := by
  obtain ⟨i, hi, he⟩ := List.mem_iff_getElem.mp h
  exact ⟨i, hi, by rw [List.getD_eq_getElem _ _ hi, he]⟩

theorem lowerboundAux_spec (arr : List SPoint) (value : Int)
    (hmono : ∀ i j, i < j → j < arr.length →
      (arr.getD i default).time < (arr.getD j default).time) :
    ∀ (fuel start count : Nat), count ≤ fuel → start + count ≤ arr.length →
    (∀ j, j < start → (arr.getD j default).time < value) →
    (∀ j, start + count ≤ j → j < arr.length → ¬((arr.getD j default).time < value)) →
    lowerboundAux arr value fuel start count ≤ arr.length ∧
    (∀ j, j < lowerboundAux arr value fuel start count →
      (arr.getD j default).time < value) ∧
    (∀ j, lowerboundAux arr value fuel start count ≤ j → j < arr.length →
      ¬((arr.getD j default).time < value)) := by
  intro fuel
  induction fuel with
  | zero =>
    intro start count hcf hsc hlo hhi
    have hc0 : count = 0 := by omega
    subst hc0
    rw [lowerboundAux]
    exact ⟨by omega, hlo, fun j hj hjl => hhi j (by omega) hjl⟩
  | succ fuel ih =>
    intro start count hcf hsc hlo hhi
    rw [lowerboundAux]
    by_cases hc : 0 < count
    · rw [if_pos hc]
      simp only []
      by_cases hmid : (arr.getD (start + count / 2) default).time < value
      · rw [if_pos hmid]
        refine ih (start + count / 2 + 1) (count - count / 2 - 1) (by omega) (by omega) ?_ ?_
        · intro j hj
          by_cases hj2 : j < start + count / 2
          · by_cases hj3 : j < start
            · exact hlo j hj3
            · exact lt_trans (hmono j (start + count / 2) hj2 (by omega)) hmid
          · have hj4 : j = start + count / 2 := by omega
            rw [hj4]
            exact hmid
        · intro j hj hjl
          exact hhi j (by omega) hjl
      · rw [if_neg hmid]
        refine ih start (count / 2) (by omega) (by omega) hlo ?_
        intro j hj hjl
        by_cases hj2 : j = start + count / 2
        · rw [hj2]
          exact hmid
        · intro hlt
          refine hmid ?_
          exact lt_trans (hmono (start + count / 2) j (by omega) hjl) hlt
    · rw [if_neg hc]
      have hc0 : count = 0 := by omega
      exact ⟨by omega, hlo, fun j hj hjl => hhi j (by omega) hjl⟩

theorem lowerbound_spec (arr : List SPoint) (value : Int)
    (hmono : ∀ i j, i < j → j < arr.length →
      (arr.getD i default).time < (arr.getD j default).time) :
    lowerbound arr value ≤ arr.length ∧
    (∀ j, j < lowerbound arr value → (arr.getD j default).time < value) ∧
    (∀ j, lowerbound arr value ≤ j → j < arr.length →
      ¬((arr.getD j default).time < value)) := by
  refine lowerboundAux_spec arr value hmono arr.length 0 arr.length (Nat.le_refl _)
    (by omega) ?_ ?_
  · intro j hj
    omega
  · intro j hj hjl
    omega

theorem replaceTimeScalePoints_inv (tw : Option Int → Int → Nat) (st : DLState)
    (hMono : ∀ i j, i < j → j < st.sorted.length →
      (st.sorted.getD i default).time < (st.sorted.getD j default).time)
    (hSIdx : ∀ i, i < st.sorted.length →
      (pdAt st (st.sorted.getD i default).pd).index = i)
    (hSTime : ∀ i, i < st.sorted.length →
      (pdAt st (st.sorted.getD i default).pd).timePoint = (st.sorted.getD i default).time)
    (hSRows : ∀ i, i < st.sorted.length →
      ∀ e ∈ (pdAt st (st.sorted.getD i default).pd).mapping, (rowAt st e.2).index = i)
    (hSPd : ∀ i, i < st.sorted.length → (st.sorted.getD i default).pd < st.pds.length)
    (hK : ∀ e ∈ st.pointByTime, e.2 < st.pds.length ∧ (pdAt st e.2).timePoint = e.1)
    (hN : (st.pointByTime.map Prod.fst).Nodup)
    (hR : RowRangeState st) (hD : DisjState st)
    (hW : ∀ s2 ∈ st.rowsBySeries, ∀ rid ∈ s2.2,
      rid < st.rows.length ∧ (rowAt st rid).value.isSome)
    (hT : ∀ p, ∀ e ∈ (pdAt st p).mapping, (rowAt st e.2).time = (pdAt st p).timePoint)
    (hNeM : ∀ e ∈ st.pointByTime, (pdAt st e.2).mapping ≠ [])
    (hClean : ∀ i, i < st.sorted.length →
      (pdAt st (st.sorted.getD i default).pd).mapping = [] →
      ∀ e ∈ st.pointByTime, e.1 ≠ (st.sorted.getD i default).time) :
    DLInv (replaceTimeScalePoints tw st (collectTimeScalePoints st)).1 := by
  set pts := collectTimeScalePoints st with hpts
  obtain ⟨cLen, cMem, cAll, cLT, cNE⟩ := collectTimeScalePoints_spec st hK hN
  have hptsP : ∀ k, k < pts.length →
      ((pts.getD k default).time, (pts.getD k default).pd) ∈ st.pointByTime ∧
      (pts.getD k default).time = (pdAt st (pts.getD k default).pd).timePoint := by
    intro k hk
    have hm : pts.getD k default ∈ pts := by
      rw [List.getD_eq_getElem _ _ hk]
      exact List.getElem_mem _
    exact cMem _ hm
  have hptsRange : ∀ sp ∈ pts, sp.pd < st.pds.length := fun sp hsp => (hK _ (cMem sp hsp).1).1
  have cNEpos := (pairwise_getD_iff pts).mp cNE
  have cLTpos := (pairwise_getD_iff pts).mp cLT
  obtain ⟨s1, s2, s3, s4⟩ := syncPrefix_spec st.sorted st pts 0
  set r := syncPrefix st st.sorted pts 0 with hr
  set ml := matchedLen st.sorted pts with hml
  have sstate : r.1 = assignFromAux st (pts.take ml) 0 := syncPrefix_state st.sorted st pts 0
  set newPts := r.2.1 with hnp
  have hlenNP : newPts.length = pts.length := s2
  have posNP : ∀ j, j < pts.length →
      (newPts.getD j default).time = (pts.getD j default).time ∧
      (newPts.getD j default).pd = (pts.getD j default).pd := by
    intro j hj
    rw [show newPts.getD j default = (syncPrefix st st.sorted pts 0).2.1.getD j default from rfl,
      s4 j hj]
    by_cases hjm : j < matchedLen st.sorted pts
    · rw [if_pos hjm]
      exact ⟨rfl, rfl⟩
    · rw [if_neg hjm]
      exact ⟨rfl, rfl⟩
  have hmlle : ml ≤ pts.length := by
    have := matchedLen_le st.sorted pts
    omega
  have hred : replaceTimeScalePoints tw st pts =
      (if breakToIndex r.2.2 r.1.sorted.length r.2.1.length = -1 then (r.1, -1)
       else
        ({ assignFrom r.1 r.2.1 (breakToIndex r.2.2 r.1.sorted.length r.2.1.length).toNat with
            sorted := fillWeightsForPoints tw r.2.1
              (breakToIndex r.2.2 r.1.sorted.length r.2.1.length).toNat },
          breakToIndex r.2.2 r.1.sorted.length r.2.1.length)) := by
    rw [hr]
    rfl
  by_cases hm1 : breakToIndex r.2.2 r.1.sorted.length r.2.1.length = -1
  · -- nothing changed: the sorted array is left as it is
    have hnone : r.2.2 = none := by
      cases hbr : r.2.2 with
      | none => rfl
      | some b =>
        rw [hbr] at hm1
        rw [breakToIndex] at hm1
        omega
    have hlen1 : r.1.sorted.length = newPts.length := by
      by_contra hne
      rw [hnone, breakToIndex, if_pos (by exact hne)] at hm1
      omega
    have hfd : firstDiffIdx st.sorted pts = none := by
      rw [hnone] at s3
      exact Option.map_eq_none'.mp s3.symm
    have hslen : st.sorted.length = pts.length := by
      have h1 : r.1.sorted.length = st.sorted.length := by rw [s1]
      omega
    have hmlfull : ml = pts.length := by
      rw [hml, matchedLen, hfd]
      simp
      omega
    have htimes : ∀ j, j < st.sorted.length →
        (st.sorted.getD j default).time = (pts.getD j default).time := by
      intro j hj
      exact firstDiffIdx_none st.sorted pts hfd j (by omega)
    have htake : pts.take ml = pts := by
      rw [hmlfull, List.take_length]
    have hfin : (replaceTimeScalePoints tw st pts).1 = assignFromAux st pts 0 := by
      rw [hred, if_pos hm1]
      show r.1 = _
      rw [sstate, htake]
    rw [hfin]
    obtain ⟨f1, f2, f3, f4, f5, f6, f7, f8⟩ := assignFromAux_frames pts st 0
    obtain ⟨e1, e2, e3, e4, e5⟩ := assignFromAux_effect pts st 0 cNE hptsRange hD hR
    set σ1 := assignFromAux st pts 0 with hσ1
    have hkey : ∀ i k, i < st.sorted.length → k < pts.length →
        (pts.getD k default).pd = (st.sorted.getD i default).pd → i = k := by
      intro i k hi hk hpd
      have h1 : (pdAt st (st.sorted.getD i default).pd).timePoint =
          (st.sorted.getD i default).time := hSTime i hi
      have h2 : (pts.getD k default).time =
          (pdAt st (st.sorted.getD i default).pd).timePoint := by
        rw [(hptsP k hk).2, hpd]
      have h3 : (st.sorted.getD k default).time = (pts.getD k default).time :=
        htimes k (by omega)
      by_contra hne
      rcases Nat.lt_or_ge i k with hik | hik
      · have := hMono i k hik (by omega)
        omega
      · have hki : k < i := by omega
        have := hMono k i hki hi
        omega
    refine ⟨⟨?_, ?_, ?_, ?_, ?_, ?_, ?_, ?_, ?_, ?_, ?_, ?_, ?_⟩, ?_, ?_⟩
    · intro i j hij hj
      rw [f6] at hj ⊢
      exact hMono i j hij hj
    · intro i hi
      rw [f6] at hi ⊢
      by_cases hex : ∃ k, k < pts.length ∧
          (pts.getD k default).pd = (st.sorted.getD i default).pd
      · obtain ⟨k, hk, hkpd⟩ := hex
        have hik := hkey i k hi hk hkpd
        rw [← hkpd, (e3 k hk).1]
        simp only []
        omega
      · have h2 : ∀ sp ∈ pts, sp.pd ≠ (st.sorted.getD i default).pd := by
          intro sp hsp hc
          obtain ⟨k, hk, hke⟩ := mem_getD pts sp hsp
          exact hex ⟨k, hk, by rw [hke]; exact hc⟩
        rw [e4 _ h2]
        exact hSIdx i hi
    · intro i hi
      rw [f6] at hi ⊢
      rw [(f7 _).2]
      exact hSTime i hi
    · intro i hi e he
      rw [f6] at hi he
      rw [(f7 _).1] at he
      by_cases hex : ∃ k, k < pts.length ∧
          (pts.getD k default).pd = (st.sorted.getD i default).pd
      · obtain ⟨k, hk, hkpd⟩ := hex
        have hik := hkey i k hi hk hkpd
        rw [← hkpd] at he
        rw [show rowAt σ1 e.2 = rowAt (assignFromAux st pts 0) e.2 from rfl]
        rw [(e3 k hk).2 e he]
        simp only []
        omega
      · have h2 : ∀ sp ∈ pts, sp.pd ≠ (st.sorted.getD i default).pd := by
          intro sp hsp hc
          obtain ⟨k, hk, hke⟩ := mem_getD pts sp hsp
          exact hex ⟨k, hk, by rw [hke]; exact hc⟩
        have hrn : ∀ sp ∈ pts, ∀ e2 ∈ (pdAt st sp.pd).mapping, e2.2 ≠ e.2 := by
          intro sp hsp e2 he2
          exact hD sp.pd _ (h2 sp hsp) e2 he2 e he
        rw [show rowAt σ1 e.2 = rowAt (assignFromAux st pts 0) e.2 from rfl, e5 e.2 hrn]
        exact hSRows i hi e he
    · intro i hi
      rw [f6] at hi ⊢
      rw [f1]
      exact hSPd i hi
    · intro e he
      rw [f3] at he
      obtain ⟨h1, h2⟩ := hK e he
      rw [f1, (f7 _).2]
      exact ⟨h1, h2⟩
    · rw [f3]
      exact hN
    · intro q e he
      rw [(f7 _).1] at he
      rw [f2]
      exact hR q e he
    · intro a b hab ea hea eb heb
      rw [(f7 _).1] at hea heb
      exact hD a b hab ea hea eb heb
    · intro s2m hs2 rid hrid
      rw [f4] at hs2
      obtain ⟨h1, h2⟩ := hW s2m hs2 rid hrid
      rw [f2, (f8 _).2]
      exact ⟨h1, h2⟩
    · intro q e he
      rw [(f7 _).1] at he
      rw [(f8 _).1, (f7 _).2]
      exact hT q e he
    · intro e he
      rw [f3] at he
      rw [(f7 _).1]
      exact hNeM e he
    · intro i hi
      rw [f6] at hi ⊢
      rw [(f7 _).1]
      intro hemp
      have hc := hClean i hi hemp ((pts.getD i default).time, (pts.getD i default).pd)
        (hptsP i (by omega)).1
      exact hc (htimes i hi).symm
    · intro e he
      rw [f3] at he
      rw [f6]
      obtain ⟨sp, hsp, hpd, htm⟩ := cAll e he
      obtain ⟨k, hk, hke⟩ := mem_getD pts sp hsp
      refine ⟨k, by omega, ?_⟩
      rw [htimes k (by omega), hke, htm]
    · intro i hi
      rw [f6] at hi ⊢
      rw [f3]
      refine ⟨((pts.getD i default).time, (pts.getD i default).pd),
        (hptsP i (by omega)).1, ?_⟩
      exact (htimes i hi).symm
  · -- a change was found: the sorted array is rebuilt from the new points
    have hstart : (breakToIndex r.2.2 r.1.sorted.length r.2.1.length).toNat = ml := by
      cases hbr : r.2.2 with
      | some b =>
        rw [hbr] at s3
        obtain ⟨b0, hfd, hb0⟩ := Option.map_eq_some'.mp s3.symm
        rw [breakToIndex]
        rw [hml, matchedLen, hfd]
        simp
        omega
      | none =>
        rw [hbr] at s3 hm1
        have hfd : firstDiffIdx st.sorted pts = none := Option.map_eq_none'.mp s3.symm
        rw [breakToIndex] at hm1 ⊢
        by_cases hmn : r.1.sorted.length ≠ r.2.1.length
        · rw [if_pos hmn]
          rw [hml, matchedLen, hfd]
          have hsl : r.1.sorted.length = st.sorted.length := by rw [s1]
          have hnl : r.2.1.length = pts.length := s2
          simp
          omega
        · rw [if_neg hmn] at hm1
          exact absurd rfl hm1
    have hfin : (replaceTimeScalePoints tw st pts).1 =
        { assignFromAux r.1 (newPts.drop ml) ml with
            sorted := fillWeightsForPoints tw newPts ml } := by
      rw [hred, if_neg hm1]
      show ({ assignFrom r.1 r.2.1 _ with sorted := _ } : DLState) = _
      rw [hstart]
      rfl
    rw [hfin]
    have htakelen : (pts.take ml).length = ml := by
      rw [List.length_take]
      omega
    have pw1 : (pts.take ml).Pairwise (fun a b => a.pd ≠ b.pd) :=
      cNE.sublist (List.take_sublist ml pts)
    obtain ⟨f1, f2, f3, f4, f5, f6, f7, f8⟩ := assignFromAux_frames (pts.take ml) st 0
    obtain ⟨e1, e2, e3, e4, e5⟩ :=
      assignFromAux_effect (pts.take ml) st 0 pw1
        (fun sp hsp => hptsRange sp ((List.take_sublist ml pts).subset hsp)) hD hR
    rw [← sstate] at f1 f2 f3 f4 f5 f6 f7 f8 e1 e2 e3 e4 e5
    have pwNP : newPts.Pairwise (fun a b => a.pd ≠ b.pd) := by
      rw [pairwise_getD_iff]
      intro i j hij hj
      rw [(posNP i (by omega)).2, (posNP j (by omega)).2]
      exact cNEpos i j hij (by omega)
    have pw2 : (newPts.drop ml).Pairwise (fun a b => a.pd ≠ b.pd) :=
      pwNP.sublist (List.drop_sublist ml newPts)
    have disj1 : DisjState r.1 := by
      intro a b hab ea hea eb heb
      rw [(f7 _).1] at hea heb
      exact hD a b hab ea hea eb heb
    have rRange1 : RowRangeState r.1 := by
      intro q e he
      rw [(f7 _).1] at he
      rw [f2]
      exact hR q e he
    have range2 : ∀ sp ∈ newPts.drop ml, sp.pd < r.1.pds.length := by
      intro sp hsp
      obtain ⟨k, hk, hke⟩ := mem_getD newPts sp ((List.drop_sublist ml newPts).subset hsp)
      rw [f1, ← hke, (posNP k (by omega)).2]
      exact hptsRange _ (by
        rw [List.getD_eq_getElem _ _ (by omega : k < pts.length)]
        exact List.getElem_mem _)
    obtain ⟨g1, g2, g3, g4, g5, g6, g7, g8⟩ := assignFromAux_frames (newPts.drop ml) r.1 ml
    obtain ⟨d1, d2, d3, d4, d5⟩ :=
      assignFromAux_effect (newPts.drop ml) r.1 ml pw2 range2 disj1 rRange1
    set st2 := assignFromAux r.1 (newPts.drop ml) ml with hst2
    set newPts2 := fillWeightsForPoints tw newPts ml with hnp2
    have hmapF : ∀ q, (pdAt st2 q).mapping = (pdAt st q).mapping ∧
        (pdAt st2 q).timePoint = (pdAt st q).timePoint := by
      intro q
      exact ⟨(g7 q).1.trans (f7 q).1, (g7 q).2.trans (f7 q).2⟩
    have hrowF : ∀ rr, (rowAt st2 rr).time = (rowAt st rr).time ∧
        (rowAt st2 rr).value = (rowAt st rr).value := by
      intro rr
      exact ⟨(g8 rr).1.trans (f8 rr).1, (g8 rr).2.trans (f8 rr).2⟩
    have hmapEq : st2.pointByTime = st.pointByTime := g3.trans f3
    have hrbsEq : st2.rowsBySeries = st.rowsBySeries := g4.trans f4
    have hpdsLen : st2.pds.length = st.pds.length := g1.trans f1
    have hrowsLen : st2.rows.length = st.rows.length := g2.trans f2
    have hsortlen : newPts2.length = pts.length := by
      rw [hnp2, fillWeightsForPoints_length]
      exact hlenNP
    have posF : ∀ k, k < pts.length →
        (newPts2.getD k default).time = (pts.getD k default).time ∧
        (newPts2.getD k default).pd = (pts.getD k default).pd := by
      intro k hk
      obtain ⟨h1, h2⟩ := fillWeightsForPoints_pd_time tw newPts ml k (by omega)
      rw [hnp2]
      rw [h1, h2, (posNP k hk).1, (posNP k hk).2]
      exact ⟨rfl, rfl⟩
    have hidx : ∀ k, k < pts.length →
        (pdAt st2 (pts.getD k default).pd).index = k := by
      intro k hk
      by_cases hkm : k < ml
      · have hne2 : ∀ sp ∈ newPts.drop ml, sp.pd ≠ (pts.getD k default).pd := by
          intro sp hsp
          obtain ⟨m, hm, hme⟩ := mem_getD (newPts.drop ml) sp hsp
          rw [← hme]
          rw [getD_drop] at hme ⊢
          rw [(posNP (ml + m) (by rw [List.length_drop] at hm; omega)).2]
          intro hc
          have := cNEpos k (ml + m) (by omega) (by rw [List.length_drop] at hm; omega)
          exact this hc.symm
        rw [d4 _ hne2]
        have := (e3 k (by omega)).1
        rw [getD_take pts k ml hkm] at this
        rw [this]
        simp only []
        omega
      · have hkd : (newPts.drop ml).getD (k - ml) default = newPts.getD k default := by
          rw [getD_drop]
          congr 1
          omega
        have hklt : k - ml < (newPts.drop ml).length := by
          rw [List.length_drop]
          omega
        have h1 := (d3 (k - ml) hklt).1
        rw [hkd, (posNP k hk).2] at h1
        rw [h1]
        have hne1 : ∀ sp ∈ pts.take ml, sp.pd ≠ (pts.getD k default).pd := by
          intro sp hsp
          obtain ⟨m, hm, hme⟩ := mem_getD (pts.take ml) sp hsp
          rw [htakelen] at hm
          rw [← hme, getD_take pts m ml hm]
          intro hc
          exact cNEpos m k (by omega) hk hc
        rw [e4 _ hne1]
        simp only []
        omega
    have hrowsIdx : ∀ k, k < pts.length →
        ∀ e ∈ (pdAt st (pts.getD k default).pd).mapping, (rowAt st2 e.2).index = k := by
      intro k hk e he
      by_cases hkm : k < ml
      · have htouch := (e3 k (by omega)).2
        rw [getD_take pts k ml hkm] at htouch
        have h1 := htouch e he
        have hne2 : ∀ sp ∈ newPts.drop ml, ∀ e2 ∈ (pdAt r.1 sp.pd).mapping, e2.2 ≠ e.2 := by
          intro sp hsp e2 he2
          rw [(f7 _).1] at he2
          obtain ⟨m, hm, hme⟩ := mem_getD (newPts.drop ml) sp hsp
          rw [getD_drop] at hme
          have hspd : sp.pd ≠ (pts.getD k default).pd := by
            rw [← hme, (posNP (ml + m) (by rw [List.length_drop] at hm; omega)).2]
            intro hc
            exact cNEpos k (ml + m) (by omega)
              (by rw [List.length_drop] at hm; omega) hc.symm
          exact hD sp.pd _ hspd e2 he2 e he
        rw [show rowAt st2 e.2 = rowAt (assignFromAux r.1 (newPts.drop ml) ml) e.2 from rfl,
          d5 e.2 hne2, h1]
        simp only []
        omega
      · have hkd : (newPts.drop ml).getD (k - ml) default = newPts.getD k default := by
          rw [getD_drop]
          congr 1
          omega
        have hklt : k - ml < (newPts.drop ml).length := by
          rw [List.length_drop]
          omega
        have h1 := (d3 (k - ml) hklt).2
        rw [hkd, (posNP k hk).2] at h1
        have he1 : e ∈ (pdAt r.1 (pts.getD k default).pd).mapping := by
          rw [(f7 _).1]
          exact he
        have h2 := h1 e he1
        rw [show rowAt st2 e.2 = rowAt (assignFromAux r.1 (newPts.drop ml) ml) e.2 from rfl,
          h2]
        simp only []
        omega
    set stF : DLState := { st2 with sorted := newPts2 } with hstF
    have hFsorted : stF.sorted = newPts2 := rfl
    have hFpd : ∀ q, pdAt stF q = pdAt st2 q := fun _ => rfl
    have hFrow : ∀ rr, rowAt stF rr = rowAt st2 rr := fun _ => rfl
    have hFmap : stF.pointByTime = st2.pointByTime := rfl
    have hFrbs : stF.rowsBySeries = st2.rowsBySeries := rfl
    have hFrowsLen : stF.rows.length = st2.rows.length := rfl
    have hFpdsLen : stF.pds.length = st2.pds.length := rfl
    refine ⟨⟨?_, ?_, ?_, ?_, ?_, ?_, ?_, ?_, ?_, ?_, ?_, ?_, ?_⟩, ?_, ?_⟩
    · intro i j hij hj
      rw [hFsorted] at hj ⊢
      rw [hsortlen] at hj
      rw [(posF i (by omega)).1, (posF j (by omega)).1]
      exact cLTpos i j hij hj
    · intro i hi
      rw [hFsorted] at hi ⊢
      rw [hsortlen] at hi
      rw [(posF i hi).2, hFpd]
      exact hidx i hi
    · intro i hi
      rw [hFsorted] at hi ⊢
      rw [hsortlen] at hi
      rw [(posF i hi).2, hFpd, (hmapF _).2, (posF i hi).1]
      exact ((hptsP i hi).2).symm
    · intro i hi e he
      rw [hFsorted] at hi he
      rw [hsortlen] at hi
      rw [(posF i hi).2, hFpd, (hmapF _).1] at he
      rw [hFrow]
      exact hrowsIdx i hi e he
    · intro i hi
      rw [hFsorted] at hi ⊢
      rw [hsortlen] at hi
      rw [(posF i hi).2, hFpdsLen, hpdsLen]
      refine hptsRange _ ?_
      rw [List.getD_eq_getElem _ _ hi]
      exact List.getElem_mem _
    · intro e he
      rw [hFmap, hmapEq] at he
      obtain ⟨h1, h2⟩ := hK e he
      refine ⟨?_, ?_⟩
      · rw [hFpdsLen, hpdsLen]
        exact h1
      · rw [hFpd, (hmapF _).2]
        exact h2
    · rw [hFmap, hmapEq]
      exact hN
    · intro q e he
      rw [hFpd, (hmapF _).1] at he
      rw [hFrowsLen, hrowsLen]
      exact hR q e he
    · intro a b hab ea hea eb heb
      rw [hFpd, (hmapF _).1] at hea heb
      exact hD a b hab ea hea eb heb
    · intro s2m hs2 rid hrid
      rw [hFrbs, hrbsEq] at hs2
      obtain ⟨h1, h2⟩ := hW s2m hs2 rid hrid
      refine ⟨?_, ?_⟩
      · rw [hFrowsLen, hrowsLen]
        exact h1
      · rw [hFrow, (hrowF _).2]
        exact h2
    · intro q e he
      rw [hFpd, (hmapF _).1] at he
      rw [hFrow, (hrowF _).1, hFpd, (hmapF _).2]
      exact hT q e he
    · intro e he
      rw [hFmap, hmapEq] at he
      rw [hFpd, (hmapF _).1]
      exact hNeM e he
    · intro i hi
      rw [hFsorted] at hi ⊢
      rw [hsortlen] at hi
      rw [(posF i hi).2, hFpd, (hmapF _).1]
      exact hNeM _ (hptsP i hi).1
    · intro e he
      rw [hFmap, hmapEq] at he
      obtain ⟨sp, hsp, hpd, htm⟩ := cAll e he
      obtain ⟨k, hk, hke⟩ := mem_getD pts sp hsp
      refine ⟨k, ?_, ?_⟩
      · rw [hFsorted, hsortlen]
        exact hk
      · rw [hFsorted]
        show (newPts2.getD k default).time = e.1
        rw [(posF k hk).1, hke, htm]
    · intro i hi
      rw [hFsorted] at hi ⊢
      rw [hsortlen] at hi
      refine ⟨((pts.getD i default).time, (pts.getD i default).pd), ?_, ?_⟩
      · rw [hFmap, hmapEq]
        exact (hptsP i hi).1
      · show (pts.getD i default).time = (newPts2.getD i default).time
        rw [(posF i hi).1]

theorem setRowsToSeries_fields (st : DLState) (series : Nat) (l : List Nat) :
    (setRowsToSeries st series l).rows = st.rows ∧
    (setRowsToSeries st series l).pds = st.pds ∧
    (setRowsToSeries st series l).pointByTime = st.pointByTime ∧
    (setRowsToSeries st series l).sorted = st.sorted := by
  rw [setRowsToSeries]
  by_cases h : l.length ≠ 0
  · rw [if_pos h]
    exact ⟨rfl, rfl, rfl, rfl⟩
  · rw [if_neg h]
    exact ⟨rfl, rfl, rfl, rfl⟩

theorem setRowsToSeries_rbs_mem (st : DLState) (series : Nat) (l : List Nat) :
    ∀ e ∈ (setRowsToSeries st series l).rowsBySeries,
      e ∈ st.rowsBySeries ∨
      (e.1 = series ∧ e.2 = l.filter (fun rid => isSeriesPlotRow (getRowA st.rows rid))) := by
  intro e he
  rw [setRowsToSeries] at he
  by_cases h : l.length ≠ 0
  · rw [if_pos h] at he
    rcases mapSet_mem _ _ _ e he with h2 | h2
    · right
      rw [h2]
      exact ⟨rfl, rfl⟩
    · exact Or.inl h2
  · rw [if_neg h] at he
    exact Or.inl (mapDelete_sub _ _ e he)

theorem setSeriesDataMain_inv (tw : Option Int → Int → Nat) (σ st1 : DLState) (series : Nat)
    (nc aff : Bool) (data : List DataItem)
    (hInv : DLInv σ)
    (hs : st1.sorted = σ.sorted)
    (hrbs : st1.rowsBySeries = σ.rowsBySeries)
    (hrows : st1.rows = σ.rows)
    (hpdlen : st1.pds.length = σ.pds.length)
    (hIdx1 : ∀ q, q < σ.pds.length → (pdAt st1 q).index = (pdAt σ q).index ∧
      (pdAt st1 q).timePoint = (pdAt σ q).timePoint)
    (hMapSub1 : ∀ q, ∀ e ∈ (pdAt st1 q).mapping, e ∈ (pdAt σ q).mapping)
    (hEmpty1 : ∀ q, (pdAt st1 q).mapping = [] → (pdAt σ q).mapping = [] ∨
      ∃ j, j < σ.sorted.length ∧ (σ.sorted.getD j default).pd = q)
    (hMap1 : ∀ e ∈ st1.pointByTime, e ∈ σ.pointByTime)
    (hK1 : ∀ e ∈ st1.pointByTime, e.2 < st1.pds.length ∧ (pdAt st1 e.2).timePoint = e.1)
    (hN1 : (st1.pointByTime.map Prod.fst).Nodup)
    (hR1 : RowRangeState st1) (hD1 : DisjState st1)
    (hT1 : ∀ p, ∀ e ∈ (pdAt st1 p).mapping, (rowAt st1 e.2).time = (pdAt st1 p).timePoint)
    (hNC : nc = false → σ.pointByTime = [] ∨
      ∀ q, (pdAt st1 q).mapping = [] → (pdAt σ q).mapping = [])
    (hAffF : aff = false → ∀ q, (pdAt st1 q).mapping = [] → (pdAt σ q).mapping = [])
    (hMapEq : aff = false → st1.pointByTime = σ.pointByTime) :
    DLInv (setSeriesDataMain tw st1 series nc aff data).1 := by
  have hRowEq1 : ∀ r, rowAt st1 r = rowAt σ r := by
    intro r
    show st1.rows.getD r default = σ.rows.getD r default
    rw [hrows]
  have hRowLen1 : st1.rows.length = σ.rows.length := by rw [hrows]
  obtain ⟨oSorted, oRbs, oLt, oMapExt, oAffF, oKeys, oNodup, oNewNe, oRowsLen, oRowsOld,
    oRids, oPdsLen, oPdOld, oMapOld, oEmptyBack, oRange, oDisj, oTime⟩ :=
    ingestData_main series data st1 aff hK1 hN1 hR1 hD1 hT1
  set ing := ingestData st1 series aff data with hing
  set st2 := ing.1 with hst2def
  set st3 : DLState := if nc then cleanupPointsData st2 st2.sorted else st2 with hst3
  set st4 := setRowsToSeries st3 series ing.2.2 with hst4
  have hred : setSeriesDataMain tw st1 series nc aff data =
      (if ing.2.1 then replaceTimeScalePoints tw st4 (collectTimeScalePoints st4)
       else (st4, -1)) := rfl
  have sorted2 : st2.sorted = σ.sorted := oSorted.trans hs
  have hgd2 : ∀ i, st2.sorted.getD i default = σ.sorted.getD i default := by
    intro i
    rw [sorted2]
  have hlen2s : st2.sorted.length = σ.sorted.length := by rw [sorted2]
  have h3f : st3.pds = st2.pds ∧ st3.rows = st2.rows ∧ st3.sorted = st2.sorted ∧
      st3.rowsBySeries = st2.rowsBySeries := by
    rw [hst3]
    by_cases hnc : nc = true
    · rw [if_pos hnc]
      obtain ⟨a, b, c, d, e⟩ := cleanupPointsData_fields st2.sorted st2
      exact ⟨b, a, e, c⟩
    · rw [if_neg hnc]
      exact ⟨rfl, rfl, rfl, rfl⟩
  have hpd3 : ∀ q, pdAt st3 q = pdAt st2 q := by
    intro q
    show st3.pds.getD q default = st2.pds.getD q default
    rw [h3f.1]
  have hrow3 : ∀ r, rowAt st3 r = rowAt st2 r := by
    intro r
    show st3.rows.getD r default = st2.rows.getD r default
    rw [h3f.2.1]
  have H2sub : ∀ e ∈ st3.pointByTime, e ∈ st2.pointByTime := by
    intro e he
    rw [hst3] at he
    by_cases hnc : nc = true
    · rw [if_pos hnc] at he
      exact (((cleanupPointsData_mem st2.sorted st2 oNodup).1 e).mp he).1
    · rw [if_neg hnc] at he
      exact he
  have H3nodup : (st3.pointByTime.map Prod.fst).Nodup := by
    rw [hst3]
    by_cases hnc : nc = true
    · rw [if_pos hnc]
      exact (cleanupPointsData_mem st2.sorted st2 oNodup).2
    · rw [if_neg hnc]
      exact oNodup
  have H4rev : ∀ e ∈ st2.pointByTime,
      (∀ i, i < st2.sorted.length → (st2.sorted.getD i default).time = e.1 →
        (pdAt st2 (st2.sorted.getD i default).pd).mapping ≠ []) →
      e ∈ st3.pointByTime := by
    intro e he hcond
    rw [hst3]
    by_cases hnc : nc = true
    · rw [if_pos hnc]
      refine ((cleanupPointsData_mem st2.sorted st2 oNodup).1 e).mpr ⟨he, ?_⟩
      rintro ⟨sp, hsp, ht, hm⟩
      obtain ⟨i, hi, hie⟩ := mem_getD st2.sorted sp hsp
      exact hcond i hi (by rw [hie]; exact ht) (by rw [hie]; exact hm)
    · rw [if_neg hnc]
      exact he
  have H5kill : ∀ e ∈ st3.pointByTime, ∀ i, i < st2.sorted.length →
      (st2.sorted.getD i default).time = e.1 →
      (pdAt st2 (st2.sorted.getD i default).pd).mapping ≠ [] := by
    intro e he i hi ht
    rw [hst3] at he
    by_cases hnc : nc = true
    · rw [if_pos hnc] at he
      have h2 := (((cleanupPointsData_mem st2.sorted st2 oNodup).1 e).mp he).2
      intro hemp
      refine h2 ⟨st2.sorted.getD i default, ?_, ht, hemp⟩
      rw [List.getD_eq_getElem _ _ hi]
      exact List.getElem_mem _
    · have hncf : nc = false := by revert hnc; cases nc <;> simp
      rcases hNC hncf with hmape | hpdemp
      · have hi2 : i < σ.sorted.length := by omega
        obtain ⟨e2, he2, _⟩ := hInv.sSub i hi2
        rw [hmape] at he2
        cases he2
      · intro hemp
        have h1 := oEmptyBack _ hemp
        have h2 := hpdemp _ h1
        refine hInv.pipe.neSorted i (by omega) ?_
        rw [hgd2] at h2
        exact h2
  have h4f := setRowsToSeries_fields st3 series ing.2.2
  have hpd4 : ∀ q, pdAt st4 q = pdAt st2 q := by
    intro q
    have h1 : pdAt st4 q = pdAt st3 q := by
      show st4.pds.getD q default = st3.pds.getD q default
      rw [hst4, (setRowsToSeries_fields st3 series ing.2.2).2.1]
    rw [h1, hpd3]
  have hrow4 : ∀ r, rowAt st4 r = rowAt st2 r := by
    intro r
    have h1 : rowAt st4 r = rowAt st3 r := by
      show st4.rows.getD r default = st3.rows.getD r default
      rw [hst4, (setRowsToSeries_fields st3 series ing.2.2).1]
    rw [h1, hrow3]
  have hmap4 : st4.pointByTime = st3.pointByTime := by
    rw [hst4]
    exact (setRowsToSeries_fields st3 series ing.2.2).2.2.1
  have hsort4 : st4.sorted = σ.sorted := by
    rw [hst4, (setRowsToSeries_fields st3 series ing.2.2).2.2.2, h3f.2.2.1, sorted2]
  have hgd4 : ∀ i, st4.sorted.getD i default = σ.sorted.getD i default := by
    intro i
    rw [hsort4]
  have hlen4s : st4.sorted.length = σ.sorted.length := by rw [hsort4]
  have hrowlen4 : st4.rows.length = st2.rows.length := by
    rw [hst4, (setRowsToSeries_fields st3 series ing.2.2).1, h3f.2.1]
  have hpdlen4 : st4.pds.length = st2.pds.length := by
    rw [hst4, (setRowsToSeries_fields st3 series ing.2.2).2.1, h3f.1]
  have hσpd : ∀ i, i < σ.sorted.length → (σ.sorted.getD i default).pd < st1.pds.length := by
    intro i hi
    rw [hpdlen]
    exact hInv.pipe.sPdRange i hi
  have K_mono : ∀ i j, i < j → j < st4.sorted.length →
      (st4.sorted.getD i default).time < (st4.sorted.getD j default).time := by
    intro i j hij hj
    rw [hgd4, hgd4]
    rw [hlen4s] at hj
    exact hInv.pipe.mono i j hij hj
  have K_idx : ∀ i, i < st4.sorted.length →
      (pdAt st4 (st4.sorted.getD i default).pd).index = i := by
    intro i hi
    rw [hlen4s] at hi
    rw [hgd4, hpd4]
    have h1 := (oPdOld _ (hσpd i hi)).1
    rw [h1, (hIdx1 _ (hInv.pipe.sPdRange i hi)).1]
    exact hInv.pipe.sIndex i hi
  have K_time : ∀ i, i < st4.sorted.length →
      (pdAt st4 (st4.sorted.getD i default).pd).timePoint = (st4.sorted.getD i default).time := by
    intro i hi
    rw [hlen4s] at hi
    rw [hgd4, hpd4]
    have h1 := (oPdOld _ (hσpd i hi)).2
    rw [h1, (hIdx1 _ (hInv.pipe.sPdRange i hi)).2]
    exact hInv.pipe.sTime i hi
  have K_rows : ∀ i, i < st4.sorted.length →
      ∀ e ∈ (pdAt st4 (st4.sorted.getD i default).pd).mapping, (rowAt st4 e.2).index = i := by
    intro i hi e he
    rw [hlen4s] at hi
    rw [hgd4, hpd4] at he
    rcases oMapOld _ (hσpd i hi) e he with hA | hB
    · have heσ : e ∈ (pdAt σ (σ.sorted.getD i default).pd).mapping :=
        hMapSub1 _ e hA
      have hlt : e.2 < st1.rows.length := hR1 _ e hA
      rw [hrow4, oRowsOld e.2 hlt, hRowEq1]
      exact hInv.pipe.sRows i hi e heσ
    · obtain ⟨hb1, hb2, hb3⟩ := hB
      rw [hrow4]
      rw [hb2, (hIdx1 _ (hInv.pipe.sPdRange i hi)).1]
      exact hInv.pipe.sIndex i hi
  have K_pd : ∀ i, i < st4.sorted.length → (st4.sorted.getD i default).pd < st4.pds.length := by
    intro i hi
    rw [hlen4s] at hi
    rw [hgd4, hpdlen4]
    have h1 := hσpd i hi
    have h2 := oPdsLen
    omega
  have K_K : ∀ e ∈ st4.pointByTime, e.2 < st4.pds.length ∧
      (pdAt st4 e.2).timePoint = e.1 := by
    intro e he
    rw [hmap4] at he
    obtain ⟨h1, h2⟩ := oKeys e (H2sub e he)
    rw [hpdlen4, hpd4]
    exact ⟨h1, h2⟩
  have K_N : (st4.pointByTime.map Prod.fst).Nodup := by
    rw [hmap4]
    exact H3nodup
  have K_R : RowRangeState st4 := by
    intro q e he
    rw [hpd4] at he
    rw [hrowlen4]
    exact oRange q e he
  have K_D : DisjState st4 := by
    intro a b hab ea hea eb heb
    rw [hpd4] at hea heb
    exact oDisj a b hab ea hea eb heb
  have K_W : ∀ s2 ∈ st4.rowsBySeries, ∀ rid ∈ s2.2,
      rid < st4.rows.length ∧ (rowAt st4 rid).value.isSome := by
    intro s2 hs2 rid hrid
    rw [hst4] at hs2
    rcases setRowsToSeries_rbs_mem st3 series ing.2.2 s2 hs2 with h2 | h2
    · rw [h3f.2.2.2, oRbs, hrbs] at h2
      obtain ⟨h3, h4⟩ := hInv.pipe.wRows s2 h2 rid hrid
      have hlt1 : rid < st1.rows.length := by omega
      have h5 : rowAt st4 rid = rowAt σ rid := by
        rw [hrow4, oRowsOld rid hlt1, hRowEq1]
      refine ⟨?_, ?_⟩
      · rw [hrowlen4]
        have := oRowsLen
        omega
      · rw [h5]
        exact h4
    · obtain ⟨hse, hlst⟩ := h2
      rw [hlst] at hrid
      obtain ⟨hmem, hpred⟩ := List.mem_filter.mp hrid
      refine ⟨?_, ?_⟩
      · rw [hrowlen4]
        exact oRids rid hmem
      · have h6 : getRowA st3.rows rid = rowAt st4 rid := by
          show st3.rows.getD rid default = st4.rows.getD rid default
          rw [hst4, (setRowsToSeries_fields st3 series ing.2.2).1]
        rw [← h6]
        exact hpred
  have K_T : ∀ p, ∀ e ∈ (pdAt st4 p).mapping, (rowAt st4 e.2).time = (pdAt st4 p).timePoint := by
    intro p e he
    rw [hpd4] at he ⊢
    rw [hrow4]
    exact oTime p e he
  have K_NeM : ∀ e ∈ st4.pointByTime, (pdAt st4 e.2).mapping ≠ [] := by
    intro e he
    rw [hpd4]
    rw [hmap4] at he
    intro hemp
    by_cases he1 : e ∈ st1.pointByTime
    · have hσe : e ∈ σ.pointByTime := hMap1 e he1
      have hempty1 : (pdAt st1 e.2).mapping = [] := oEmptyBack e.2 hemp
      rcases hEmpty1 e.2 hempty1 with hσemp | ⟨j, hj, hjpd⟩
      · exact hInv.pipe.neMap e hσe hσemp
      · have htj : (σ.sorted.getD j default).time = e.1 := by
          have h1 := hInv.pipe.sTime j hj
          have h2 := (hInv.pipe.mKeys e hσe).2
          rw [hjpd] at h1
          rw [← h1, h2]
        have h3 := H5kill e he j (by omega) (by rw [hgd2]; exact htj)
        rw [hgd2, hjpd] at h3
        exact h3 hemp
    · exact oNewNe e (H2sub e he) he1 hemp
  have K_Clean : ∀ i, i < st4.sorted.length →
      (pdAt st4 (st4.sorted.getD i default).pd).mapping = [] →
      ∀ e ∈ st4.pointByTime, e.1 ≠ (st4.sorted.getD i default).time := by
    intro i hi hemp e he heq
    rw [hlen4s] at hi
    rw [hgd4, hpd4] at hemp
    rw [hmap4] at he
    have h3 := H5kill e he i (by omega) ?_
    · rw [hgd2] at h3
      exact h3 hemp
    · rw [hgd2]
      rw [hgd4] at heq
      exact heq.symm
  rw [hred]
  by_cases haff2 : ing.2.1 = true
  · rw [if_pos haff2]
    exact replaceTimeScalePoints_inv tw st4 K_mono K_idx K_time K_rows K_pd K_K K_N K_R
      K_D K_W K_T K_NeM K_Clean
  · rw [if_neg haff2]
    have haf : ing.2.1 = false := by
      revert haff2
      cases ing.2.1 with
      | true => intro h; exact absurd rfl h
      | false => intro _; rfl
    obtain ⟨hm2eq, haffin⟩ := oAffF haf
    have hNoEmpty : ∀ i, i < st2.sorted.length →
        (pdAt st2 (st2.sorted.getD i default).pd).mapping ≠ [] := by
      intro i hi hemp
      have h1 := oEmptyBack _ hemp
      have h2 := hAffF haffin _ h1
      refine hInv.pipe.neSorted i (by omega) ?_
      rw [hgd2] at h2
      exact h2
    show DLInv st4
    refine ⟨⟨K_mono, K_idx, K_time, K_rows, K_pd, K_K, K_N, K_R, K_D, K_W, K_T, K_NeM, ?_⟩,
      ?_, ?_⟩
    · intro i hi
      rw [hlen4s] at hi
      rw [hgd4, hpd4]
      have h2 := hNoEmpty i (by omega)
      rw [hgd2] at h2
      exact h2
    · intro e he
      rw [hmap4] at he
      have h2 : e ∈ st2.pointByTime := H2sub e he
      rw [hm2eq, hMapEq haffin] at h2
      obtain ⟨i, hi, ht⟩ := hInv.mSub e h2
      refine ⟨i, by omega, ?_⟩
      rw [hgd4]
      exact ht
    · intro i hi
      rw [hlen4s] at hi
      obtain ⟨e, heσ, hte⟩ := hInv.sSub i hi
      have he2 : e ∈ st2.pointByTime := by
        rw [hm2eq, hMapEq haffin]
        exact heσ
      have he3 : e ∈ st3.pointByTime := H4rev e he2 (fun j hj _ => hNoEmpty j hj)
      refine ⟨e, by rw [hmap4]; exact he3, ?_⟩
      rw [hgd4]
      exact hte

theorem setSeriesData_inv (tw : Option Int → Int → Nat) (σ : DLState) (series : Nat)
    (data : List DataItem) (hInv : DLInv σ) : DLInv (setSeriesData tw σ series data).1 := by
  have hred : (setSeriesData tw σ series data).1 =
      (setSeriesDataMain tw (setSeriesDataUnbind σ series).1 series
        (setSeriesDataUnbind σ series).2.1 (setSeriesDataUnbind σ series).2.2 data).1 := rfl
  rw [hred]
  cases hg : mapGet σ.rowsBySeries series with
  | none =>
    have hu : setSeriesDataUnbind σ series =
        (σ, decide (σ.pointByTime.length ≠ 0), false) := by
      unfold setSeriesDataUnbind
      rw [hg]
    rw [hu]
    refine setSeriesDataMain_inv tw σ σ series _ false data hInv rfl rfl rfl rfl
      (fun q _ => ⟨rfl, rfl⟩) (fun q e he => he) (fun q h => Or.inl h) (fun e he => he)
      hInv.pipe.mKeys hInv.pipe.mNodup hInv.pipe.rRange hInv.pipe.disj hInv.pipe.mTime
      ?_ (fun _ q h => h) (fun _ => rfl)
    intro hnc
    left
    have h2 := of_decide_eq_false hnc
    have h3 : σ.pointByTime.length = 0 := by omega
    exact List.length_eq_zero.mp h3
  | some l =>
    by_cases h1 : σ.rowsBySeries.length = 1
    · have hu : setSeriesDataUnbind σ series = ({σ with pointByTime := []}, false, true) := by
        unfold setSeriesDataUnbind
        simp only [hg]
        rw [if_pos h1]
      rw [hu]
      refine setSeriesDataMain_inv tw σ { σ with pointByTime := [] } series false true data
        hInv rfl rfl rfl rfl (fun q _ => ⟨rfl, rfl⟩) (fun q e he => he) (fun q h => Or.inl h)
        ?_ ?_ List.nodup_nil hInv.pipe.rRange hInv.pipe.disj hInv.pipe.mTime
        (fun _ => Or.inr (fun q h => h)) (fun h => absurd h (by decide)) ?_
      · intro e he
        cases he
      · intro e he
        cases he
      · intro h
        exact absurd h (by decide)
    · have hu : setSeriesDataUnbind σ series =
          ((unbindSeries σ series σ.sorted).1, decide (σ.pointByTime.length ≠ 0),
            (unbindSeries σ series σ.sorted).2) := by
        unfold setSeriesDataUnbind
        simp only [hg]
        rw [if_neg h1]
      rw [hu]
      have hpw : σ.sorted.Pairwise (fun a b => a.pd ≠ b.pd) := by
        rw [pairwise_getD_iff]
        intro i j hij hj hc
        have ha := hInv.pipe.sIndex i (by omega)
        have hb := hInv.pipe.sIndex j hj
        rw [hc] at ha
        omega
      obtain ⟨u1, u2, u3, u4, u5, u6, u7, u8, u9⟩ := unbindSeries_effect series σ.sorted σ hpw
      set st1 := (unbindSeries σ series σ.sorted).1 with hst1
      have hcases : ∀ q, pdAt st1 q = pdAt σ q ∨
          ((pdAt st1 q).index = (pdAt σ q).index ∧
            (pdAt st1 q).timePoint = (pdAt σ q).timePoint ∧
            (pdAt st1 q).mapping = (mapDelete (pdAt σ q).mapping series).1 ∧
            ∃ j, j < σ.sorted.length ∧ (σ.sorted.getD j default).pd = q) := by
        intro q
        by_cases hex : ∃ sp ∈ σ.sorted, sp.pd = q
        · obtain ⟨sp, hsp, hspq⟩ := hex
          right
          have h2 := u7 sp hsp
          rw [hspq] at h2
          obtain ⟨j, hj, hje⟩ := mem_getD σ.sorted sp hsp
          exact ⟨by rw [h2], by rw [h2], by rw [h2], j, hj, by rw [hje]; exact hspq⟩
        · left
          exact u8 q (fun sp hsp hc => hex ⟨sp, hsp, hc⟩)
      have hsub1 : ∀ q, ∀ e ∈ (pdAt st1 q).mapping, e ∈ (pdAt σ q).mapping := by
        intro q e he
        rcases hcases q with h | ⟨_, _, h3, _⟩
        · rw [h] at he
          exact he
        · rw [h3] at he
          exact mapDelete_sub _ _ e he
      refine setSeriesDataMain_inv tw σ st1 series _ _ data hInv u5 u3 u1 u6
        ?_ hsub1 ?_ ?_ ?_ ?_ ?_ ?_ ?_ ?_ ?_ ?_
      · intro q hq
        rcases hcases q with h | ⟨ha, hb, _, _⟩
        · rw [h]
          exact ⟨rfl, rfl⟩
        · exact ⟨ha, hb⟩
      · intro q hq
        rcases hcases q with h | ⟨_, _, _, j, hj, hjq⟩
        · rw [h] at hq
          exact Or.inl hq
        · exact Or.inr ⟨j, hj, hjq⟩
      · intro e he
        rw [u2] at he
        exact he
      · intro e he
        rw [u2] at he
        obtain ⟨ha, hb⟩ := hInv.pipe.mKeys e he
        refine ⟨by rw [u6]; exact ha, ?_⟩
        rcases hcases e.2 with h | ⟨_, h2, _, _⟩
        · rw [h]
          exact hb
        · rw [h2]
          exact hb
      · rw [u2]
        exact hInv.pipe.mNodup
      · intro q e he
        have h2 : st1.rows.length = σ.rows.length := by rw [u1]
        rw [h2]
        exact hInv.pipe.rRange q e (hsub1 q e he)
      · intro a b hab ea hea eb heb
        exact hInv.pipe.disj a b hab ea (hsub1 a ea hea) eb (hsub1 b eb heb)
      · intro p e he
        have hre : rowAt st1 e.2 = rowAt σ e.2 := by
          show st1.rows.getD e.2 default = σ.rows.getD e.2 default
          rw [u1]
        rcases hcases p with h | ⟨_, h2, h3, _⟩
        · rw [h] at he
          rw [h, hre]
          exact hInv.pipe.mTime p e he
        · rw [h2, hre]
          exact hInv.pipe.mTime p e (hsub1 p e he)
      · intro hnc
        left
        have h2 := of_decide_eq_false hnc
        have h3 : σ.pointByTime.length = 0 := by omega
        exact List.length_eq_zero.mp h3
      · intro haf q hq
        rw [u9 haf q] at hq
        exact hq
      · intro _
        exact u2

theorem updateLastSeriesRow_rbs_mem (st : DLState) (series rid : Nat) :
    ∀ e ∈ (updateLastSeriesRow st series rid).rowsBySeries,
      e ∈ st.rowsBySeries ∨
      (e.1 = series ∧ ∀ r ∈ e.2, r ∈ (mapGet st.rowsBySeries series).getD [] ∨
        (r = rid ∧ isSeriesPlotRow (getRowA st.rows rid) = true)) := by
  intro e he
  have hrbs : (updateLastSeriesRow st series rid).rowsBySeries =
      mapSet st.rowsBySeries series
        (match ((mapGet st.rowsBySeries series).getD []).getLast? with
         | none =>
           if isSeriesPlotRow (getRowA st.rows rid) then
             ((mapGet st.rowsBySeries series).getD []) ++ [rid]
           else ((mapGet st.rowsBySeries series).getD [])
         | some lastRid =>
           if (getRowA st.rows lastRid).time < (getRowA st.rows rid).time then
             if isSeriesPlotRow (getRowA st.rows rid) then
               ((mapGet st.rowsBySeries series).getD []) ++ [rid]
             else ((mapGet st.rowsBySeries series).getD [])
           else
             if isSeriesPlotRow (getRowA st.rows rid) then
               ((mapGet st.rowsBySeries series).getD []).dropLast ++ [rid]
             else ((mapGet st.rowsBySeries series).getD []).dropLast) := rfl
  rw [hrbs] at he
  rcases mapSet_mem _ _ _ e he with h | h
  · right
    refine ⟨by rw [h], ?_⟩
    intro r hr
    rw [h] at hr
    simp only [] at hr
    split at hr
    · split at hr
      · rename_i hcond
        rcases List.mem_append.mp hr with h2 | h2
        · exact Or.inl h2
        · exact Or.inr ⟨by simpa using h2, hcond⟩
      · exact Or.inl hr
    · split at hr
      · split at hr
        · rename_i hcond
          rcases List.mem_append.mp hr with h2 | h2
          · exact Or.inl h2
          · exact Or.inr ⟨by simpa using h2, hcond⟩
        · exact Or.inl hr
      · split at hr
        · rename_i hcond
          rcases List.mem_append.mp hr with h2 | h2
          · exact Or.inl ((List.dropLast_sublist _).subset h2)
          · exact Or.inr ⟨by simpa using h2, hcond⟩
        · exact Or.inl ((List.dropLast_sublist _).subset hr)
  · exact Or.inl h

theorem update_st3_facts (σ : DLState) (series : Nat) (item : DataItem) (hInv : DLInv σ) :
    PipeInv (updateLastSeriesRow (ingestData σ series false [item]).1 series σ.rows.length) ∧
    (updateLastSeriesRow (ingestData σ series false [item]).1 series σ.rows.length).sorted =
      σ.sorted := by
  obtain ⟨oSorted, oRbs, oLt, oMapExt, oAffF, oKeys, oNodup, oNewNe, oRowsLen, oRowsOld,
    oRids, oPdsLen, oPdOld, oMapOld, oEmptyBack, oRange, oDisj, oTime⟩ :=
    ingestData_main series [item] σ false hInv.pipe.mKeys hInv.pipe.mNodup hInv.pipe.rRange
      hInv.pipe.disj hInv.pipe.mTime
  set R := ingestData σ series false [item] with hR
  set st2 := R.1 with hst2
  have hmem : σ.rows.length ∈ R.2.2 := by
    show σ.rows.length ∈ (ingestData σ series false [item]).2.2
    unfold ingestData
    cases hg : mapGet σ.pointByTime item.time with
    | some p =>
      simp only [hg]
      exact List.mem_cons_self _ _
    | none =>
      simp only [hg]
      exact List.mem_cons_self _ _
  set st3 := updateLastSeriesRow st2 series σ.rows.length with hst3
  have hpd3 : ∀ q, pdAt st3 q = pdAt st2 q := fun _ => rfl
  have hrow3 : ∀ r, rowAt st3 r = rowAt st2 r := fun _ => rfl
  have hmap3 : st3.pointByTime = st2.pointByTime := rfl
  have hsort3 : st3.sorted = st2.sorted := rfl
  have hrows3 : st3.rows = st2.rows := rfl
  have hsortσ : st3.sorted = σ.sorted := by rw [hsort3, oSorted]
  have hgd3 : ∀ i, st3.sorted.getD i default = σ.sorted.getD i default := by
    intro i
    rw [hsortσ]
  have hlen3 : st3.sorted.length = σ.sorted.length := by rw [hsortσ]
  have hrowlen3 : st3.rows.length = st2.rows.length := by rw [hrows3]
  have hpdlen3 : st3.pds.length = st2.pds.length := rfl
  have hσpd : ∀ i, i < σ.sorted.length → (σ.sorted.getD i default).pd < σ.pds.length :=
    hInv.pipe.sPdRange
  refine ⟨⟨?_, ?_, ?_, ?_, ?_, ?_, ?_, ?_, ?_, ?_, ?_, ?_, ?_⟩, hsortσ⟩
  · intro i j hij hj
    rw [hgd3, hgd3]
    rw [hlen3] at hj
    exact hInv.pipe.mono i j hij hj
  · intro i hi
    rw [hlen3] at hi
    rw [hgd3, hpd3]
    rw [(oPdOld _ (hσpd i hi)).1]
    exact hInv.pipe.sIndex i hi
  · intro i hi
    rw [hlen3] at hi
    rw [hgd3, hpd3]
    rw [(oPdOld _ (hσpd i hi)).2]
    exact hInv.pipe.sTime i hi
  · intro i hi e he
    rw [hlen3] at hi
    rw [hgd3, hpd3] at he
    rcases oMapOld _ (hσpd i hi) e he with hA | hB
    · have hlt : e.2 < σ.rows.length := hInv.pipe.rRange _ e hA
      rw [hrow3, oRowsOld e.2 hlt]
      exact hInv.pipe.sRows i hi e hA
    · obtain ⟨hb1, hb2, hb3⟩ := hB
      rw [hrow3, hb2]
      exact hInv.pipe.sIndex i hi
  · intro i hi
    rw [hlen3] at hi
    rw [hgd3, hpdlen3]
    have h1 := hσpd i hi
    have h2 := oPdsLen
    omega
  · intro e he
    rw [hmap3] at he
    obtain ⟨h1, h2⟩ := oKeys e he
    rw [hpdlen3, hpd3]
    exact ⟨h1, h2⟩
  · rw [hmap3]
    exact oNodup
  · intro q e he
    rw [hpd3] at he
    rw [hrowlen3]
    exact oRange q e he
  · intro a b hab ea hea eb heb
    rw [hpd3] at hea heb
    exact oDisj a b hab ea hea eb heb
  · intro s2 hs2 r hr
    rw [hst3] at hs2
    rcases updateLastSeriesRow_rbs_mem st2 series σ.rows.length s2 hs2 with h2 | h2
    · rw [oRbs] at h2
      obtain ⟨h3, h4⟩ := hInv.pipe.wRows s2 h2 r hr
      refine ⟨?_, ?_⟩
      · rw [hrowlen3]
        omega
      · rw [hrow3, oRowsOld r h3]
        exact h4
    · obtain ⟨hse, hall⟩ := h2
      rcases hall r hr with h3 | ⟨h3, h4⟩
      · cases hgl : mapGet st2.rowsBySeries series with
        | none =>
          rw [hgl] at h3
          cases h3
        | some ll =>
          rw [hgl] at h3
          have hll : (series, ll) ∈ σ.rowsBySeries := by
            rw [← oRbs]
            exact mapGet_some_mem _ _ _ hgl
          obtain ⟨h5, h6⟩ := hInv.pipe.wRows (series, ll) hll r h3
          refine ⟨by rw [hrowlen3]; omega, ?_⟩
          rw [hrow3, oRowsOld r h5]
          exact h6
      · subst h3
        refine ⟨by rw [hrowlen3]; exact oRids _ hmem, ?_⟩
        rw [hrow3]
        exact h4
  · intro p e he
    rw [hpd3] at he ⊢
    rw [hrow3]
    exact oTime p e he
  · intro e he
    rw [hmap3] at he
    rw [hpd3]
    intro hemp
    by_cases he1 : e ∈ σ.pointByTime
    · exact hInv.pipe.neMap e he1 (oEmptyBack e.2 hemp)
    · exact oNewNe e he he1 hemp
  · intro i hi
    rw [hlen3] at hi
    rw [hgd3, hpd3]
    intro hemp
    exact hInv.pipe.neSorted i hi (oEmptyBack _ hemp)

theorem updateSeriesDataImpl_inv (tw : Option Int → Int → Nat) (σ : DLState) (series : Nat)
    (item : DataItem) (hInv : DLInv σ) : DLInv (updateSeriesDataImpl tw σ series item).1 := by
  obtain ⟨hP3, hS3⟩ := update_st3_facts σ series item hInv
  cases hg : mapGet σ.pointByTime item.time with
  | some p =>
    set rowF : PlotRowV :=
      { index := (σ.pds.getD p default).index, time := item.time,
        value := itemPlotValue item } with hrowF
    set pdF : PointData :=
      { σ.pds.getD p default with
        mapping := mapSet (σ.pds.getD p default).mapping series σ.rows.length } with hpdF
    set stEf : DLState :=
      { σ with
        rows := σ.rows ++ [rowF],
        pds := σ.pds.set p pdF } with hstEf
    have hR2 : ingestData σ series false [item] = (stEf, false, [σ.rows.length]) := by
      conv_lhs => unfold ingestData
      simp only [hg]
      rfl
    rw [hR2] at hP3 hS3
    set st3 := updateLastSeriesRow stEf series σ.rows.length with hst3d
    have hP3x : PipeInv st3 := hP3
    have hS3x : st3.sorted = σ.sorted := hS3
    have hgd3σ : ∀ i, st3.sorted.getD i default = σ.sorted.getD i default := by
      intro i
      rw [hS3x]
    have hlen3σ : st3.sorted.length = σ.sorted.length := by rw [hS3x]
    have hred : (updateSeriesDataImpl tw σ series item).1 = st3 := by
      rw [hst3d]
      unfold updateSeriesDataImpl
      simp only [hg]
      rfl
    rw [hred]
    have hmapeq : st3.pointByTime = σ.pointByTime := rfl
    refine ⟨hP3x, ?_, ?_⟩
    · intro e he
      rw [hmapeq] at he
      obtain ⟨i, hi, ht⟩ := hInv.mSub e he
      refine ⟨i, by omega, ?_⟩
      rw [hgd3σ]
      exact ht
    · intro i hi
      rw [hlen3σ] at hi
      obtain ⟨e, heσ, hte⟩ := hInv.sSub i hi
      refine ⟨e, by rw [hmapeq]; exact heσ, ?_⟩
      rw [hgd3σ]
      exact hte
  | none =>
    set pd0 : PointData := { index := 0, timePoint := item.time, mapping := [] } with hpd0
    set stc : DLState :=
      { σ with
        pds := σ.pds ++ [pd0],
        pointByTime := mapSet σ.pointByTime item.time σ.pds.length } with hstc
    set rowE : PlotRowV :=
      { index := (stc.pds.getD σ.pds.length default).index, time := item.time,
        value := itemPlotValue item } with hrowE
    set pdE : PointData :=
      { stc.pds.getD σ.pds.length default with
        mapping := mapSet (stc.pds.getD σ.pds.length default).mapping series
          stc.rows.length } with hpdE
    set stE : DLState :=
      { stc with
        rows := stc.rows ++ [rowE],
        pds := stc.pds.set σ.pds.length pdE } with hstE
    have hR2 : ingestData σ series false [item] = (stE, true, [σ.rows.length]) := by
      conv_lhs => unfold ingestData
      simp only [hg]
      rfl
    rw [hR2] at hP3 hS3
    set st3 := updateLastSeriesRow stE series σ.rows.length with hst3d
    have hP3x : PipeInv st3 := hP3
    have hS3x : st3.sorted = σ.sorted := hS3
    have hgd3σ : ∀ i, st3.sorted.getD i default = σ.sorted.getD i default := by
      intro i
      rw [hS3x]
    have hlen3σ : st3.sorted.length = σ.sorted.length := by rw [hS3x]
    have hmap32 : st3.pointByTime = mapSet σ.pointByTime item.time σ.pds.length := rfl
    set tnp : Int := (st3.pds.getD σ.pds.length default).timePoint with htnpd
    set np : SPoint := { timeWeight := 0, time := tnp, pd := σ.pds.length } with hnpd
    set ii := lowerbound st3.sorted tnp with hiid
    set st4 : DLState :=
      { st3 with sorted := st3.sorted.take ii ++ np :: st3.sorted.drop ii } with hst4d
    set st5 := assignFromAux st4 (st4.sorted.drop ii) ii with hst5d
    set stF : DLState := { st5 with sorted := fillWeightsForPoints tw st5.sorted ii } with hstFd
    have hred : (updateSeriesDataImpl tw σ series item).1 = stF := by
      unfold updateSeriesDataImpl
      simp only [hg]
      rfl
    rw [hred]
    have hmem2 : (item.time, σ.pds.length) ∈ st3.pointByTime := by
      rw [hmap32]
      exact mapSet_self_mem _ _ _
    obtain ⟨hplen, htnp0⟩ := hP3x.mKeys _ hmem2
    have htnp_eq : tnp = item.time := htnp0
    have hfresh : ∀ e ∈ σ.pointByTime, e.1 ≠ item.time := (mapGet_none_iff _ _).mp hg
    have hnotins : ∀ j, j < σ.sorted.length → (σ.sorted.getD j default).time ≠ item.time := by
      intro j hj hc
      obtain ⟨e, he, hte⟩ := hInv.sSub j hj
      exact hfresh e he (by rw [hte, hc])
    have hM3 : ∀ i j, i < j → j < st3.sorted.length →
        (st3.sorted.getD i default).time < (st3.sorted.getD j default).time := by
      intro i j hij hj
      rw [hgd3σ, hgd3σ]
      rw [hlen3σ] at hj
      exact hInv.pipe.mono i j hij hj
    obtain ⟨lb1, lb2, lb3⟩ := lowerbound_spec st3.sorted tnp hM3
    have hii_le : ii ≤ σ.sorted.length := by omega
    have hlt : ∀ j, j < ii → (σ.sorted.getD j default).time < tnp := by
      intro j hj
      have := lb2 j hj
      rwa [hgd3σ] at this
    have hgt : ∀ j, ii ≤ j → j < σ.sorted.length → tnp < (σ.sorted.getD j default).time := by
      intro j hj1 hj2
      have h1 := lb3 j hj1 (by omega)
      rw [hgd3σ] at h1
      have h2 := hnotins j hj2
      rw [htnp_eq]
      rw [htnp_eq] at h1
      omega
    have htakelen : (st3.sorted.take ii).length = ii := by
      rw [List.length_take]
      omega
    have hspl_len : st4.sorted.length = σ.sorted.length + 1 := by
      show (st3.sorted.take ii ++ np :: st3.sorted.drop ii).length = _
      rw [splice_length st3.sorted np ii (by omega)]
      omega
    have hspl_getD : ∀ k, st4.sorted.getD k default =
        (if k < ii then σ.sorted.getD k default
         else if k = ii then np
         else σ.sorted.getD (k - 1) default) := by
      intro k
      show (st3.sorted.take ii ++ np :: st3.sorted.drop ii).getD k default = _
      rw [splice_getD st3.sorted np ii k (by omega)]
      by_cases h1 : k < ii
      · rw [if_pos h1, if_pos h1, hgd3σ]
      · rw [if_neg h1, if_neg h1]
        by_cases h2 : k = ii
        · rw [if_pos h2, if_pos h2]
        · rw [if_neg h2, if_neg h2, hgd3σ]
    have hdrop : st4.sorted.drop ii = np :: st3.sorted.drop ii := by
      show (st3.sorted.take ii ++ np :: st3.sorted.drop ii).drop ii = _
      exact List.drop_left' htakelen
    have hdroplen : (np :: st3.sorted.drop ii).length = σ.sorted.length + 1 - ii := by
      simp only [List.length_cons, List.length_drop]
      omega
    have hpwσpos : ∀ i j, i < j → j < σ.sorted.length →
        (σ.sorted.getD i default).pd ≠ (σ.sorted.getD j default).pd := by
      intro i j hij hj hc
      have ha := hInv.pipe.sIndex i (by omega)
      have hb := hInv.pipe.sIndex j hj
      rw [hc] at ha
      omega
    have hdropPos : ∀ m, m < σ.sorted.length - ii →
        (st3.sorted.drop ii).getD m default = σ.sorted.getD (ii + m) default := by
      intro m hm
      rw [getD_drop, hgd3σ]
    have hpdσ : ∀ j, j < σ.sorted.length → (σ.sorted.getD j default).pd < σ.pds.length :=
      hInv.pipe.sPdRange
    have hpds43 : ∀ q, pdAt st4 q = pdAt st3 q := fun _ => rfl
    have hrow43 : ∀ r, rowAt st4 r = rowAt st3 r := fun _ => rfl
    have hplen3 : σ.pds.length < st3.pds.length := hplen
    have hpw : (np :: st3.sorted.drop ii).Pairwise (fun a b => a.pd ≠ b.pd) := by
      refine List.pairwise_cons.mpr ⟨?_, ?_⟩
      · intro b hb
        obtain ⟨m, hm, hme⟩ := mem_getD _ b hb
        rw [List.length_drop] at hm
        rw [← hme, hdropPos m (by omega)]
        have := hpdσ (ii + m) (by omega)
        show σ.pds.length ≠ _
        omega
      · have hpw3 : st3.sorted.Pairwise (fun a b => a.pd ≠ b.pd) := by
          rw [pairwise_getD_iff]
          intro i j hij hj
          rw [hgd3σ, hgd3σ]
          rw [hlen3σ] at hj
          exact hpwσpos i j hij hj
        exact hpw3.sublist (List.drop_sublist ii st3.sorted)
    have hrange : ∀ sp ∈ np :: st3.sorted.drop ii, sp.pd < st4.pds.length := by
      intro sp hsp
      rcases List.mem_cons.mp hsp with h | h
      · rw [h]
        show σ.pds.length < st3.pds.length
        exact hplen3
      · obtain ⟨m, hm, hme⟩ := mem_getD _ sp h
        rw [List.length_drop] at hm
        rw [← hme, hdropPos m (by omega)]
        have := hpdσ (ii + m) (by omega)
        show _ < st3.pds.length
        omega
    have hdisj4 : DisjState st4 := by
      intro a b hab ea hea eb heb
      rw [hpds43] at hea heb
      exact hP3x.disj a b hab ea hea eb heb
    have hrr4 : RowRangeState st4 := by
      intro q e he
      rw [hpds43] at he
      exact hP3x.rRange q e he
    have hst5' : st5 = assignFromAux st4 (np :: st3.sorted.drop ii) ii := by
      rw [hst5d, hdrop]
    obtain ⟨g1, g2, g3, g4, g5, g6, g7, g8⟩ :=
      assignFromAux_frames (np :: st3.sorted.drop ii) st4 ii
    obtain ⟨e1, e2, e3, e4, e5⟩ :=
      assignFromAux_effect (np :: st3.sorted.drop ii) st4 ii hpw hrange hdisj4 hrr4
    rw [← hst5'] at g1 g2 g3 g4 g5 g6 g7 g8 e1 e2 e3 e4 e5
    have hs5s : st5.sorted = st4.sorted := g6
    have hFpd : ∀ q, pdAt stF q = pdAt st5 q := fun _ => rfl
    have hFrow : ∀ rr, rowAt stF rr = rowAt st5 rr := fun _ => rfl
    have hFmap : stF.pointByTime = st3.pointByTime := g3
    have hFrbs : stF.rowsBySeries = st3.rowsBySeries := g4
    have hFplen : stF.pds.length = st3.pds.length := g1
    have hFrlen : stF.rows.length = st3.rows.length := g2
    have hFsorted : stF.sorted = fillWeightsForPoints tw st5.sorted ii := rfl
    have hlenF : stF.sorted.length = σ.sorted.length + 1 := by
      rw [hFsorted, fillWeightsForPoints_length, hs5s, hspl_len]
    have htF : ∀ k, k < σ.sorted.length + 1 →
        (stF.sorted.getD k default).time = (st4.sorted.getD k default).time ∧
        (stF.sorted.getD k default).pd = (st4.sorted.getD k default).pd := by
      intro k hk
      rw [hFsorted]
      obtain ⟨h1, h2⟩ := fillWeightsForPoints_pd_time tw st5.sorted ii k
        (by rw [hs5s]; omega)
      rw [h1, h2, hs5s]
      exact ⟨rfl, rfl⟩
    have hmidx : ∀ m, m < (np :: st3.sorted.drop ii).length →
        (np :: st3.sorted.drop ii).getD m default = st4.sorted.getD (ii + m) default := by
      intro m hm
      cases m with
      | zero =>
        rw [List.getD_cons_zero, hspl_getD]
        rw [if_neg (by omega), if_pos (by omega)]
      | succ m2 =>
        rw [List.getD_cons_succ, hspl_getD]
        rw [List.length_cons, List.length_drop] at hm
        rw [hdropPos m2 (by omega)]
        rw [if_neg (by omega), if_neg (by omega)]
        congr 1
    have hidxF : ∀ k, k < σ.sorted.length + 1 →
        (pdAt st5 (st4.sorted.getD k default).pd).index = k := by
      intro k hk
      by_cases hkii : k < ii
      · have hpdk : st4.sorted.getD k default = σ.sorted.getD k default := by
          rw [hspl_getD, if_pos hkii]
        rw [hpdk]
        have hnot : ∀ sp ∈ np :: st3.sorted.drop ii,
            sp.pd ≠ (σ.sorted.getD k default).pd := by
          intro sp hsp
          rcases List.mem_cons.mp hsp with h | h
          · rw [h]
            have := hpdσ k (by omega)
            show σ.pds.length ≠ _
            omega
          · obtain ⟨m, hm, hme⟩ := mem_getD _ sp h
            rw [List.length_drop] at hm
            rw [← hme, hdropPos m (by omega)]
            exact fun hc => hpwσpos k (ii + m) (by omega) (by omega) hc.symm
        rw [e4 _ hnot, hpds43]
        have h2 := hP3x.sIndex k (by omega)
        rw [hgd3σ] at h2
        exact h2
      · have hm : k - ii < (np :: st3.sorted.drop ii).length := by
          rw [List.length_cons, List.length_drop]
          omega
        have heffk := (e3 (k - ii) hm).1
        rw [hmidx (k - ii) hm, show ii + (k - ii) = k from by omega] at heffk
        rw [heffk]
    have hrowsF : ∀ k, k < σ.sorted.length + 1 →
        ∀ e ∈ (pdAt st3 (st4.sorted.getD k default).pd).mapping,
          (rowAt st5 e.2).index = k := by
      intro k hk e he
      by_cases hkii : k < ii
      · have hpdk : st4.sorted.getD k default = σ.sorted.getD k default := by
          rw [hspl_getD, if_pos hkii]
        rw [hpdk] at he
        have hnot : ∀ sp ∈ np :: st3.sorted.drop ii,
            ∀ e2 ∈ (pdAt st4 sp.pd).mapping, e2.2 ≠ e.2 := by
          intro sp hsp e2 he2
          rw [hpds43] at he2
          have hspd : sp.pd ≠ (σ.sorted.getD k default).pd := by
            rcases List.mem_cons.mp hsp with h | h
            · rw [h]
              have := hpdσ k (by omega)
              show σ.pds.length ≠ _
              omega
            · obtain ⟨m, hm, hme⟩ := mem_getD _ sp h
              rw [List.length_drop] at hm
              rw [← hme, hdropPos m (by omega)]
              exact fun hc => hpwσpos k (ii + m) (by omega) (by omega) hc.symm
          exact hP3x.disj sp.pd _ hspd e2 he2 e he
        rw [e5 e.2 hnot, hrow43]
        have h2 := hP3x.sRows k (by omega)
        rw [hgd3σ] at h2
        exact h2 e he
      · have hm : k - ii < (np :: st3.sorted.drop ii).length := by
          rw [List.length_cons, List.length_drop]
          omega
        have heffk := (e3 (k - ii) hm).2
        rw [hmidx (k - ii) hm, show ii + (k - ii) = k from by omega] at heffk
        have he4 : e ∈ (pdAt st4 (st4.sorted.getD k default).pd).mapping := by
          rw [hpds43]
          exact he
        rw [heffk e he4]
    have hTime4 : ∀ k, k < σ.sorted.length + 1 →
        (pdAt st3 (st4.sorted.getD k default).pd).timePoint =
          (st4.sorted.getD k default).time := by
      intro k hk
      rw [hspl_getD]
      by_cases h1 : k < ii
      · rw [if_pos h1]
        have h2 := hP3x.sTime k (by omega)
        rw [hgd3σ] at h2
        exact h2
      · rw [if_neg h1]
        by_cases h2 : k = ii
        · rw [if_pos h2]
          exact htnp0.trans htnp_eq.symm
        · rw [if_neg h2]
          have h3 := hP3x.sTime (k - 1) (by omega)
          rw [hgd3σ] at h3
          exact h3
    have hmap5 : ∀ q, (pdAt st5 q).mapping = (pdAt st3 q).mapping ∧
        (pdAt st5 q).timePoint = (pdAt st3 q).timePoint := by
      intro q
      obtain ⟨h1, h2⟩ := g7 q
      rw [hpds43] at h1 h2
      exact ⟨h1, h2⟩
    have hrow5 : ∀ rr, (rowAt st5 rr).time = (rowAt st3 rr).time ∧
        (rowAt st5 rr).value = (rowAt st3 rr).value := by
      intro rr
      obtain ⟨h1, h2⟩ := g8 rr
      rw [hrow43] at h1 h2
      exact ⟨h1, h2⟩
    have hpd4time : ∀ k, k < σ.sorted.length + 1 →
        (st4.sorted.getD k default).time =
          (if k < ii then (σ.sorted.getD k default).time
           else if k = ii then item.time
           else (σ.sorted.getD (k - 1) default).time) := by
      intro k hk
      rw [hspl_getD]
      by_cases h1 : k < ii
      · rw [if_pos h1, if_pos h1]
      · rw [if_neg h1, if_neg h1]
        by_cases h2 : k = ii
        · rw [if_pos h2, if_pos h2]
          exact htnp_eq
        · rw [if_neg h2, if_neg h2]
    refine ⟨⟨?_, ?_, ?_, ?_, ?_, ?_, ?_, ?_, ?_, ?_, ?_, ?_, ?_⟩, ?_, ?_⟩
    · intro i j hij hj
      rw [hlenF] at hj
      rw [(htF i (by omega)).1, (htF j (by omega)).1, hpd4time i (by omega),
        hpd4time j (by omega)]
      by_cases hi1 : i < ii
      · rw [if_pos hi1]
        by_cases hj1 : j < ii
        · rw [if_pos hj1]
          exact hInv.pipe.mono i j hij (by omega)
        · rw [if_neg hj1]
          by_cases hj2 : j = ii
          · rw [if_pos hj2]
            have := hlt i hi1
            rw [htnp_eq] at this
            exact this
          · rw [if_neg hj2]
            by_cases hje : i = j - 1
            · rw [← hje]
              have := hlt i hi1
              rw [htnp_eq] at this
              have h4 := hgt (j - 1) (by omega) (by omega)
              rw [htnp_eq] at h4
              omega
            · exact hInv.pipe.mono i (j - 1) (by omega) (by omega)
      · rw [if_neg hi1]
        by_cases hi2 : i = ii
        · rw [if_pos hi2]
          rw [if_neg (by omega), if_neg (by omega)]
          have := hgt (j - 1) (by omega) (by omega)
          rw [htnp_eq] at this
          exact this
        · rw [if_neg hi2]
          rw [if_neg (by omega), if_neg (by omega)]
          exact hInv.pipe.mono (i - 1) (j - 1) (by omega) (by omega)
    · intro i hi
      rw [hlenF] at hi
      rw [hFpd, (htF i hi).2]
      exact hidxF i hi
    · intro i hi
      rw [hlenF] at hi
      rw [hFpd, (htF i hi).2, (hmap5 _).2, (htF i hi).1]
      exact hTime4 i hi
    · intro i hi e he
      rw [hlenF] at hi
      rw [hFpd, (htF i hi).2, (hmap5 _).1] at he
      rw [hFrow]
      exact hrowsF i hi e he
    · intro i hi
      rw [hlenF] at hi
      rw [(htF i hi).2, hFplen]
      rw [hspl_getD]
      by_cases h1 : i < ii
      · rw [if_pos h1]
        have := hpdσ i (by omega)
        omega
      · rw [if_neg h1]
        by_cases h2 : i = ii
        · rw [if_pos h2]
          exact hplen3
        · rw [if_neg h2]
          have := hpdσ (i - 1) (by omega)
          omega
    · intro e he
      rw [hFmap] at he
      obtain ⟨h1, h2⟩ := hP3x.mKeys e he
      rw [hFplen, hFpd, (hmap5 _).2]
      exact ⟨h1, h2⟩
    · rw [hFmap]
      exact hP3x.mNodup
    · intro q e he
      rw [hFpd, (hmap5 _).1] at he
      rw [hFrlen]
      exact hP3x.rRange q e he
    · intro a b hab ea hea eb heb
      rw [hFpd, (hmap5 _).1] at hea heb
      exact hP3x.disj a b hab ea hea eb heb
    · intro s2 hs2 r hr
      rw [hFrbs] at hs2
      obtain ⟨h1, h2⟩ := hP3x.wRows s2 hs2 r hr
      refine ⟨by rw [hFrlen]; exact h1, ?_⟩
      rw [hFrow, (hrow5 _).2]
      exact h2
    · intro q e he
      rw [hFpd, (hmap5 _).1] at he
      rw [hFrow, (hrow5 _).1, hFpd, (hmap5 _).2]
      exact hP3x.mTime q e he
    · intro e he
      rw [hFmap] at he
      rw [hFpd, (hmap5 _).1]
      exact hP3x.neMap e he
    · intro i hi
      rw [hlenF] at hi
      rw [hFpd, (htF i hi).2, (hmap5 _).1]
      rw [hspl_getD]
      by_cases h1 : i < ii
      · rw [if_pos h1]
        have h2 := hP3x.neSorted i (by omega)
        rw [hgd3σ] at h2
        exact h2
      · rw [if_neg h1]
        by_cases h2 : i = ii
        · rw [if_pos h2]
          exact hP3x.neMap _ hmem2
        · rw [if_neg h2]
          have h3 := hP3x.neSorted (i - 1) (by omega)
          rw [hgd3σ] at h3
          exact h3
    · intro e he
      rw [hFmap, hmap32] at he
      rcases mapSet_mem _ _ _ e he with h | h
      · rw [h]
        refine ⟨ii, by omega, ?_⟩
        rw [(htF ii (by omega)).1, hpd4time ii (by omega), if_neg (by omega),
          if_pos rfl]
      · obtain ⟨j, hj, htj⟩ := hInv.mSub e h
        by_cases hjii : j < ii
        · refine ⟨j, by omega, ?_⟩
          rw [(htF j (by omega)).1, hpd4time j (by omega), if_pos hjii]
          exact htj
        · refine ⟨j + 1, by omega, ?_⟩
          rw [(htF (j + 1) (by omega)).1, hpd4time (j + 1) (by omega),
            if_neg (by omega), if_neg (by omega)]
          simpa using htj
    · intro i hi
      rw [hlenF] at hi
      rw [hFmap, hmap32]
      rw [(htF i hi).1, hpd4time i hi]
      by_cases h1 : i < ii
      · rw [if_pos h1]
        obtain ⟨e, he, hte⟩ := hInv.sSub i (by omega)
        exact ⟨e, mapSet_mem_of_ne _ _ _ e he (hfresh e he), hte⟩
      · rw [if_neg h1]
        by_cases h2 : i = ii
        · rw [if_pos h2]
          exact ⟨(item.time, σ.pds.length), mapSet_self_mem _ _ _, rfl⟩
        · rw [if_neg h2]
          obtain ⟨e, he, hte⟩ := hInv.sSub (i - 1) (by omega)
          exact ⟨e, mapSet_mem_of_ne _ _ _ e he (hfresh e he), hte⟩

theorem updateSeriesData_inv (tw : Option Int → Int → Nat) (σ : DLState) (series : Nat)
    (item : DataItem) (hInv : DLInv σ) : DLInv (updateSeriesData tw σ series item).1 := by
  unfold updateSeriesData
  simp only []
  split
  · exact hInv
  · exact updateSeriesDataImpl_inv tw σ series item hInv

theorem Reachable_inv (tw : Option Int → Int → Nat) (σ : DLState) (h : Reachable tw σ) :
    DLInv σ := by
  induction h with
  | empty =>
    refine ⟨⟨?_, ?_, ?_, ?_, ?_, ?_, ?_, ?_, ?_, ?_, ?_, ?_, ?_⟩, ?_, ?_⟩
    · intro i j hij hj
      cases hj
    · intro i hi
      cases hi
    · intro i hi
      cases hi
    · intro i hi
      cases hi
    · intro i hi
      cases hi
    · intro e he
      cases he
    · exact List.nodup_nil
    · intro q e he
      cases he
    · intro a b hab ea hea
      cases hea
    · intro s2 hs2
      cases hs2
    · intro p e he
      cases he
    · intro e he
      cases he
    · intro i hi
      cases hi
    · intro e he
      cases he
    · intro i hi
      cases hi
  | set st series data hst ih => exact setSeriesData_inv tw st series data ih
  | update st series item hst ih => exact updateSeriesData_inv tw st series item ih

/-- C1: after every public `DataLayer` operation, the sorted time-point
array has dense synchronized indexes: at every position `i` the point
data's `index` equals `i`, and every plot row in that point data's mapping
carries `index = i` as well (spec invariants I1 and I2). -/
theorem C1_dense_synchronized_indexes (tw : Option Int → Int → Nat) (σ : DLState)
    (h : Reachable tw σ) :
    ∀ i, i < σ.sorted.length →
      (pdAt σ (σ.sorted.getD i default).pd).index = i ∧
      ∀ e ∈ (pdAt σ (σ.sorted.getD i default).pd).mapping, (rowAt σ e.2).index = i := by
  have hI := Reachable_inv tw σ h
  intro i hi
  exact ⟨hI.pipe.sIndex i hi, hI.pipe.sRows i hi⟩

theorem C1_dense_synchronized_indexes_witness :
    1 < exSetState.sorted.length ∧
    ((pdAt exSetState (exSetState.sorted.getD 1 default).pd).index = 1 ∧
      ∀ e ∈ (pdAt exSetState (exSetState.sorted.getD 1 default).pd).mapping,
        (rowAt exSetState e.2).index = 1) :=
  ⟨by decide, C1_dense_synchronized_indexes twZero exSetState
    (Reachable.set DLState.empty 1 [⟨1, .single 10⟩, ⟨2, .single 11⟩] Reachable.empty)
    1 (by decide)⟩

/-- A sample layer state carrying a whitespace item: series 1 holds a
whitespace item at timestamp 1 and a line point at timestamp 2. -/
def exWsState : DLState :=
  (setSeriesData twZero DLState.empty 1 [⟨1, .whitespace⟩, ⟨2, .single 7⟩]).1

/-- C7: after every public `DataLayer` operation, no whitespace row sits in
any per-series row list, while the timestamp of every whitespace row still
bound to a live time point occupies a position of the shared sorted
time-point array (spec invariant I4). -/
theorem C7_no_whitespace_in_series (tw : Option Int → Int → Nat) (σ : DLState)
    (h : Reachable tw σ) :
    (∀ s2 ∈ σ.rowsBySeries, ∀ rid ∈ s2.2, isSeriesPlotRow (rowAt σ rid) = true) ∧
    (∀ e ∈ σ.pointByTime, ∀ en ∈ (pdAt σ e.2).mapping,
      isSeriesPlotRow (rowAt σ en.2) = false →
      ∃ i, i < σ.sorted.length ∧
        (σ.sorted.getD i default).time = (rowAt σ en.2).time) := by
  have hI := Reachable_inv tw σ h
  constructor
  · intro s2 hs2 rid hrid
    exact (hI.pipe.wRows s2 hs2 rid hrid).2
  · intro e he en hen hws
    obtain ⟨i, hi, ht⟩ := hI.mSub e he
    refine ⟨i, hi, ?_⟩
    rw [ht]
    have h1 := hI.pipe.mTime e.2 en hen
    have h2 := (hI.pipe.mKeys e he).2
    rw [h1, h2]

theorem C7_no_whitespace_in_series_witness :
    (∀ s2 ∈ exWsState.rowsBySeries, ∀ rid ∈ s2.2,
      isSeriesPlotRow (rowAt exWsState rid) = true) ∧
    (∀ e ∈ exWsState.pointByTime, ∀ en ∈ (pdAt exWsState e.2).mapping,
      isSeriesPlotRow (rowAt exWsState en.2) = false →
      ∃ i, i < exWsState.sorted.length ∧
        (exWsState.sorted.getD i default).time = (rowAt exWsState en.2).time) :=
  C7_no_whitespace_in_series twZero exWsState
    (Reachable.set DLState.empty 1 [⟨1, .whitespace⟩, ⟨2, .single 7⟩] Reachable.empty)

/-- The observable content of a point data object: its index, its time
point, and its per-series rows with the row objects dereferenced.  Two
states with equal observations are the same JS object graph up to object
identity. -/
def obsPd (σ : DLState) (p : Nat) : Nat × Int × List (Nat × PlotRowV) :=
  ((pdAt σ p).index, (pdAt σ p).timePoint,
    (pdAt σ p).mapping.map (fun e => (e.1, rowAt σ e.2)))

/-- The observable content of a `DataLayer` state: the timestamp map, the
per-series row lists, the last-time map and the sorted array, with every
object reference dereferenced. -/
def DLState.obs (σ : DLState) :
    List (Int × Nat × Int × List (Nat × PlotRowV)) × List (Nat × List PlotRowV) ×
      List (Nat × Int) × List (Nat × Int × Nat × Int × List (Nat × PlotRowV)) :=
  (σ.pointByTime.map (fun e => (e.1, obsPd σ e.2)),
   σ.rowsBySeries.map (fun e => (e.1, derefRows σ e.2)),
   σ.lastTime,
   σ.sorted.map (fun sp => (sp.timeWeight, sp.time, obsPd σ sp.pd)))

/-- The plot rows the ingestion loop appends for a fresh data set. -/
def freshRows (X : List DataItem) : List PlotRowV :=
  X.map (fun d => { index := 0, time := d.time, value := itemPlotValue d })

/-- The point data objects the ingestion loop creates for a fresh data set,
with row ids starting at `r0`. -/
def freshPds (series r0 : Nat) : List DataItem → List PointData
  | [] => []
  | d :: rest =>
    { index := 0, timePoint := d.time, mapping := [(series, r0)] } ::
      freshPds series (r0 + 1) rest

/-- The timestamp-map entries the ingestion loop appends, with point data
ids starting at `p0`. -/
def freshMap (p0 : Nat) : List DataItem → List (Int × Nat)
  | [] => []
  | d :: rest => (d.time, p0) :: freshMap (p0 + 1) rest

/-- Consecutive row ids starting at `r0`, one per item. -/
def seqFrom (r0 : Nat) : List DataItem → List Nat
  | [] => []
  | _ :: rest => r0 :: seqFrom (r0 + 1) rest

/-- The time scale points collected for a fresh data set, with point data
ids starting at `p0`. -/
def ptsOf (p0 : Nat) : List DataItem → List SPoint
  | [] => []
  | d :: rest => { timeWeight := 0, time := d.time, pd := p0 } :: ptsOf (p0 + 1) rest

theorem freshRows_length (X : List DataItem) : (freshRows X).length = X.length := by
  simp [freshRows]

theorem freshPds_length (series : Nat) (X : List DataItem) :
    ∀ r0, (freshPds series r0 X).length = X.length := by
  induction X with
  | nil => intro r0; rfl
  | cons d rest ih =>
    intro r0
    simp only [freshPds, List.length_cons, ih]

theorem freshMap_length (X : List DataItem) : ∀ p0, (freshMap p0 X).length = X.length := by
  induction X with
  | nil => intro p0; rfl
  | cons d rest ih =>
    intro p0
    simp only [freshMap, List.length_cons, ih]

theorem seqFrom_length (X : List DataItem) : ∀ r0, (seqFrom r0 X).length = X.length := by
  induction X with
  | nil => intro r0; rfl
  | cons d rest ih =>
    intro r0
    simp only [seqFrom, List.length_cons, ih]

theorem ptsOf_length (X : List DataItem) : ∀ p0, (ptsOf p0 X).length = X.length := by
  induction X with
  | nil => intro p0; rfl
  | cons d rest ih =>
    intro p0
    simp only [ptsOf, List.length_cons, ih]

theorem freshRows_getD (X : List DataItem) : ∀ k, k < X.length →
    (freshRows X).getD k default =
      { index := 0, time := (X.getD k ⟨0, ItemValue.whitespace⟩).time,
        value := itemPlotValue (X.getD k ⟨0, ItemValue.whitespace⟩) } := by
  induction X with
  | nil => intro k hk; cases hk
  | cons d rest ih =>
    intro k hk
    cases k with
    | zero => rfl
    | succ k2 =>
      show (freshRows rest).getD k2 default = _
      rw [ih k2 (by simpa using hk)]
      rfl

theorem freshPds_getD (series : Nat) (X : List DataItem) : ∀ r0 k, k < X.length →
    (freshPds series r0 X).getD k default =
      { index := 0, timePoint := (X.getD k ⟨0, ItemValue.whitespace⟩).time,
        mapping := [(series, r0 + k)] } := by
  induction X with
  | nil => intro r0 k hk; cases hk
  | cons d rest ih =>
    intro r0 k hk
    cases k with
    | zero => rfl
    | succ k2 =>
      show (freshPds series (r0 + 1) rest).getD k2 default = _
      rw [ih (r0 + 1) k2 (by simpa using hk)]
      rw [show r0 + 1 + k2 = r0 + (k2 + 1) from by omega]
      rfl

theorem ptsOf_getD (X : List DataItem) : ∀ p0 k, k < X.length →
    (ptsOf p0 X).getD k default =
      { timeWeight := 0, time := (X.getD k ⟨0, ItemValue.whitespace⟩).time, pd := p0 + k } := by
  induction X with
  | nil => intro p0 k hk; cases hk
  | cons d rest ih =>
    intro p0 k hk
    cases k with
    | zero => rfl
    | succ k2 =>
      show (ptsOf (p0 + 1) rest).getD k2 default = _
      rw [ih (p0 + 1) k2 (by simpa using hk)]
      rw [show p0 + 1 + k2 = p0 + (k2 + 1) from by omega]
      rfl

theorem seqFrom_getLastD (X : List DataItem) (hne : X ≠ []) :
    ∀ r0, (seqFrom r0 X).getLastD 0 = r0 + (X.length - 1) := by
  induction X with
  | nil => exact absurd rfl hne
  | cons d rest ih =>
    intro r0
    by_cases hr : rest = []
    · subst hr
      rfl
    · have h2 : seqFrom (r0 + 1) rest ≠ [] := by
        intro hc
        have h3 := seqFrom_length rest (r0 + 1)
        rw [hc] at h3
        exact hr (List.length_eq_zero.mp h3.symm)
      show (r0 :: seqFrom (r0 + 1) rest).getLastD 0 = _
      rw [List.getLastD_cons]
      have h4 := ih hr (r0 + 1)
      rw [List.getLastD_eq_getLast?] at h4 ⊢
      cases hgl : (seqFrom (r0 + 1) rest).getLast? with
      | none =>
        rw [List.getLast?_eq_none_iff] at hgl
        exact absurd hgl h2
      | some v =>
        rw [hgl] at h4
        simp only [Option.getD_some] at h4 ⊢
        rw [h4]
        have h5 : rest.length ≠ 0 := fun hc => hr (List.length_eq_zero.mp hc)
        simp only [List.length_cons]
        omega

theorem set_append_length {α : Type} (l : List α) (a b : α) :
    (l ++ [a]).set l.length b = l ++ [b] := by
  induction l with
  | nil => rfl
  | cons x xs ih =>
    show x :: (xs ++ [a]).set xs.length b = _
    rw [ih]
    rfl

theorem insertByTime_of_lt (sp : SPoint) (l : List SPoint)
    (h : ∀ y ∈ l, sp.time < y.time) : insertByTime sp l = sp :: l := by
  cases l with
  | nil => rfl
  | cons x xs =>
    rw [insertByTime, if_pos (h x (List.mem_cons_self _ _))]

theorem sortByTime_of_sorted (l : List SPoint)
    (h : l.Pairwise (fun a b => a.time < b.time)) : sortByTime l = l := by
  induction l with
  | nil => rfl
  | cons x xs ih =>
    obtain ⟨h1, h2⟩ := List.pairwise_cons.mp h
    rw [sortByTime, ih h2, insertByTime_of_lt x xs h1]

theorem firstDiffIdx_eq_none (a : List SPoint) : ∀ b : List SPoint, a.length = b.length →
    (∀ j, j < a.length → (a.getD j default).time = (b.getD j default).time) →
    firstDiffIdx a b = none := by
  induction a with
  | nil =>
    intro b hlen _
    cases b with
    | nil => rfl
    | cons y ys => cases hlen
  | cons x xs ih =>
    intro b hlen heq
    cases b with
    | nil => cases hlen
    | cons y ys =>
      have h0 : x.time = y.time := heq 0 (by simp)
      rw [firstDiffIdx, if_neg (by simpa using h0)]
      rw [ih ys (by simpa using hlen) (fun j hj => heq (j + 1) (by simpa using hj))]
      rfl

theorem mapGet_append_none {α β : Type} [DecidableEq α] (m : List (α × β)) (k k2 : α) (v : β)
    (h : mapGet m k = none) (hne : k2 ≠ k) : mapGet (m ++ [(k2, v)]) k = none := by
  rw [mapGet_none_iff] at h ⊢
  intro e he
  rcases List.mem_append.mp he with h2 | h2
  · exact h e h2
  · have h3 : e = (k2, v) := by simpa using h2
    rw [h3]
    exact hne

/-- The state transformation of one creating iteration of the ingestion
loop (the timestamp is not yet in the map): create the point data, then
install the new plot row. -/
def ingestStep (st : DLState) (series : Nat) (d : DataItem) : DLState :=
  let p := st.pds.length
  let stc : DLState := { st with
    pds := st.pds ++ [{ index := 0, timePoint := d.time, mapping := [] }],
    pointByTime := mapSet st.pointByTime d.time p }
  let pd := stc.pds.getD p default
  let rid := stc.rows.length
  { stc with
      rows := stc.rows ++ [{ index := pd.index, time := d.time, value := itemPlotValue d }],
      pds := stc.pds.set p { pd with mapping := mapSet pd.mapping series rid } }

theorem ingest_fresh (series : Nat) (X : List DataItem) : ∀ (st : DLState) (aff : Bool),
    (∀ d ∈ X, mapGet st.pointByTime d.time = none) →
    X.Pairwise (fun a b => a.time ≠ b.time) →
    ingestData st series aff X =
      ({ st with
          rows := st.rows ++ freshRows X,
          pds := st.pds ++ freshPds series st.rows.length X,
          pointByTime := st.pointByTime ++ freshMap st.pds.length X },
        aff || decide (X ≠ []), seqFrom st.rows.length X) := by
  induction X with
  | nil =>
    intro st aff _ _
    show (st, aff, []) = _
    rw [show freshRows [] = [] from rfl, show freshPds series st.rows.length [] = [] from rfl,
      show freshMap st.pds.length [] = [] from rfl, show seqFrom st.rows.length [] = [] from rfl]
    simp only [List.append_nil]
    rw [show (decide (([] : List DataItem) ≠ [])) = false from by decide, Bool.or_false]
  | cons d rest ih =>
    intro st aff hfr hpw
    have hg : mapGet st.pointByTime d.time = none := hfr d (List.mem_cons_self _ _)
    obtain ⟨hhd, htl⟩ := List.pairwise_cons.mp hpw
    have hred : ingestData st series aff (d :: rest) =
        ((ingestData (ingestStep st series d) series true rest).1,
          (ingestData (ingestStep st series d) series true rest).2.1,
          st.rows.length :: (ingestData (ingestStep st series d) series true rest).2.2) := by
      conv_lhs => unfold ingestData
      simp only [hg]
      rfl
    rw [hred]
    set row1 : PlotRowV := { index := 0, time := d.time, value := itemPlotValue d } with hrow1
    set pd1 : PointData :=
      { index := 0, timePoint := d.time, mapping := [(series, st.rows.length)] } with hpd1
    have hstep : ingestStep st series d =
        { st with
            rows := st.rows ++ [row1],
            pds := st.pds ++ [pd1],
            pointByTime := st.pointByTime ++ [(d.time, st.pds.length)] } := by
      have hpd0 : (st.pds ++
          [({ index := 0, timePoint := d.time, mapping := [] } : PointData)]).getD
            st.pds.length default =
          ({ index := 0, timePoint := d.time, mapping := [] } : PointData) := by
        rw [getD_append_right _ _ _ (Nat.le_refl _), Nat.sub_self, List.getD_cons_zero]
      rw [ingestStep]
      simp only []
      rw [hpd0]
      rw [mapSet_absent _ _ _ hg]
      rw [set_append_length]
      rfl
    rw [hstep]
    set st2 : DLState :=
      { st with
          rows := st.rows ++ [row1],
          pds := st.pds ++ [pd1],
          pointByTime := st.pointByTime ++ [(d.time, st.pds.length)] } with hst2
    have hfr2 : ∀ d2 ∈ rest, mapGet st2.pointByTime d2.time = none := by
      intro d2 hd2
      show mapGet (st.pointByTime ++ [(d.time, st.pds.length)]) d2.time = none
      exact mapGet_append_none _ _ _ _ (hfr d2 (List.mem_cons_of_mem _ hd2))
        (hhd d2 hd2)
    rw [ih st2 true hfr2 htl]
    have hr2 : st2.rows.length = st.rows.length + 1 := by
      show (st.rows ++ [_]).length = _
      simp
    have hp2 : st2.pds.length = st.pds.length + 1 := by
      show (st.pds ++ [_]).length = _
      simp
    rw [hr2, hp2]
    have hrows : st2.rows ++ freshRows rest = st.rows ++ freshRows (d :: rest) := by
      show (st.rows ++ [_]) ++ freshRows rest = _
      rw [List.append_assoc]
      rfl
    have hpds : st2.pds ++ freshPds series (st.rows.length + 1) rest =
        st.pds ++ freshPds series st.rows.length (d :: rest) := by
      show (st.pds ++ [_]) ++ freshPds series (st.rows.length + 1) rest = _
      rw [List.append_assoc]
      rfl
    have hmap : st2.pointByTime ++ freshMap (st.pds.length + 1) rest =
        st.pointByTime ++ freshMap st.pds.length (d :: rest) := by
      show (st.pointByTime ++ [_]) ++ freshMap (st.pds.length + 1) rest = _
      rw [List.append_assoc]
      rfl
    have haff : (true || decide (rest ≠ [])) = (aff || decide (d :: rest ≠ [])) := by
      rw [Bool.true_or, show decide (d :: rest ≠ []) = true from by simp, Bool.or_true]
    have hseq : st.rows.length :: seqFrom (st.rows.length + 1) rest =
        seqFrom st.rows.length (d :: rest) := rfl
    rw [hrows, hpds, hmap, haff, hseq]

instance : DecidableEq (Int × Nat × Int × List (Nat × PlotRowV)) := inferInstance

instance : DecidableEq (Nat × Int × Nat × Int × List (Nat × PlotRowV)) := inferInstance

theorem syncPrefix_nil_left (st : DLState) (ns : List SPoint) (i : Nat) :
    syncPrefix st [] ns i = (st, ns, none) := by
  cases ns with
  | nil => rfl
  | cons n ns2 => rfl

theorem set_append_cons {α : Type} (B : List α) (x y : α) (l : List α) :
    (B ++ x :: l).set B.length y = B ++ y :: l := by
  induction B with
  | nil => rfl
  | cons b bs ih =>
    show b :: (bs ++ x :: l).set bs.length y = _
    rw [ih]
    rfl

/-- The row objects of a freshly filled layer after the dense re-indexing of
`_replaceTimeScalePoints`: the row of item `k` carries index `i0 + k`. -/
def idxRows (i0 : Nat) : List DataItem → List PlotRowV
  | [] => []
  | d :: rest =>
    { index := i0, time := d.time, value := itemPlotValue d } :: idxRows (i0 + 1) rest

/-- The point data objects of a freshly filled layer after the dense
re-indexing: point `k` carries index `i0 + k` and maps the series to row
`r0 + k`. -/
def idxPds (series i0 r0 : Nat) : List DataItem → List PointData
  | [] => []
  | d :: rest =>
    { index := i0, timePoint := d.time, mapping := [(series, r0)] } ::
      idxPds series (i0 + 1) (r0 + 1) rest

/-- The row ids (starting at `r0`) of the value-bearing items of a data set:
the per-series row list `_setRowsToSeries` stores for a fresh ingestion. -/
def valIdx (r0 : Nat) : List DataItem → List Nat
  | [] => []
  | d :: rest =>
    if (itemPlotValue d).isSome then r0 :: valIdx (r0 + 1) rest else valIdx (r0 + 1) rest

theorem idxRows_length (X : List DataItem) : ∀ i0, (idxRows i0 X).length = X.length := by
  induction X with
  | nil => intro i0; rfl
  | cons d rest ih =>
    intro i0
    simp only [idxRows, List.length_cons, ih]

theorem idxPds_length (series : Nat) (X : List DataItem) :
    ∀ i0 r0, (idxPds series i0 r0 X).length = X.length := by
  induction X with
  | nil => intro i0 r0; rfl
  | cons d rest ih =>
    intro i0 r0
    simp only [idxPds, List.length_cons, ih]

theorem idxRows_getD (X : List DataItem) : ∀ i0 k, k < X.length →
    (idxRows i0 X).getD k default =
      { index := i0 + k, time := (X.getD k ⟨0, ItemValue.whitespace⟩).time,
        value := itemPlotValue (X.getD k ⟨0, ItemValue.whitespace⟩) } := by
  induction X with
  | nil => intro i0 k hk; cases hk
  | cons d rest ih =>
    intro i0 k hk
    cases k with
    | zero => rfl
    | succ k2 =>
      show (idxRows (i0 + 1) rest).getD k2 default = _
      rw [ih (i0 + 1) k2 (by simpa using hk)]
      rw [show i0 + 1 + k2 = i0 + (k2 + 1) from by omega]
      rfl

theorem idxPds_getD (series : Nat) (X : List DataItem) : ∀ i0 r0 k, k < X.length →
    (idxPds series i0 r0 X).getD k default =
      { index := i0 + k, timePoint := (X.getD k ⟨0, ItemValue.whitespace⟩).time,
        mapping := [(series, r0 + k)] } := by
  induction X with
  | nil => intro i0 r0 k hk; cases hk
  | cons d rest ih =>
    intro i0 r0 k hk
    cases k with
    | zero => rfl
    | succ k2 =>
      show (idxPds series (i0 + 1) (r0 + 1) rest).getD k2 default = _
      rw [ih (i0 + 1) (r0 + 1) k2 (by simpa using hk)]
      rw [show i0 + 1 + k2 = i0 + (k2 + 1) from by omega,
        show r0 + 1 + k2 = r0 + (k2 + 1) from by omega]
      rfl

theorem ptsOf_mem_time (X : List DataItem) : ∀ p0 sp, sp ∈ ptsOf p0 X →
    ∃ d ∈ X, sp.time = d.time := by
  induction X with
  | nil => intro p0 sp h; cases h
  | cons d rest ih =>
    intro p0 sp h
    rcases List.mem_cons.mp h with h1 | h1
    · exact ⟨d, List.mem_cons_self _ _, by rw [h1]⟩
    · obtain ⟨d2, hd2, he⟩ := ih (p0 + 1) sp h1
      exact ⟨d2, List.mem_cons_of_mem _ hd2, he⟩

theorem ptsOf_pairwise_lt (X : List DataItem) :
    ∀ p0, X.Pairwise (fun a b => a.time < b.time) →
      (ptsOf p0 X).Pairwise (fun a b => a.time < b.time) := by
  induction X with
  | nil => intro p0 _; exact List.Pairwise.nil
  | cons d rest ih =>
    intro p0 h
    obtain ⟨h1, h2⟩ := List.pairwise_cons.mp h
    refine List.pairwise_cons.mpr ⟨?_, ih (p0 + 1) h2⟩
    intro sp hsp
    obtain ⟨d2, hd2, he⟩ := ptsOf_mem_time rest (p0 + 1) sp hsp
    show ({ timeWeight := 0, time := d.time, pd := p0 } : SPoint).time < sp.time
    rw [he]
    exact h1 d2 hd2

theorem fillWeightsForPoints_getD_pd (tw : Option Int → Int → Nat) (pts : List SPoint)
    (start i : Nat) (hi : i < pts.length) :
    ((fillWeightsForPoints tw pts start).getD i default).pd = (pts.getD i default).pd := by
  unfold fillWeightsForPoints
  rw [List.getD_eq_getElem?_getD, List.getElem?_map, List.getElem?_range hi]
  simp only [Option.map_some', Option.getD_some]
  split
  · rfl
  · rfl

theorem fillWeightsForPoints_getD_time (tw : Option Int → Int → Nat) (pts : List SPoint)
    (start i : Nat) (hi : i < pts.length) :
    ((fillWeightsForPoints tw pts start).getD i default).time = (pts.getD i default).time := by
  unfold fillWeightsForPoints
  rw [List.getD_eq_getElem?_getD, List.getElem?_map, List.getElem?_range hi]
  simp only [Option.map_some', Option.getD_some]
  split
  · rfl
  · rfl

theorem freshMap_map_pair {α : Type} (X : List DataItem) :
    ∀ (p0 p2 : Nat) (f g : Nat → α),
    (∀ k, k < X.length → f (p0 + k) = g (p2 + k)) →
    (freshMap p0 X).map (fun e => (e.1, f e.2)) =
      (freshMap p2 X).map (fun e => (e.1, g e.2)) := by
  induction X with
  | nil => intro p0 p2 f g _; rfl
  | cons d rest ih =>
    intro p0 p2 f g h
    show (d.time, f p0) :: (freshMap (p0 + 1) rest).map (fun e => (e.1, f e.2)) =
      (d.time, g p2) :: (freshMap (p2 + 1) rest).map (fun e => (e.1, g e.2))
    have h0 : f p0 = g p2 := by
      have h1 := h 0 (by simp)
      simpa using h1
    have htail := ih (p0 + 1) (p2 + 1) f g (fun k hk => by
      have h2 := h (k + 1) (by simpa using hk)
      rw [show p0 + (k + 1) = p0 + 1 + k from by omega,
        show p2 + (k + 1) = p2 + 1 + k from by omega] at h2
      exact h2)
    rw [h0, htail]

theorem valIdx_map {α : Type} (X : List DataItem) :
    ∀ (r0 r2 : Nat) (f g : Nat → α),
    (∀ k, k < X.length → f (r0 + k) = g (r2 + k)) →
    (valIdx r0 X).map f = (valIdx r2 X).map g := by
  induction X with
  | nil => intro r0 r2 f g _; rfl
  | cons d rest ih =>
    intro r0 r2 f g h
    have htail := ih (r0 + 1) (r2 + 1) f g (fun k hk => by
      have h2 := h (k + 1) (by simpa using hk)
      rw [show r0 + (k + 1) = r0 + 1 + k from by omega,
        show r2 + (k + 1) = r2 + 1 + k from by omega] at h2
      exact h2)
    rw [show valIdx r0 (d :: rest) = if (itemPlotValue d).isSome then
        r0 :: valIdx (r0 + 1) rest else valIdx (r0 + 1) rest from rfl]
    rw [show valIdx r2 (d :: rest) = if (itemPlotValue d).isSome then
        r2 :: valIdx (r2 + 1) rest else valIdx (r2 + 1) rest from rfl]
    by_cases hc : (itemPlotValue d).isSome = true
    · rw [if_pos hc, if_pos hc, List.map_cons, List.map_cons]
      rw [show f r0 = g r2 from by simpa using h 0 (by simp)]
      rw [htail]
    · rw [if_neg hc, if_neg hc]
      exact htail

theorem assignIdx_fresh (series : Nat) (d : DataItem) (rest : List DataItem)
    (A : List PlotRowV) (B : List PointData) (i : Nat) (pbt : List (Int × Nat))
    (rbs : List (Nat × List Nat)) (lts : List (Nat × Int)) (srt : List SPoint) :
    assignIndexToPointData
      ⟨A ++ freshRows (d :: rest), B ++ freshPds series A.length (d :: rest), pbt, rbs, lts, srt⟩
      B.length i =
    ⟨A ++ { index := i, time := d.time, value := itemPlotValue d } :: freshRows rest,
     B ++ { index := i, timePoint := d.time, mapping := [(series, A.length)] } ::
       freshPds series (A.length + 1) rest,
     pbt, rbs, lts, srt⟩ := by
  have hpd : (B ++ freshPds series A.length (d :: rest)).getD B.length default =
      { index := 0, timePoint := d.time, mapping := [(series, A.length)] } := by
    rw [getD_append_right _ _ _ (Nat.le_refl _), Nat.sub_self]
    rfl
  have hrow : (A ++ freshRows (d :: rest)).getD A.length default =
      { index := 0, time := d.time, value := itemPlotValue d } := by
    rw [getD_append_right _ _ _ (Nat.le_refl _), Nat.sub_self]
    rfl
  have hsetp : (B ++ freshPds series A.length (d :: rest)).set B.length
        ({ index := i, timePoint := d.time, mapping := [(series, A.length)] } : PointData) =
      B ++ { index := i, timePoint := d.time, mapping := [(series, A.length)] } ::
        freshPds series (A.length + 1) rest := by
    rw [show freshPds series A.length (d :: rest) =
        ({ index := 0, timePoint := d.time, mapping := [(series, A.length)] } : PointData) ::
          freshPds series (A.length + 1) rest from rfl]
    rw [set_append_cons]
  have hsetr : (A ++ freshRows (d :: rest)).set A.length
        ({ index := i, time := d.time, value := itemPlotValue d } : PlotRowV) =
      A ++ { index := i, time := d.time, value := itemPlotValue d } :: freshRows rest := by
    rw [show freshRows (d :: rest) =
        ({ index := 0, time := d.time, value := itemPlotValue d } : PlotRowV) ::
          freshRows rest from rfl]
    rw [set_append_cons]
  rw [assignIndexToPointData]
  simp only [hpd]
  rw [show assignRows (A ++ freshRows (d :: rest)) i
        ({ index := 0, timePoint := d.time, mapping := [(series, A.length)] } :
          PointData).mapping =
      (A ++ freshRows (d :: rest)).set A.length
        { (A ++ freshRows (d :: rest)).getD A.length default with index := i } from rfl]
  rw [hrow]
  show (⟨(A ++ freshRows (d :: rest)).set A.length
      { index := i, time := d.time, value := itemPlotValue d },
    (B ++ freshPds series A.length (d :: rest)).set B.length
      { index := i, timePoint := d.time, mapping := [(series, A.length)] },
    pbt, rbs, lts, srt⟩ : DLState) = _
  rw [hsetp, hsetr]

theorem assign_fresh (series : Nat) (X : List DataItem) :
    ∀ (A : List PlotRowV) (B : List PointData) (i : Nat) (pbt : List (Int × Nat))
      (rbs : List (Nat × List Nat)) (lts : List (Nat × Int)) (srt : List SPoint),
    assignFromAux ⟨A ++ freshRows X, B ++ freshPds series A.length X, pbt, rbs, lts, srt⟩
        (ptsOf B.length X) i =
      ⟨A ++ idxRows i X, B ++ idxPds series i A.length X, pbt, rbs, lts, srt⟩ := by
  induction X with
  | nil => intro A B i pbt rbs lts srt; rfl
  | cons d rest ih =>
    intro A B i pbt rbs lts srt
    show assignFromAux
        (assignIndexToPointData
          ⟨A ++ freshRows (d :: rest), B ++ freshPds series A.length (d :: rest),
            pbt, rbs, lts, srt⟩ B.length i)
        (ptsOf (B.length + 1) rest) (i + 1) = _
    rw [assignIdx_fresh]
    set rowI : PlotRowV := { index := i, time := d.time, value := itemPlotValue d } with hrowI
    set pdI : PointData := { index := i, timePoint := d.time, mapping := [(series, A.length)] } with hpdI
    rw [show A ++ rowI :: freshRows rest = (A ++ [rowI]) ++ freshRows rest from by
      rw [List.append_assoc]; rfl]
    rw [show B ++ pdI :: freshPds series (A.length + 1) rest =
        (B ++ [pdI]) ++ freshPds series (A.length + 1) rest from by
      rw [List.append_assoc]; rfl]
    have hlA : (A ++ [rowI]).length = A.length + 1 := by simp
    have hlB : (B ++ [pdI]).length = B.length + 1 := by simp
    rw [← hlA, ← hlB]
    rw [ih (A ++ [rowI]) (B ++ [pdI]) (i + 1) pbt rbs lts srt]
    rw [List.append_assoc, List.append_assoc, hlA]
    rfl

theorem sync_fresh (series : Nat) (X : List DataItem) :
    ∀ (A : List PlotRowV) (B : List PointData) (old : List SPoint) (i : Nat)
      (pbt : List (Int × Nat)) (rbs : List (Nat × List Nat)) (lts : List (Nat × Int))
      (srt : List SPoint),
    old.length = X.length →
    (∀ j, j < X.length →
      (old.getD j default).time = (X.getD j ⟨0, ItemValue.whitespace⟩).time) →
    (syncPrefix ⟨A ++ freshRows X, B ++ freshPds series A.length X, pbt, rbs, lts, srt⟩
        old (ptsOf B.length X) i).1 =
      ⟨A ++ idxRows i X, B ++ idxPds series i A.length X, pbt, rbs, lts, srt⟩ ∧
    (syncPrefix ⟨A ++ freshRows X, B ++ freshPds series A.length X, pbt, rbs, lts, srt⟩
        old (ptsOf B.length X) i).2.2 = none ∧
    (syncPrefix ⟨A ++ freshRows X, B ++ freshPds series A.length X, pbt, rbs, lts, srt⟩
        old (ptsOf B.length X) i).2.1.length = X.length := by
  induction X with
  | nil =>
    intro A B old i pbt rbs lts srt hlen htime
    have hold : old = [] := List.length_eq_zero.mp hlen
    subst hold
    exact ⟨rfl, rfl, rfl⟩
  | cons d rest ih =>
    intro A B old i pbt rbs lts srt hlen htime
    cases old with
    | nil => simp at hlen
    | cons o old2 =>
      have hlen2 : old2.length = rest.length := by simpa using hlen
      have hot : o.time = d.time := by
        have h1 := htime 0 (by simp)
        simpa using h1
      set pt : SPoint := { timeWeight := 0, time := d.time, pd := B.length } with hptdef
      have hcond : ¬ (o.time ≠ pt.time) := by
        show ¬ (o.time ≠ d.time)
        simpa using hot
      rw [show ptsOf B.length (d :: rest) = pt :: ptsOf (B.length + 1) rest from rfl]
      have hred : syncPrefix
          (⟨A ++ freshRows (d :: rest), B ++ freshPds series A.length (d :: rest),
            pbt, rbs, lts, srt⟩ : DLState)
          (o :: old2) (pt :: ptsOf (B.length + 1) rest) i =
          ((syncPrefix
              (assignIndexToPointData
                ⟨A ++ freshRows (d :: rest), B ++ freshPds series A.length (d :: rest),
                  pbt, rbs, lts, srt⟩ B.length i)
              old2 (ptsOf (B.length + 1) rest) (i + 1)).1,
            { pt with timeWeight := o.timeWeight } ::
              (syncPrefix
                (assignIndexToPointData
                  ⟨A ++ freshRows (d :: rest), B ++ freshPds series A.length (d :: rest),
                    pbt, rbs, lts, srt⟩ B.length i)
                old2 (ptsOf (B.length + 1) rest) (i + 1)).2.1,
            (syncPrefix
              (assignIndexToPointData
                ⟨A ++ freshRows (d :: rest), B ++ freshPds series A.length (d :: rest),
                  pbt, rbs, lts, srt⟩ B.length i)
              old2 (ptsOf (B.length + 1) rest) (i + 1)).2.2) := by
        conv_lhs => unfold syncPrefix
        rw [if_neg hcond]
      rw [hred]
      rw [assignIdx_fresh]
      set rowI : PlotRowV := { index := i, time := d.time, value := itemPlotValue d } with hrowI
      set pdI : PointData := { index := i, timePoint := d.time, mapping := [(series, A.length)] } with hpdI
      rw [show A ++ rowI :: freshRows rest = (A ++ [rowI]) ++ freshRows rest from by
        rw [List.append_assoc]; rfl]
      rw [show B ++ pdI :: freshPds series (A.length + 1) rest =
          (B ++ [pdI]) ++ freshPds series (A.length + 1) rest from by
        rw [List.append_assoc]; rfl]
      have hlA : (A ++ [rowI]).length = A.length + 1 := by simp
      have hlB : (B ++ [pdI]).length = B.length + 1 := by simp
      rw [← hlA, ← hlB]
      have htime2 : ∀ j, j < rest.length →
          (old2.getD j default).time = (rest.getD j ⟨0, ItemValue.whitespace⟩).time := by
        intro j hj
        exact htime (j + 1) (by simpa using hj)
      obtain ⟨ih1, ih2, ih3⟩ := ih (A ++ [rowI]) (B ++ [pdI]) old2 (i + 1) pbt rbs lts srt
        hlen2 htime2
      refine ⟨?_, ?_, ?_⟩
      · show (syncPrefix _ old2 (ptsOf (B ++ [pdI]).length rest) (i + 1)).1 = _
        rw [ih1]
        rw [List.append_assoc, List.append_assoc, hlA]
        rfl
      · show (syncPrefix _ old2 (ptsOf (B ++ [pdI]).length rest) (i + 1)).2.2 = none
        exact ih2
      · show ({ pt with timeWeight := o.timeWeight } ::
            (syncPrefix _ old2 (ptsOf (B ++ [pdI]).length rest) (i + 1)).2.1).length = _
        rw [List.length_cons, ih3]
        rfl

theorem filter_fresh (X : List DataItem) :
    ∀ (B : List PlotRowV),
    (seqFrom B.length X).filter
        (fun rid => isSeriesPlotRow (getRowA (B ++ freshRows X) rid)) =
      valIdx B.length X := by
  induction X with
  | nil => intro B; rfl
  | cons d rest ih =>
    intro B
    rw [show seqFrom B.length (d :: rest) = B.length :: seqFrom (B.length + 1) rest from rfl]
    rw [List.filter_cons]
    have hval : isSeriesPlotRow (getRowA (B ++ freshRows (d :: rest)) B.length) =
        (itemPlotValue d).isSome := by
      show isSeriesPlotRow ((B ++ freshRows (d :: rest)).getD B.length default) = _
      rw [getD_append_right _ _ _ (Nat.le_refl _), Nat.sub_self]
      rfl
    set rowD : PlotRowV := { index := 0, time := d.time, value := itemPlotValue d } with hrowD
    rw [show B ++ freshRows (d :: rest) = (B ++ [rowD]) ++ freshRows rest from by
      rw [List.append_assoc]; rfl] at hval ⊢
    have hlB : (B ++ [rowD]).length = B.length + 1 := by simp
    rw [← hlB]
    rw [ih (B ++ [rowD])]
    rw [hlB]
    simp only [hval]
    rfl

theorem collect_fresh (series : Nat) (X : List DataItem) :
    ∀ (B : List PointData) (r0 : Nat),
    (freshMap B.length X).map (fun tp =>
        ({ timeWeight := 0,
           time := ((B ++ freshPds series r0 X).getD tp.2 default).timePoint,
           pd := tp.2 } : SPoint)) =
      ptsOf B.length X := by
  induction X with
  | nil => intro B r0; rfl
  | cons d rest ih =>
    intro B r0
    rw [show freshMap B.length (d :: rest) =
      (d.time, B.length) :: freshMap (B.length + 1) rest from rfl]
    rw [List.map_cons]
    have hhd : ((B ++ freshPds series r0 (d :: rest)).getD B.length default).timePoint =
        d.time := by
      rw [getD_append_right _ _ _ (Nat.le_refl _), Nat.sub_self]
      rfl
    set pdD : PointData := { index := 0, timePoint := d.time, mapping := [(series, r0)] } with hpdD
    have hBA : B ++ freshPds series r0 (d :: rest) =
        (B ++ [pdD]) ++ freshPds series (r0 + 1) rest := by
      rw [List.append_assoc]
      rfl
    rw [hBA] at hhd ⊢
    have hlB : (B ++ [pdD]).length = B.length + 1 := by simp
    show ({ timeWeight := 0, time := (((B ++ [pdD]) ++ freshPds series (r0 + 1) rest).getD B.length default).timePoint, pd := B.length } : SPoint) :: _ = _
    rw [hhd]
    rw [← hlB]
    rw [ih (B ++ [pdD]) (r0 + 1)]
    rw [hlB]
    rfl

/-- The timestamp of the last item of a data set. -/
def lastT (X : List DataItem) : Int := (X.getD (X.length - 1) ⟨0, ItemValue.whitespace⟩).time

/-- The closed form of the layer state after `setSeriesData` of a non-empty
strictly ascending data set `X` on a fresh layer. -/
def freshLayer (tw : Option Int → Int → Nat) (series : Nat) (X : List DataItem) : DLState :=
  ⟨idxRows 0 X, idxPds series 0 0 X, freshMap 0 X, [(series, valIdx 0 X)],
    [(series, lastT X)], fillWeightsForPoints tw (ptsOf 0 X) 0⟩

/-- The closed form of the layer state after repeating the same
`setSeriesData` call on `freshLayer`: the arenas have grown by a second
copy of the objects (mirroring the fresh JS objects the second call
builds), while every observable field is unchanged. -/
def freshLayer2 (tw : Option Int → Int → Nat) (series : Nat) (X : List DataItem) : DLState :=
  ⟨idxRows 0 X ++ idxRows 0 X, idxPds series 0 0 X ++ idxPds series 0 X.length X,
    freshMap X.length X, [(series, valIdx X.length X)],
    [(series, lastT X)], fillWeightsForPoints tw (ptsOf 0 X) 0⟩

theorem replaceTimeScalePoints_eq (tw : Option Int → Int → Nat) (st : DLState)
    (new : List SPoint) (r1 : DLState) (r21 : List SPoint) (r22 : Option Nat)
    (hr : syncPrefix st st.sorted new 0 = (r1, r21, r22)) :
    replaceTimeScalePoints tw st new =
      (if breakToIndex r22 r1.sorted.length r21.length = -1 then (r1, -1)
       else ({ assignFrom r1 r21 (breakToIndex r22 r1.sorted.length r21.length).toNat with
               sorted := fillWeightsForPoints tw r21
                 (breakToIndex r22 r1.sorted.length r21.length).toNat },
             breakToIndex r22 r1.sorted.length r21.length)) := by
  unfold replaceTimeScalePoints
  rw [hr]

theorem setSeriesDataMain_eq (tw : Option Int → Int → Nat) (st1 : DLState) (series : Nat)
    (aff : Bool) (data : List DataItem) (i1 : DLState) (i22 : List Nat)
    (hi : ingestData st1 series aff data = (i1, true, i22)) :
    setSeriesDataMain tw st1 series false aff data =
      replaceTimeScalePoints tw (setRowsToSeries i1 series i22)
        (collectTimeScalePoints (setRowsToSeries i1 series i22)) := by
  unfold setSeriesDataMain
  rw [hi]
  rfl

theorem setSeriesData_eq (tw : Option Int → Int → Nat) (st : DLState) (series : Nat)
    (data : List DataItem) (u1 : DLState) (u21 u22 : Bool) (m1 : DLState) (m2 : Int)
    (hu : setSeriesDataUnbind st series = (u1, u21, u22))
    (hm : setSeriesDataMain tw u1 series u21 u22 data = (m1, m2)) :
    setSeriesData tw st series data =
      (m1, getUpdateResponse m1 series m2
        (seriesUpdateInfo m1 (mapGet m1.rowsBySeries series)
          (mapGet st.rowsBySeries series))) := by
  unfold setSeriesData
  rw [hu]
  dsimp only
  rw [hm]

theorem setSeriesData_fresh (tw : Option Int → Int → Nat) (series : Nat) (X : List DataItem)
    (hasc : X.Pairwise (fun a b => a.time < b.time)) (hne : X ≠ []) :
    (setSeriesData tw DLState.empty series X).1 = freshLayer tw series X := by
  have hnlen : X.length ≠ 0 := fun hc => hne (List.length_eq_zero.mp hc)
  have hpne : X.Pairwise (fun a b => a.time ≠ b.time) :=
    List.Pairwise.imp (fun h => ne_of_lt h) hasc
  have hdec : decide (X ≠ []) = true := decide_eq_true hne
  have hing := ingest_fresh series X DLState.empty false (fun d _ => rfl) hpne
  have hscrut : ingestData DLState.empty series false X =
      (⟨freshRows X, freshPds series 0 X, freshMap 0 X, [], [], []⟩, true, seqFrom 0 X) := by
    rw [hing, hdec]
    rfl
  have hfilter : (seqFrom 0 X).filter
      (fun rid => isSeriesPlotRow (getRowA (freshRows X) rid)) = valIdx 0 X := by
    have h := filter_fresh X []
    simpa using h
  have hlast : getRowA (freshRows X) ((seqFrom 0 X).getLastD 0) =
      { index := 0, time := (X.getD (X.length - 1) ⟨0, ItemValue.whitespace⟩).time,
        value := itemPlotValue (X.getD (X.length - 1) ⟨0, ItemValue.whitespace⟩) } := by
    rw [seqFrom_getLastD X hne 0, Nat.zero_add]
    show (freshRows X).getD (X.length - 1) default = _
    rw [freshRows_getD X (X.length - 1) (by omega)]
  have hst4 : setRowsToSeries
      (⟨freshRows X, freshPds series 0 X, freshMap 0 X, [], [], []⟩ : DLState) series
      (seqFrom 0 X) =
      ⟨freshRows X, freshPds series 0 X, freshMap 0 X, [(series, valIdx 0 X)],
        [(series, lastT X)], []⟩ := by
    have hc : (seqFrom 0 X).length ≠ 0 := by
      rw [seqFrom_length]
      exact hnlen
    unfold setRowsToSeries
    rw [if_pos hc]
    show (⟨freshRows X, freshPds series 0 X, freshMap 0 X,
      mapSet [] series ((seqFrom 0 X).filter
        (fun rid => isSeriesPlotRow (getRowA (freshRows X) rid))),
      mapSet [] series (getRowA (freshRows X) ((seqFrom 0 X).getLastD 0)).time,
      []⟩ : DLState) = _
    rw [hfilter, hlast]
    rfl
  have hcol : collectTimeScalePoints
      (⟨freshRows X, freshPds series 0 X, freshMap 0 X, [(series, valIdx 0 X)],
        [(series, lastT X)], []⟩ : DLState) = ptsOf 0 X := by
    unfold collectTimeScalePoints
    have h := collect_fresh series X [] 0
    simp only [List.length_nil, List.nil_append] at h
    show sortByTime ((freshMap 0 X).map (fun tp =>
      ({ timeWeight := 0, time := ((freshPds series 0 X).getD tp.2 default).timePoint, pd := tp.2 } : SPoint))) = _
    rw [h]
    exact sortByTime_of_sorted _ (ptsOf_pairwise_lt X 0 hasc)
  have hrnil : syncPrefix
      (⟨freshRows X, freshPds series 0 X, freshMap 0 X, [(series, valIdx 0 X)],
        [(series, lastT X)], []⟩ : DLState)
      (⟨freshRows X, freshPds series 0 X, freshMap 0 X, [(series, valIdx 0 X)],
        [(series, lastT X)], []⟩ : DLState).sorted (ptsOf 0 X) 0 =
      (⟨freshRows X, freshPds series 0 X, freshMap 0 X, [(series, valIdx 0 X)],
        [(series, lastT X)], []⟩, ptsOf 0 X, none) :=
    syncPrefix_nil_left _ _ _
  have hb : breakToIndex none
      (⟨freshRows X, freshPds series 0 X, freshMap 0 X, [(series, valIdx 0 X)],
        [(series, lastT X)], []⟩ : DLState).sorted.length (ptsOf 0 X).length = 0 := by
    show breakToIndex none ([] : List SPoint).length (ptsOf 0 X).length = 0
    rw [ptsOf_length]
    show (if (0 : Nat) ≠ X.length then ((min 0 X.length : Nat) : Int) else -1) = 0
    rw [if_pos (Ne.symm hnlen), Nat.zero_min]
    rfl
  have hassign : assignFrom
      (⟨freshRows X, freshPds series 0 X, freshMap 0 X, [(series, valIdx 0 X)],
        [(series, lastT X)], []⟩ : DLState) (ptsOf 0 X) ((0 : Int).toNat) =
      ⟨idxRows 0 X, idxPds series 0 0 X, freshMap 0 X, [(series, valIdx 0 X)],
        [(series, lastT X)], []⟩ := by
    show assignFromAux
      (⟨freshRows X, freshPds series 0 X, freshMap 0 X, [(series, valIdx 0 X)],
        [(series, lastT X)], []⟩ : DLState) (ptsOf 0 X) 0 = _
    exact assign_fresh series X [] [] 0 (freshMap 0 X) [(series, valIdx 0 X)]
      [(series, lastT X)] []
  have e1 : (setSeriesData tw DLState.empty series X).1 =
      (setSeriesDataMain tw DLState.empty series false false X).1 := rfl
  rw [e1]
  rw [setSeriesDataMain_eq tw DLState.empty series false X _ _ hscrut]
  rw [hst4]
  rw [hcol]
  rw [replaceTimeScalePoints_eq tw _ _ _ _ _ hrnil]
  rw [hb]
  rw [if_neg (by decide : ¬ ((0 : Int) = -1))]
  rw [hassign]
  rfl

theorem replaceTimeScalePoints_eq2 (tw : Option Int → Int → Nat) (st : DLState)
    (new : List SPoint) (r1 : DLState) (r22 : Option Nat)
    (h1 : (syncPrefix st st.sorted new 0).1 = r1)
    (h3 : (syncPrefix st st.sorted new 0).2.2 = r22) :
    replaceTimeScalePoints tw st new =
      (if breakToIndex r22 r1.sorted.length (syncPrefix st st.sorted new 0).2.1.length = -1
       then (r1, -1)
       else ({ assignFrom r1 ((syncPrefix st st.sorted new 0).2.1)
                 (breakToIndex r22 r1.sorted.length
                   (syncPrefix st st.sorted new 0).2.1.length).toNat with
               sorted := fillWeightsForPoints tw ((syncPrefix st st.sorted new 0).2.1)
                 (breakToIndex r22 r1.sorted.length
                   (syncPrefix st st.sorted new 0).2.1.length).toNat },
             breakToIndex r22 r1.sorted.length
               (syncPrefix st st.sorted new 0).2.1.length)) := by
  subst h1
  subst h3
  unfold replaceTimeScalePoints
  rfl

theorem setSeriesDataMain_fresh_again (tw : Option Int → Int → Nat) (series : Nat)
    (X : List DataItem) (hasc : X.Pairwise (fun a b => a.time < b.time)) (hne : X ≠ []) :
    setSeriesDataMain tw
      (⟨idxRows 0 X, idxPds series 0 0 X, [], [(series, valIdx 0 X)], [(series, lastT X)],
        fillWeightsForPoints tw (ptsOf 0 X) 0⟩ : DLState) series false true X =
      (freshLayer2 tw series X, -1) := by
  have hnlen : X.length ≠ 0 := fun hc => hne (List.length_eq_zero.mp hc)
  have hpne : X.Pairwise (fun a b => a.time ≠ b.time) :=
    List.Pairwise.imp (fun h => ne_of_lt h) hasc
  have hing := ingest_fresh series X
    (⟨idxRows 0 X, idxPds series 0 0 X, [], [(series, valIdx 0 X)], [(series, lastT X)],
      fillWeightsForPoints tw (ptsOf 0 X) 0⟩ : DLState) true (fun d _ => rfl) hpne
  have hdec : decide (X ≠ []) = true := decide_eq_true hne
  have hscrut : ingestData
      (⟨idxRows 0 X, idxPds series 0 0 X, [], [(series, valIdx 0 X)], [(series, lastT X)],
        fillWeightsForPoints tw (ptsOf 0 X) 0⟩ : DLState) series true X =
      (⟨idxRows 0 X ++ freshRows X,
        idxPds series 0 0 X ++ freshPds series (idxRows 0 X).length X,
        freshMap (idxPds series 0 0 X).length X, [(series, valIdx 0 X)], [(series, lastT X)],
        fillWeightsForPoints tw (ptsOf 0 X) 0⟩, true, seqFrom (idxRows 0 X).length X) := by
    rw [hing]
    rfl
  have hlast2 : getRowA (idxRows 0 X ++ freshRows X)
      ((seqFrom (idxRows 0 X).length X).getLastD 0) =
      { index := 0, time := (X.getD (X.length - 1) ⟨0, ItemValue.whitespace⟩).time,
        value := itemPlotValue (X.getD (X.length - 1) ⟨0, ItemValue.whitespace⟩) } := by
    rw [seqFrom_getLastD X hne]
    show (idxRows 0 X ++ freshRows X).getD ((idxRows 0 X).length + (X.length - 1)) default = _
    rw [getD_append_right _ _ _ (Nat.le_add_right _ _)]
    rw [show (idxRows 0 X).length + (X.length - 1) - (idxRows 0 X).length = X.length - 1 from
      by omega]
    rw [freshRows_getD X (X.length - 1) (by omega)]
  have hst4 : setRowsToSeries
      (⟨idxRows 0 X ++ freshRows X,
        idxPds series 0 0 X ++ freshPds series (idxRows 0 X).length X,
        freshMap (idxPds series 0 0 X).length X, [(series, valIdx 0 X)], [(series, lastT X)],
        fillWeightsForPoints tw (ptsOf 0 X) 0⟩ : DLState) series
      (seqFrom (idxRows 0 X).length X) =
      ⟨idxRows 0 X ++ freshRows X,
        idxPds series 0 0 X ++ freshPds series (idxRows 0 X).length X,
        freshMap (idxPds series 0 0 X).length X,
        [(series, valIdx (idxRows 0 X).length X)], [(series, lastT X)],
        fillWeightsForPoints tw (ptsOf 0 X) 0⟩ := by
    have hc : (seqFrom (idxRows 0 X).length X).length ≠ 0 := by
      rw [seqFrom_length]
      exact hnlen
    unfold setRowsToSeries
    rw [if_pos hc]
    show (⟨idxRows 0 X ++ freshRows X,
      idxPds series 0 0 X ++ freshPds series (idxRows 0 X).length X,
      freshMap (idxPds series 0 0 X).length X,
      mapSet [(series, valIdx 0 X)] series ((seqFrom (idxRows 0 X).length X).filter
        (fun rid => isSeriesPlotRow (getRowA (idxRows 0 X ++ freshRows X) rid))),
      mapSet [(series, lastT X)] series
        (getRowA (idxRows 0 X ++ freshRows X)
          ((seqFrom (idxRows 0 X).length X).getLastD 0)).time,
      fillWeightsForPoints tw (ptsOf 0 X) 0⟩ : DLState) = _
    rw [filter_fresh X (idxRows 0 X), hlast2]
    simp [mapSet, lastT]
  have hcol : collectTimeScalePoints
      (⟨idxRows 0 X ++ freshRows X,
        idxPds series 0 0 X ++ freshPds series (idxRows 0 X).length X,
        freshMap (idxPds series 0 0 X).length X,
        [(series, valIdx (idxRows 0 X).length X)], [(series, lastT X)],
        fillWeightsForPoints tw (ptsOf 0 X) 0⟩ : DLState) =
      ptsOf (idxPds series 0 0 X).length X := by
    unfold collectTimeScalePoints
    show sortByTime ((freshMap (idxPds series 0 0 X).length X).map (fun tp =>
      ({ timeWeight := 0, time := ((idxPds series 0 0 X ++ freshPds series (idxRows 0 X).length X).getD tp.2 default).timePoint, pd := tp.2 } : SPoint))) = _
    rw [collect_fresh series X (idxPds series 0 0 X) (idxRows 0 X).length]
    exact sortByTime_of_sorted _ (ptsOf_pairwise_lt X _ hasc)
  have hWlen : (fillWeightsForPoints tw (ptsOf 0 X) 0).length = X.length := by
    rw [fillWeightsForPoints_length, ptsOf_length]
  have hWtime : ∀ j, j < X.length →
      (((fillWeightsForPoints tw (ptsOf 0 X) 0).getD j default).time =
        (X.getD j ⟨0, ItemValue.whitespace⟩).time) := by
    intro j hj
    rw [fillWeightsForPoints_getD_time tw (ptsOf 0 X) 0 j (by rw [ptsOf_length]; exact hj)]
    rw [ptsOf_getD X 0 j hj]
  obtain ⟨hs1, hs2, hs3⟩ := sync_fresh series X (idxRows 0 X) (idxPds series 0 0 X)
    (fillWeightsForPoints tw (ptsOf 0 X) 0) 0 (freshMap (idxPds series 0 0 X).length X)
    [(series, valIdx (idxRows 0 X).length X)] [(series, lastT X)]
    (fillWeightsForPoints tw (ptsOf 0 X) 0) hWlen hWtime
  rw [setSeriesDataMain_eq tw _ series true X _ _ hscrut]
  rw [hst4]
  rw [hcol]
  rw [replaceTimeScalePoints_eq2 tw _ _ _ none hs1 hs2]
  have hb2 : breakToIndex none
      (⟨idxRows 0 X ++ idxRows 0 X,
        idxPds series 0 0 X ++ idxPds series 0 (idxRows 0 X).length X,
        freshMap (idxPds series 0 0 X).length X,
        [(series, valIdx (idxRows 0 X).length X)], [(series, lastT X)],
        fillWeightsForPoints tw (ptsOf 0 X) 0⟩ : DLState).sorted.length
      (syncPrefix
        (⟨idxRows 0 X ++ freshRows X,
          idxPds series 0 0 X ++ freshPds series (idxRows 0 X).length X,
          freshMap (idxPds series 0 0 X).length X,
          [(series, valIdx (idxRows 0 X).length X)], [(series, lastT X)],
          fillWeightsForPoints tw (ptsOf 0 X) 0⟩ : DLState)
        (fillWeightsForPoints tw (ptsOf 0 X) 0)
        (ptsOf (idxPds series 0 0 X).length X) 0).2.1.length = -1 := by
    rw [hs3]
    show breakToIndex none (fillWeightsForPoints tw (ptsOf 0 X) 0).length X.length = -1
    rw [hWlen]
    show (if X.length ≠ X.length then ((min X.length X.length : Nat) : Int) else -1) = -1
    rw [if_neg (fun h => h rfl)]
  rw [hb2]
  rw [if_pos rfl]
  rw [idxRows_length X 0, idxPds_length series X 0 0]
  rfl

theorem setSeriesData_fresh_again (tw : Option Int → Int → Nat) (series : Nat)
    (X : List DataItem) (hasc : X.Pairwise (fun a b => a.time < b.time)) (hne : X ≠ []) :
    setSeriesData tw (freshLayer tw series X) series X =
      (freshLayer2 tw series X,
       getUpdateResponse (freshLayer2 tw series X) series (-1)
         (seriesUpdateInfo (freshLayer2 tw series X)
           (mapGet (freshLayer2 tw series X).rowsBySeries series)
           (mapGet (freshLayer tw series X).rowsBySeries series))) := by
  have hg : mapGet (freshLayer tw series X).rowsBySeries series = some (valIdx 0 X) := by
    show mapGet [(series, valIdx 0 X)] series = _
    simp [mapGet]
  have hu : setSeriesDataUnbind (freshLayer tw series X) series =
      (⟨idxRows 0 X, idxPds series 0 0 X, [], [(series, valIdx 0 X)], [(series, lastT X)],
        fillWeightsForPoints tw (ptsOf 0 X) 0⟩, false, true) := by
    unfold setSeriesDataUnbind
    simp only [hg]
    rw [if_pos (show (freshLayer tw series X).rowsBySeries.length = 1 from rfl)]
    rfl
  exact setSeriesData_eq tw (freshLayer tw series X) series X _ false true
    (freshLayer2 tw series X) (-1) hu (setSeriesDataMain_fresh_again tw series X hasc hne)

theorem derefRows_fresh (tw : Option Int → Int → Nat) (series : Nat) (X : List DataItem) :
    derefRows (freshLayer2 tw series X) (valIdx X.length X) =
      derefRows (freshLayer tw series X) (valIdx 0 X) := by
  have hrowB : ∀ k, k < X.length →
      rowAt (freshLayer2 tw series X) (X.length + k) = rowAt (freshLayer tw series X) k := by
    intro k hk
    show (idxRows 0 X ++ idxRows 0 X).getD (X.length + k) default =
      (idxRows 0 X).getD k default
    rw [getD_append_right _ _ _ (by rw [idxRows_length]; omega)]
    rw [idxRows_length]
    rw [show X.length + k - X.length = k from by omega]
  show (valIdx X.length X).map (getRowA (idxRows 0 X ++ idxRows 0 X)) =
    (valIdx 0 X).map (getRowA (idxRows 0 X))
  exact valIdx_map X X.length 0 _ _ (fun k hk => by
    show rowAt (freshLayer2 tw series X) (X.length + k) =
      rowAt (freshLayer tw series X) (0 + k)
    rw [Nat.zero_add]
    exact hrowB k hk)

theorem freshLayer2_obs (tw : Option Int → Int → Nat) (series : Nat) (X : List DataItem) :
    DLState.obs (freshLayer2 tw series X) = DLState.obs (freshLayer tw series X) := by
  have hpd1 : ∀ k, k < X.length → pdAt (freshLayer tw series X) k =
      { index := k, timePoint := (X.getD k ⟨0, ItemValue.whitespace⟩).time,
        mapping := [(series, k)] } := by
    intro k hk
    show (idxPds series 0 0 X).getD k default = _
    rw [idxPds_getD series X 0 0 k hk]
    rw [Nat.zero_add]
  have hpdA : ∀ k, k < X.length →
      pdAt (freshLayer2 tw series X) k = pdAt (freshLayer tw series X) k := by
    intro k hk
    show (idxPds series 0 0 X ++ idxPds series 0 X.length X).getD k default =
      (idxPds series 0 0 X).getD k default
    exact getD_append_lt _ _ _ (by rw [idxPds_length]; exact hk)
  have hpd2 : ∀ k, k < X.length → pdAt (freshLayer2 tw series X) (X.length + k) =
      { index := k, timePoint := (X.getD k ⟨0, ItemValue.whitespace⟩).time,
        mapping := [(series, X.length + k)] } := by
    intro k hk
    show (idxPds series 0 0 X ++ idxPds series 0 X.length X).getD (X.length + k) default = _
    rw [getD_append_right _ _ _ (by rw [idxPds_length]; omega)]
    rw [idxPds_length]
    rw [show X.length + k - X.length = k from by omega]
    rw [idxPds_getD series X 0 X.length k hk]
    rw [Nat.zero_add]
  have hrowA : ∀ k, k < X.length →
      rowAt (freshLayer2 tw series X) k = rowAt (freshLayer tw series X) k := by
    intro k hk
    show (idxRows 0 X ++ idxRows 0 X).getD k default = (idxRows 0 X).getD k default
    exact getD_append_lt _ _ _ (by rw [idxRows_length]; exact hk)
  have hrowB : ∀ k, k < X.length →
      rowAt (freshLayer2 tw series X) (X.length + k) = rowAt (freshLayer tw series X) k := by
    intro k hk
    show (idxRows 0 X ++ idxRows 0 X).getD (X.length + k) default =
      (idxRows 0 X).getD k default
    rw [getD_append_right _ _ _ (by rw [idxRows_length]; omega)]
    rw [idxRows_length]
    rw [show X.length + k - X.length = k from by omega]
  have hO1 : ∀ k, k < X.length →
      obsPd (freshLayer2 tw series X) k = obsPd (freshLayer tw series X) k := by
    intro k hk
    unfold obsPd
    rw [hpdA k hk, hpd1 k hk]
    simp only [List.map_cons, List.map_nil]
    rw [hrowA k hk]
  have hO2 : ∀ k, k < X.length →
      obsPd (freshLayer2 tw series X) (X.length + k) = obsPd (freshLayer tw series X) k := by
    intro k hk
    unfold obsPd
    rw [hpd2 k hk, hpd1 k hk]
    simp only [List.map_cons, List.map_nil]
    rw [hrowB k hk]
  have hWlen : (fillWeightsForPoints tw (ptsOf 0 X) 0).length = X.length := by
    rw [fillWeightsForPoints_length, ptsOf_length]
  have c1 : (freshMap X.length X).map
        (fun e => (e.1, obsPd (freshLayer2 tw series X) e.2)) =
      (freshMap 0 X).map (fun e => (e.1, obsPd (freshLayer tw series X) e.2)) :=
    freshMap_map_pair X X.length 0 _ _ (fun k hk => by
      rw [Nat.zero_add]
      exact hO2 k hk)
  have c2 := derefRows_fresh tw series X
  have c4 : (fillWeightsForPoints tw (ptsOf 0 X) 0).map
        (fun sp => (sp.timeWeight, sp.time, obsPd (freshLayer2 tw series X) sp.pd)) =
      (fillWeightsForPoints tw (ptsOf 0 X) 0).map
        (fun sp => (sp.timeWeight, sp.time, obsPd (freshLayer tw series X) sp.pd)) := by
    apply List.map_congr_left
    intro sp hsp
    obtain ⟨j, hj, hje⟩ := mem_getD _ _ hsp
    have hjX : j < X.length := by
      rw [hWlen] at hj
      exact hj
    have hpd : sp.pd = j := by
      rw [← hje]
      rw [fillWeightsForPoints_getD_pd tw (ptsOf 0 X) 0 j (by rw [ptsOf_length]; exact hjX)]
      rw [ptsOf_getD X 0 j hjX]
      show 0 + j = j
      exact Nat.zero_add j
    rw [hpd, hO1 j hjX]
  show ((freshMap X.length X).map (fun e => (e.1, obsPd (freshLayer2 tw series X) e.2)),
    [(series, derefRows (freshLayer2 tw series X) (valIdx X.length X))],
    [(series, lastT X)],
    (fillWeightsForPoints tw (ptsOf 0 X) 0).map
      (fun sp => (sp.timeWeight, sp.time, obsPd (freshLayer2 tw series X) sp.pd))) =
    ((freshMap 0 X).map (fun e => (e.1, obsPd (freshLayer tw series X) e.2)),
    [(series, derefRows (freshLayer tw series X) (valIdx 0 X))],
    [(series, lastT X)],
    (fillWeightsForPoints tw (ptsOf 0 X) 0).map
      (fun sp => (sp.timeWeight, sp.time, obsPd (freshLayer tw series X) sp.pd)))
  rw [c1, c2, c4]

/-- The data sets of the C5 counterexample: `c5X` is valid and strictly
time-ascending. -/
def c5X : List DataItem := [⟨1, ItemValue.whitespace⟩, ⟨2, ItemValue.single 5⟩]

def c5Y : List DataItem := [⟨1, ItemValue.single 6⟩]

/-- A state reached by public operations only: two `setSeriesData(1, c5X)`
calls followed by `setSeriesData(2, c5Y)`. -/
def c5Base : DLState :=
  (setSeriesData twZero
    (setSeriesData twZero (setSeriesData twZero DLState.empty 1 c5X).1 1 c5X).1 2 c5Y).1

theorem getUpdateResponse_neg_one (st : DLState) (series : Nat) (l : List Nat)
    (info : Option Bool) (hg : mapGet st.rowsBySeries series = some l) :
    getUpdateResponse st series (-1) info =
      { series := [(series, { data := derefRows st l, info := info })],
        baseIndex := getBaseIndex st,
        points := none,
        firstChangedPointIndex := none } := by
  unfold getUpdateResponse
  rw [if_neg (fun h => h rfl)]
  rw [hg]
  rfl

/-- C5: counterexample to unrestricted `setSeriesData` idempotence.  From
the reachable state `c5Base` — built by public calls `setSeriesData(1, c5X)`
twice and `setSeriesData(2, c5Y)` — repeating `setSeriesData(1, c5X)` with
the valid, strictly ascending data set `c5X` does not reproduce the state
of the first call (even up to the object-graph observation `DLState.obs`),
and the second response carries `firstChangedPointIndex = 0` rather than
the specified `-1` (`none` marks the absent field). -/
theorem C5_counterexample :
    DLState.obs (setSeriesData twZero (setSeriesData twZero c5Base 1 c5X).1 1 c5X).1 ≠
      DLState.obs (setSeriesData twZero c5Base 1 c5X).1 ∧
    (setSeriesData twZero (setSeriesData twZero c5Base 1 c5X).1 1 c5X).2.firstChangedPointIndex ≠
      none := by decide

/-- C5: on a freshly constructed (empty) `DataLayer`, `setSeriesData` with a
valid, strictly time-ascending data set is idempotent up to the object-graph
observation `DLState.obs` (the arenas grow by fresh but observably equal
objects, mirroring the fresh JS objects the second call allocates): the
second call leaves every observable field unchanged, its response has
`firstChangedPointIndex = -1` (rendered as the absent field `none`) and no
`points` field, and its series map still echoes the series' row data. -/
theorem C5_fresh_idempotent (tw : Option Int → Int → Nat) (series : Nat) (X : List DataItem)
    (hasc : X.Pairwise (fun a b => a.time < b.time)) :
    DLState.obs (setSeriesData tw (setSeriesData tw DLState.empty series X).1 series X).1 =
      DLState.obs (setSeriesData tw DLState.empty series X).1 ∧
    (setSeriesData tw (setSeriesData tw DLState.empty series X).1 series
        X).2.firstChangedPointIndex = none ∧
    (setSeriesData tw (setSeriesData tw DLState.empty series X).1 series X).2.points = none ∧
    (setSeriesData tw (setSeriesData tw DLState.empty series X).1 series X).2.series.map
        (fun e => (e.1, e.2.data)) =
      [(series, derefRows (setSeriesData tw DLState.empty series X).1
          ((mapGet (setSeriesData tw DLState.empty series X).1.rowsBySeries series).getD []))] := by
  by_cases hne : X = []
  · subst hne
    exact ⟨rfl, rfl, rfl, rfl⟩
  · rw [setSeriesData_fresh tw series X hasc hne]
    rw [setSeriesData_fresh_again tw series X hasc hne]
    have hg1 : mapGet (freshLayer tw series X).rowsBySeries series = some (valIdx 0 X) := by
      show mapGet [(series, valIdx 0 X)] series = _
      simp [mapGet]
    have hg2 : mapGet (freshLayer2 tw series X).rowsBySeries series =
        some (valIdx X.length X) := by
      show mapGet [(series, valIdx X.length X)] series = _
      simp [mapGet]
    have hresp := getUpdateResponse_neg_one (freshLayer2 tw series X) series
      (valIdx X.length X)
      (seriesUpdateInfo (freshLayer2 tw series X)
        (mapGet (freshLayer2 tw series X).rowsBySeries series)
        (mapGet (freshLayer tw series X).rowsBySeries series)) hg2
    refine ⟨freshLayer2_obs tw series X, ?_, ?_, ?_⟩
    · show (getUpdateResponse (freshLayer2 tw series X) series (-1)
        (seriesUpdateInfo (freshLayer2 tw series X)
          (mapGet (freshLayer2 tw series X).rowsBySeries series)
          (mapGet (freshLayer tw series X).rowsBySeries series))).firstChangedPointIndex = none
      rw [hresp]
    · show (getUpdateResponse (freshLayer2 tw series X) series (-1)
        (seriesUpdateInfo (freshLayer2 tw series X)
          (mapGet (freshLayer2 tw series X).rowsBySeries series)
          (mapGet (freshLayer tw series X).rowsBySeries series))).points = none
      rw [hresp]
    · show (getUpdateResponse (freshLayer2 tw series X) series (-1)
        (seriesUpdateInfo (freshLayer2 tw series X)
          (mapGet (freshLayer2 tw series X).rowsBySeries series)
          (mapGet (freshLayer tw series X).rowsBySeries series))).series.map
          (fun e => (e.1, e.2.data)) =
        [(series, derefRows (freshLayer tw series X)
          ((mapGet (freshLayer tw series X).rowsBySeries series).getD []))]
      rw [hresp, hg1]
      show [(series, derefRows (freshLayer2 tw series X) (valIdx X.length X))] =
        [(series, derefRows (freshLayer tw series X) (valIdx 0 X))]
      rw [derefRows_fresh tw series X]

/-- A concrete valid, strictly ascending data set for the C5 witness. -/
def c5wX : List DataItem := [⟨1, ItemValue.single 5⟩, ⟨2, ItemValue.whitespace⟩]

theorem C5_fresh_idempotent_witness :
    (c5wX.Pairwise (fun a b => a.time < b.time)) ∧
    (DLState.obs (setSeriesData twZero (setSeriesData twZero DLState.empty 1 c5wX).1 1 c5wX).1 =
        DLState.obs (setSeriesData twZero DLState.empty 1 c5wX).1 ∧
      (setSeriesData twZero (setSeriesData twZero DLState.empty 1 c5wX).1 1
          c5wX).2.firstChangedPointIndex = none ∧
      (setSeriesData twZero (setSeriesData twZero DLState.empty 1 c5wX).1 1 c5wX).2.points =
        none ∧
      (setSeriesData twZero (setSeriesData twZero DLState.empty 1 c5wX).1 1 c5wX).2.series.map
          (fun e => (e.1, e.2.data)) =
        [(1, derefRows (setSeriesData twZero DLState.empty 1 c5wX).1
            ((mapGet (setSeriesData twZero DLState.empty 1 c5wX).1.rowsBySeries 1).getD []))]) :=
  ⟨by decide, C5_fresh_idempotent twZero 1 c5wX (by decide)⟩

/-- C6: after `a.merge(b)` the global level is at least the maximum of the
two prior global levels, and `b`'s time-scale invalidations are replayed
through the setters: each `FitContent`, `ApplyRange` or `Reset` entry
replaces the whole accumulated invalidation list with that single entry,
while `ApplyBarSpacing` and `ApplyRightOffset` entries are appended at the
end. -/
theorem C6_merge_monotonic_and_replay (a b : InvalidateMask) :
    max a.globalLevel b.globalLevel ≤ (a.merge b).globalLevel ∧
    (a.merge b).timeScaleInvalidations =
      b.timeScaleInvalidations.foldl
        (fun acc v => if isReplacingInvalidation v then [v] else acc ++ [v])
        a.timeScaleInvalidations := by
  constructor
  · show max a.globalLevel b.globalLevel ≤ _
    unfold InvalidateMask.merge
    rw [foldPane_level]
    simp only []
    rw [foldTSI_level]
  · show _ = _
    unfold InvalidateMask.merge
    rw [foldPane_ts]
    simp only []
    rw [foldTSI_ts]

end LWC
